import Mathlib

/-!
# Dense bin storage of LightGBM (`src/io/dense_bin.hpp`)

A shallow embedding of `DenseBin<VAL_T>` and `DenseBinIterator<VAL_T>`:

* the template parameter `VAL_T` (an unsigned integer type) is the bit width `w`;
  a value of type `VAL_T` is a natural number, and every conversion to `VAL_T`
  is an explicit reduction modulo `2 ^ w`;
* `uint32_t` arithmetic is reduced modulo `2 ^ 32`;
* `data_size_t` is a signed integer, modelled by `Int`;
* raw arrays (`data_size_t*`, `score_t*`, `HistogramBinEntry*`) and `std::vector`
  are lists; every access is bounds checked and an access outside the array
  (undefined behaviour in C++) makes the whole operation return `none`;
* the three output/input arrays of `Split` do not overlap;
* the floating point sums of a histogram entry live in a type `S` with an addition, taken
  to be exact (a commutative monoid such as the integers or the rationals) where a property
  needs it; the count of an entry is an integer that does not overflow.
-/

namespace LightGBM

/-! ## Machine arithmetic and memory -/

/-- Conversion `static_cast<VAL_T>(x)` to the unsigned storage type of `w` bits. -/
def castVal (w x : Nat) : Nat := x % 2 ^ w

/-- Sum of two `uint32_t` values. -/
def u32add (a b : Nat) : Nat := (a + b) % 2 ^ 32

/-- The statement `x -= 1` on a `VAL_T` variable: the result is converted back to `VAL_T`. -/
def decVal (w x : Nat) : Nat := (x + 2 ^ w - 1) % 2 ^ w

/-- Read `a[i]` for a `data_size_t` index; outside the array the read is undefined. -/
def readAt {α : Type} (a : List α) (i : Int) : Option α :=
  if 0 ≤ i then a[i.toNat]? else none

/-- Write `a[i] = x` for a `data_size_t` index; outside the array the write is undefined. -/
def writeAt {α : Type} (a : List α) (i : Int) (x : α) : Option (List α) :=
  if 0 ≤ i ∧ i.toNat < a.length then some (a.set i.toNat x) else none

/-- The loop `for (; i < bound; i += step) body(i)`, started at `i` in state `s`.
It returns the final value of `i` with the final state. -/
def forLoop {σ : Type} (bound step : Int) (hstep : 0 < step) (body : Int → σ → Option σ)
    (i : Int) (s : σ) : Option (Int × σ) :=
  if i < bound then
    match body i s with
    | none => none
    | some s' => forLoop bound step hstep body (i + step) s'
  else some (i, s)
termination_by (bound - i).toNat
decreasing_by omega

/-! ## Types declared in `LightGBM/bin.h` -/

/-- Modelled from the spec: the enumeration `MissingType` of `LightGBM/bin.h` (not in the
sources at hand), the missing-value policy `{None, Zero, NaN}` of the threshold descriptor. -/
inductive MissingType where
  | None
  | Zero
  | NaN
  deriving DecidableEq, Repr

/-- Modelled from the spec: the enumeration `BinType` of `LightGBM/bin.h` (not in the
sources at hand), `{Numerical, Categorical}`. -/
inductive BinType where
  | NumericalBin
  | CategoricalBin
  deriving DecidableEq, Repr

/-- Modelled from the spec: the struct `HistogramBinEntry` of `LightGBM/bin.h` (not in the
sources at hand), the per-bin aggregate `{sum_gradients, sum_hessians, count}`. The floating
point type of the sums is the parameter `S`; the count is an integer. -/
structure HistogramBinEntry (S : Type) where
  sum_gradients : S
  sum_hessians : S
  cnt : Int
  deriving DecidableEq, Repr

/-! ## The storage -/

/-- The class `DenseBin<VAL_T>`, with `VAL_T` an unsigned type of `w` bits. -/
structure DenseBin (w : Nat) where
  num_data_ : Int
  data_ : List Nat
  deriving DecidableEq, Repr

/-- The class `DenseBinIterator<VAL_T>`. -/
structure DenseBinIterator (w : Nat) where
  bin_data_ : DenseBin w
  min_bin_ : Nat
  max_bin_ : Nat
  default_bin_ : Nat
  bias_ : Nat
  deriving DecidableEq, Repr

/-- The constructor `DenseBinIterator(bin_data, min_bin, max_bin, default_bin)`. -/
def DenseBinIterator.new {w : Nat} (bin_data : DenseBin w) (min_bin max_bin default_bin : Nat) :
    DenseBinIterator w :=
  { bin_data_ := bin_data
    min_bin_ := castVal w min_bin
    max_bin_ := castVal w max_bin
    default_bin_ := castVal w default_bin
    bias_ := if castVal w default_bin = 0 then 1 else 0 }

/-- The method `DenseBin::GetIterator`. -/
def DenseBin.GetIterator {w : Nat} (self : DenseBin w) (min_bin max_bin default_bin : Nat) :
    DenseBinIterator w :=
  DenseBinIterator.new self min_bin max_bin default_bin

/-- The method `DenseBinIterator::Get`; the result is a `uint32_t`. -/
def DenseBinIterator.Get {w : Nat} (self : DenseBinIterator w) (idx : Int) : Option Nat :=
  match readAt self.bin_data_.data_ idx with
  | none => none
  | some ret =>
    if ret ≥ self.min_bin_ ∧ ret ≤ self.max_bin_ then
      some ((ret - self.min_bin_ + self.bias_) % 2 ^ 32)
    else
      some self.default_bin_

/-- The method `DenseBinIterator::RawGet`. -/
def DenseBinIterator.RawGet {w : Nat} (self : DenseBinIterator w) (idx : Int) : Option Nat :=
  readAt self.bin_data_.data_ idx

/-! ## Operations on the storage -/

/-- The constructor `DenseBin(num_data)`: `num_data` slots, each `0`. A negative size is not
a size a vector can have, and the construction fails. -/
def DenseBin.new (w : Nat) (num_data : Int) : Option (DenseBin w) :=
  if 0 ≤ num_data then some ⟨num_data, List.replicate num_data.toNat 0⟩ else none

/-- The invariant of the class: the vector `data_` has `num_data_` elements. -/
def DenseBin.WellFormed {w : Nat} (self : DenseBin w) : Prop :=
  (self.data_.length : Int) = self.num_data_

/-- The method `DenseBin::num_data`. -/
def DenseBin.num_data {w : Nat} (self : DenseBin w) : Int := self.num_data_

/-- The method `DenseBin::Push`; the first argument of the source is not used. -/
def DenseBin.Push {w : Nat} (self : DenseBin w) (_tid : Int) (idx : Int) (value : Nat) :
    Option (DenseBin w) :=
  match writeAt self.data_ idx (castVal w value) with
  | none => none
  | some d => some { self with data_ := d }

/-- The call `data_.resize(n)` of `std::vector`: the first `n` elements are kept and new
elements are `0`. -/
def vectorResize (data : List Nat) (n : Nat) : List Nat :=
  data.take n ++ List.replicate (n - data.length) 0

/-- The method `DenseBin::ReSize`. A negative size is not a size a vector can have, and the
resize fails. -/
def DenseBin.ReSize {w : Nat} (self : DenseBin w) (num_data : Int) : Option (DenseBin w) :=
  if self.num_data_ ≠ num_data then
    if 0 ≤ num_data then
      some { num_data_ := num_data, data_ := vectorResize self.data_ num_data.toNat }
    else none
  else some self

/-- The body `data_[i] = mem_data[local_used_indices[i]]` of the first loop of
`LoadFromMemory`. -/
def loadBodyIndexed (mem_data : List Nat) (local_used_indices : List Int) (i : Int)
    (data : List Nat) : Option (List Nat) :=
  match readAt local_used_indices i with
  | none => none
  | some j =>
    match readAt mem_data j with
    | none => none
    | some x => writeAt data i x

/-- The body `data_[i] = mem_data[i]` of the second loop of `LoadFromMemory`. -/
def loadBodyPlain (mem_data : List Nat) (i : Int) (data : List Nat) : Option (List Nat) :=
  match readAt mem_data i with
  | none => none
  | some x => writeAt data i x

/-- The method `DenseBin::LoadFromMemory`; `memory` is the buffer seen as an array of
`VAL_T` elements. -/
def DenseBin.LoadFromMemory {w : Nat} (self : DenseBin w) (memory : List Nat)
    (local_used_indices : List Int) : Option (DenseBin w) :=
  let fin : Option (Int × List Nat) :=
    if ¬ local_used_indices = [] then
      forLoop self.num_data_ 1 Int.one_pos (loadBodyIndexed memory local_used_indices) 0
        self.data_
    else
      forLoop self.num_data_ 1 Int.one_pos (loadBodyPlain memory) 0 self.data_
  match fin with
  | none => none
  | some (_, d) => some { self with data_ := d }

/-- The body `data_[i] = other_bin->data_[used_indices[i]]` of the loop of `CopySubset`. -/
def copyBody (other_data : List Nat) (used_indices : List Int) (i : Int) (data : List Nat) :
    Option (List Nat) :=
  match readAt used_indices i with
  | none => none
  | some j =>
    match readAt other_data j with
    | none => none
    | some x => writeAt data i x

/-- The method `DenseBin::CopySubset`. The source `full_bin` is a storage of the same width
(the `dynamic_cast` of the source succeeds) and another object than the destination. -/
def DenseBin.CopySubset {w : Nat} (self : DenseBin w) (full_bin : DenseBin w)
    (used_indices : List Int) (num_used_indices : Int) : Option (DenseBin w) :=
  match forLoop num_used_indices 1 Int.one_pos (copyBody full_bin.data_ used_indices) 0
      self.data_ with
  | none => none
  | some (_, d) => some { self with data_ := d }

/-- The method `DenseBin::SaveBinaryToFile`: the `num_data_` elements it writes to the file,
in storage order. -/
def DenseBin.SaveBinaryToFile {w : Nat} (self : DenseBin w) : Option (List Nat) :=
  if 0 ≤ self.num_data_ ∧ self.num_data_.toNat ≤ self.data_.length then
    some (self.data_.take self.num_data_.toNat)
  else none

/-! ## Split -/

/-- The output buffer a pair `(indices, count)` of pointers of `Split` refers to. -/
inductive Side where
  | lte
  | gt
  deriving DecidableEq, Repr

/-- The mutable state of `Split`: the two output buffers and their counters. -/
structure SplitState where
  lte_indices : List Int
  gt_indices : List Int
  lte_count : Int
  gt_count : Int
  deriving DecidableEq, Repr

/-- The statement `indices[count++] = idx` on the buffer and counter of one side. -/
def SplitState.put (st : SplitState) (side : Side) (idx : Int) : Option SplitState :=
  match side with
  | Side.lte =>
    match writeAt st.lte_indices st.lte_count idx with
    | none => none
    | some b => some { st with lte_indices := b, lte_count := st.lte_count + 1 }
  | Side.gt =>
    match writeAt st.gt_indices st.gt_count idx with
    | none => none
    | some b => some { st with gt_indices := b, gt_count := st.gt_count + 1 }

/-- The value of `th` after the set-up of `Split`. -/
def splitTh (w threshold min_bin default_bin : Nat) : Nat :=
  let th := castVal w (u32add threshold min_bin)
  if default_bin = 0 then decVal w th else th

/-- The value of `t_default_bin` after the set-up of `Split`. -/
def splitDefaultBin (w min_bin default_bin : Nat) : Nat :=
  let t_default_bin := castVal w (u32add min_bin default_bin)
  if default_bin = 0 then decVal w t_default_bin else t_default_bin

/-- The side `default_indices` points to when the scan of a numerical feature starts. -/
def numericalDefaultSide (missing_type : MissingType) (default_left : Bool)
    (default_bin threshold : Nat) : Side :=
  let d := Side.gt
  let d := if missing_type ≠ MissingType.Zero ∧ default_bin ≤ threshold then Side.lte else d
  let d := if default_left = true ∧ missing_type = MissingType.Zero then Side.lte else d
  d

/-- The side `missing_default_indices` points to in the `NaN` branch. -/
def missingDefaultSide (default_left : Bool) : Side :=
  if default_left = true then Side.lte else Side.gt

/-- The side `default_indices` points to when the scan of a categorical feature starts. -/
def categoricalDefaultSide (default_bin threshold : Nat) : Side :=
  if default_bin = threshold then Side.lte else Side.gt

/-- The body of the scan of a numerical feature with `missing_type == NaN`. -/
def splitBodyNaN (data : List Nat) (data_indices : List Int) (minb maxb t_default_bin th : Nat)
    (default_side missing_default_side : Side) (i : Int) (st : SplitState) :
    Option SplitState :=
  match readAt data_indices i with
  | none => none
  | some idx =>
    match readAt data idx with
    | none => none
    | some bin =>
      if bin < minb ∨ bin > maxb ∨ t_default_bin = bin then st.put default_side idx
      else if bin = maxb then st.put missing_default_side idx
      else if bin > th then st.put Side.gt idx
      else st.put Side.lte idx

/-- The body of the scan of a numerical feature with another `missing_type`. -/
def splitBodyNumerical (data : List Nat) (data_indices : List Int)
    (minb maxb t_default_bin th : Nat) (default_side : Side) (i : Int) (st : SplitState) :
    Option SplitState :=
  match readAt data_indices i with
  | none => none
  | some idx =>
    match readAt data idx with
    | none => none
    | some bin =>
      if bin < minb ∨ bin > maxb ∨ t_default_bin = bin then st.put default_side idx
      else if bin > th then st.put Side.gt idx
      else st.put Side.lte idx

/-- The body of the scan of a categorical feature. -/
def splitBodyCategorical (data : List Nat) (data_indices : List Int)
    (minb maxb t_default_bin th : Nat) (default_side : Side) (i : Int) (st : SplitState) :
    Option SplitState :=
  match readAt data_indices i with
  | none => none
  | some idx =>
    match readAt data idx with
    | none => none
    | some bin =>
      if bin < minb ∨ bin > maxb ∨ t_default_bin = bin then st.put default_side idx
      else if bin ≠ th then st.put Side.gt idx
      else st.put Side.lte idx

/-- What `Split` leaves behind: the returned `lte_count` and the two output buffers. -/
structure SplitResult where
  ret : Int
  lte_indices : List Int
  gt_indices : List Int
  deriving DecidableEq, Repr

/-- The method `DenseBin::Split`. -/
def DenseBin.Split {w : Nat} (self : DenseBin w) (min_bin max_bin default_bin : Nat)
    (missing_type : MissingType) (default_left : Bool) (threshold : Nat)
    (data_indices : List Int) (num_data : Int) (lte_indices gt_indices : List Int)
    (bin_type : BinType) : Option SplitResult :=
  if num_data ≤ 0 then some ⟨0, lte_indices, gt_indices⟩
  else
    let th := splitTh w threshold min_bin default_bin
    let minb := castVal w min_bin
    let maxb := castVal w max_bin
    let t_default_bin := splitDefaultBin w min_bin default_bin
    let st : SplitState := ⟨lte_indices, gt_indices, 0, 0⟩
    let fin : Option (Int × SplitState) :=
      if bin_type = BinType.NumericalBin then
        let default_side := numericalDefaultSide missing_type default_left default_bin threshold
        if missing_type = MissingType.NaN then
          forLoop num_data 1 Int.one_pos
            (splitBodyNaN self.data_ data_indices minb maxb t_default_bin th default_side
              (missingDefaultSide default_left)) 0 st
        else
          forLoop num_data 1 Int.one_pos
            (splitBodyNumerical self.data_ data_indices minb maxb t_default_bin th default_side)
            0 st
      else
        forLoop num_data 1 Int.one_pos
          (splitBodyCategorical self.data_ data_indices minb maxb t_default_bin th
            (categoricalDefaultSide default_bin threshold)) 0 st
    match fin with
    | none => none
    | some (_, st') => some ⟨st'.lte_count, st'.lte_indices, st'.gt_indices⟩

/-! ## ConstructHistogram -/

/-- The expression `num_data & 0x3` on a `data_size_t`: the two low bits of the two's
complement representation of `num_data`, which is the remainder of `num_data` modulo 4 that
lies in `0 .. 3`, for a negative `num_data` as well. -/
def lowTwoBits (num_data : Int) : Int := num_data % 4

/-- The statement `out[bin].sum_gradients += x`. -/
def addGradient {S : Type} [Add S] (out : List (HistogramBinEntry S)) (bin : Nat) (x : S) :
    Option (List (HistogramBinEntry S)) :=
  match out[bin]? with
  | none => none
  | some e => some (out.set bin { e with sum_gradients := e.sum_gradients + x })

/-- The statement `out[bin].sum_hessians += x`. -/
def addHessian {S : Type} [Add S] (out : List (HistogramBinEntry S)) (bin : Nat) (x : S) :
    Option (List (HistogramBinEntry S)) :=
  match out[bin]? with
  | none => none
  | some e => some (out.set bin { e with sum_hessians := e.sum_hessians + x })

/-- The statement `++out[bin].cnt`. -/
def incCount {S : Type} (out : List (HistogramBinEntry S)) (bin : Nat) :
    Option (List (HistogramBinEntry S)) :=
  match out[bin]? with
  | none => none
  | some e => some (out.set bin { e with cnt := e.cnt + 1 })

/-- The bin `data_[data_indices[i]]` the indexed modes read at position `i`. -/
def binOfIndexed (data : List Nat) (data_indices : List Int) (i : Int) : Option Nat :=
  match readAt data_indices i with
  | none => none
  | some idx => readAt data idx

/-- The bin `data_[i]` the full-range modes read at position `i`. -/
def binOfRange (data : List Nat) (i : Int) : Option Nat := readAt data i

/-- The body of the remainder loop of the modes with gradients and hessians; `rd i` is the
bin read at position `i`. -/
def histStep {S : Type} [Add S] (rd : Int → Option Nat) (ordered_gradients ordered_hessians :
    List S) (i : Int) (out : List (HistogramBinEntry S)) :
    Option (List (HistogramBinEntry S)) :=
  match rd i with
  | none => none
  | some bin =>
  match readAt ordered_gradients i with
  | none => none
  | some g =>
  match addGradient out bin g with
  | none => none
  | some out =>
  match readAt ordered_hessians i with
  | none => none
  | some h =>
  match addHessian out bin h with
  | none => none
  | some out =>
  incCount out bin

/-- The four statements `out[bin0].sum_gradients += ordered_gradients[i]` to
`out[bin3].sum_gradients += ordered_gradients[i + 3]` of the four-at-a-time loops. -/
def addGradient4 {S : Type} [Add S] (ordered_gradients : List S) (i : Int)
    (bin0 bin1 bin2 bin3 : Nat) (out : List (HistogramBinEntry S)) :
    Option (List (HistogramBinEntry S)) :=
  match readAt ordered_gradients i with
  | none => none
  | some g0 =>
  match addGradient out bin0 g0 with
  | none => none
  | some out =>
  match readAt ordered_gradients (i + 1) with
  | none => none
  | some g1 =>
  match addGradient out bin1 g1 with
  | none => none
  | some out =>
  match readAt ordered_gradients (i + 2) with
  | none => none
  | some g2 =>
  match addGradient out bin2 g2 with
  | none => none
  | some out =>
  match readAt ordered_gradients (i + 3) with
  | none => none
  | some g3 =>
  addGradient out bin3 g3

/-- The four statements `out[bin0].sum_hessians += ordered_hessians[i]` to
`out[bin3].sum_hessians += ordered_hessians[i + 3]` of the four-at-a-time loops. -/
def addHessian4 {S : Type} [Add S] (ordered_hessians : List S) (i : Int)
    (bin0 bin1 bin2 bin3 : Nat) (out : List (HistogramBinEntry S)) :
    Option (List (HistogramBinEntry S)) :=
  match readAt ordered_hessians i with
  | none => none
  | some h0 =>
  match addHessian out bin0 h0 with
  | none => none
  | some out =>
  match readAt ordered_hessians (i + 1) with
  | none => none
  | some h1 =>
  match addHessian out bin1 h1 with
  | none => none
  | some out =>
  match readAt ordered_hessians (i + 2) with
  | none => none
  | some h2 =>
  match addHessian out bin2 h2 with
  | none => none
  | some out =>
  match readAt ordered_hessians (i + 3) with
  | none => none
  | some h3 =>
  addHessian out bin3 h3

/-- The four statements `++out[bin0].cnt` to `++out[bin3].cnt` of the four-at-a-time
loops. -/
def incCount4 {S : Type} (bin0 bin1 bin2 bin3 : Nat) (out : List (HistogramBinEntry S)) :
    Option (List (HistogramBinEntry S)) :=
  match incCount out bin0 with
  | none => none
  | some out =>
  match incCount out bin1 with
  | none => none
  | some out =>
  match incCount out bin2 with
  | none => none
  | some out =>
  incCount out bin3

/-- The body of the four-at-a-time loop of the modes with gradients and hessians: the four
bins are read, then the gradients, the hessians and the counts are updated, each group in
the order of the positions; `rd i` is the bin read at position `i`. -/
def histBlock {S : Type} [Add S] (rd : Int → Option Nat) (ordered_gradients ordered_hessians :
    List S) (i : Int) (out : List (HistogramBinEntry S)) :
    Option (List (HistogramBinEntry S)) :=
  match rd i with
  | none => none
  | some bin0 =>
  match rd (i + 1) with
  | none => none
  | some bin1 =>
  match rd (i + 2) with
  | none => none
  | some bin2 =>
  match rd (i + 3) with
  | none => none
  | some bin3 =>
  match addGradient4 ordered_gradients i bin0 bin1 bin2 bin3 out with
  | none => none
  | some out =>
  match addHessian4 ordered_hessians i bin0 bin1 bin2 bin3 out with
  | none => none
  | some out =>
  incCount4 bin0 bin1 bin2 bin3 out

/-- The two loops shared by the modes with gradients and hessians: four positions at a time
up to `num_data - rest`, then the remaining positions one at a time. -/
def histLoops {S : Type} [Add S] (rd : Int → Option Nat) (num_data : Int)
    (ordered_gradients ordered_hessians : List S) (out : List (HistogramBinEntry S)) :
    Option (List (HistogramBinEntry S)) :=
  let rest := lowTwoBits num_data
  match forLoop (num_data - rest) 4 (by decide)
      (histBlock rd ordered_gradients ordered_hessians) 0 out with
  | none => none
  | some (i, out) =>
    match forLoop num_data 1 Int.one_pos
        (histStep rd ordered_gradients ordered_hessians) i out with
    | none => none
    | some (_, out) => some out

/-- The method `DenseBin::ConstructHistogram(data_indices, num_data, ordered_gradients,
ordered_hessians, out)`; the result is the final contents of `out`. -/
def DenseBin.ConstructHistogram {w : Nat} {S : Type} [Add S] (self : DenseBin w)
    (data_indices : List Int) (num_data : Int) (ordered_gradients ordered_hessians : List S)
    (out : List (HistogramBinEntry S)) : Option (List (HistogramBinEntry S)) :=
  histLoops (binOfIndexed self.data_ data_indices) num_data ordered_gradients
    ordered_hessians out

/-- The method `DenseBin::ConstructHistogram(num_data, ordered_gradients, ordered_hessians,
out)` over the full range; the result is the final contents of `out`. -/
def DenseBin.ConstructHistogramRange {w : Nat} {S : Type} [Add S] (self : DenseBin w)
    (num_data : Int) (ordered_gradients ordered_hessians : List S)
    (out : List (HistogramBinEntry S)) : Option (List (HistogramBinEntry S)) :=
  histLoops (binOfRange self.data_) num_data ordered_gradients ordered_hessians out

/-- The body of the remainder loop of the modes with gradients only; `rd i` is the bin read
at position `i`. -/
def histStepGrad {S : Type} [Add S] (rd : Int → Option Nat) (ordered_gradients : List S)
    (i : Int) (out : List (HistogramBinEntry S)) : Option (List (HistogramBinEntry S)) :=
  match rd i with
  | none => none
  | some bin =>
  match readAt ordered_gradients i with
  | none => none
  | some g =>
  match addGradient out bin g with
  | none => none
  | some out =>
  incCount out bin

/-- The body of the four-at-a-time loop of the modes with gradients only: the four bins are
read, then the gradients and the counts are updated, each group in the order of the
positions; `rd i` is the bin read at position `i`. -/
def histBlockGrad {S : Type} [Add S] (rd : Int → Option Nat) (ordered_gradients : List S)
    (i : Int) (out : List (HistogramBinEntry S)) : Option (List (HistogramBinEntry S)) :=
  match rd i with
  | none => none
  | some bin0 =>
  match rd (i + 1) with
  | none => none
  | some bin1 =>
  match rd (i + 2) with
  | none => none
  | some bin2 =>
  match rd (i + 3) with
  | none => none
  | some bin3 =>
  match addGradient4 ordered_gradients i bin0 bin1 bin2 bin3 out with
  | none => none
  | some out =>
  incCount4 bin0 bin1 bin2 bin3 out

/-- The two loops shared by the modes with gradients only: four positions at a time up to
`num_data - rest`, then the remaining positions one at a time. -/
def histLoopsGrad {S : Type} [Add S] (rd : Int → Option Nat) (num_data : Int)
    (ordered_gradients : List S) (out : List (HistogramBinEntry S)) :
    Option (List (HistogramBinEntry S)) :=
  let rest := lowTwoBits num_data
  match forLoop (num_data - rest) 4 (by decide) (histBlockGrad rd ordered_gradients) 0 out with
  | none => none
  | some (i, out) =>
    match forLoop num_data 1 Int.one_pos (histStepGrad rd ordered_gradients) i out with
    | none => none
    | some (_, out) => some out

/-- The method `DenseBin::ConstructHistogram(data_indices, num_data, ordered_gradients,
out)`, with gradients only; the result is the final contents of `out`. -/
def DenseBin.ConstructHistogramGrad {w : Nat} {S : Type} [Add S] (self : DenseBin w)
    (data_indices : List Int) (num_data : Int) (ordered_gradients : List S)
    (out : List (HistogramBinEntry S)) : Option (List (HistogramBinEntry S)) :=
  histLoopsGrad (binOfIndexed self.data_ data_indices) num_data ordered_gradients out

/-- The method `DenseBin::ConstructHistogram(num_data, ordered_gradients, out)` over the
full range, with gradients only; the result is the final contents of `out`. -/
def DenseBin.ConstructHistogramRangeGrad {w : Nat} {S : Type} [Add S] (self : DenseBin w)
    (num_data : Int) (ordered_gradients : List S) (out : List (HistogramBinEntry S)) :
    Option (List (HistogramBinEntry S)) :=
  histLoopsGrad (binOfRange self.data_) num_data ordered_gradients out

/-! ## Auxiliary functions used to state and prove the properties -/

/-- Apply `f` to the element at position `b` of a list, if there is one. -/
def mapAt {α : Type} (f : α → α) : Nat → List α → List α
  | _, [] => []
  | 0, a :: l => f a :: l
  | n + 1, a :: l => a :: mapAt f n l

/-- The effect of `sum_gradients += x` on an entry. -/
def gradF {S : Type} [Add S] (x : S) (e : HistogramBinEntry S) : HistogramBinEntry S :=
  { e with sum_gradients := e.sum_gradients + x }

/-- The effect of `sum_hessians += x` on an entry. -/
def hessF {S : Type} [Add S] (x : S) (e : HistogramBinEntry S) : HistogramBinEntry S :=
  { e with sum_hessians := e.sum_hessians + x }

/-- The effect of `++cnt` on an entry. -/
def cntF {S : Type} (e : HistogramBinEntry S) : HistogramBinEntry S :=
  { e with cnt := e.cnt + 1 }

/-- Run `body` at the `k` loop positions `i`, `i + step`, `i + 2 * step`, ... in turn. -/
def iterM {σ : Type} (body : Int → σ → Option σ) (step : Int) : Nat → Int → σ → Option σ
  | 0, _, s => some s
  | k + 1, i, s =>
    match body i s with
    | none => none
    | some s' => iterM body step k (i + step) s'

/-- Run `f` on the elements of a list in turn, threading the state. -/
def foldOpt {α σ : Type} (f : α → σ → Option σ) : List α → σ → Option σ
  | [], s => some s
  | x :: r, s =>
    match f x s with
    | none => none
    | some s' => foldOpt f r s'

/-- A loop body that reads `xs[i]` and then runs `f` on the value read. -/
def readThen {α σ : Type} (xs : List α) (f : α → σ → Option σ) (i : Int) (s : σ) : Option σ :=
  match readAt xs i with
  | none => none
  | some x => f x s

/-- The raw bin code `data_[idx]` of an example index that is in bounds. -/
def binAt (data : List Nat) (idx : Int) : Nat := (readAt data idx).getD 0

/-- The first `num_data` entries of an array. -/
def firstN {α : Type} (a : List α) (num_data : Int) : List α := a.take num_data.toNat

/-- The plain loop `for (i = 0; i < num_data; ++i) body(i)` that processes the positions
`0, 1, ..., num_data - 1` one at a time, the reference the four-at-a-time loops are compared
with; the result is the final state. -/
def plainLoop {σ : Type} (body : Int → σ → Option σ) (num_data : Int) (s : σ) : Option σ :=
  match forLoop num_data 1 Int.one_pos body 0 s with
  | none => none
  | some (_, s') => some s'

/-- The branch the `NaN` scan takes on a raw bin code. -/
def sideNaN (minb maxb t_default_bin th : Nat) (default_side missing_default_side : Side)
    (bin : Nat) : Side :=
  if bin < minb ∨ bin > maxb ∨ t_default_bin = bin then default_side
  else if bin = maxb then missing_default_side
  else if bin > th then Side.gt
  else Side.lte

/-- The branch the plain numerical scan takes on a raw bin code. -/
def sideNumerical (minb maxb t_default_bin th : Nat) (default_side : Side) (bin : Nat) : Side :=
  if bin < minb ∨ bin > maxb ∨ t_default_bin = bin then default_side
  else if bin > th then Side.gt
  else Side.lte

/-- The branch the categorical scan takes on a raw bin code. -/
def sideCategorical (minb maxb t_default_bin th : Nat) (default_side : Side) (bin : Nat) :
    Side :=
  if bin < minb ∨ bin > maxb ∨ t_default_bin = bin then default_side
  else if bin ≠ th then Side.gt
  else Side.lte

/-- The branch `Split` takes on a raw bin code, for a given threshold descriptor. -/
def splitSide (w min_bin max_bin default_bin : Nat) (missing_type : MissingType)
    (default_left : Bool) (threshold : Nat) (bin_type : BinType) (bin : Nat) : Side :=
  if bin_type = BinType.NumericalBin then
    if missing_type = MissingType.NaN then
      sideNaN (castVal w min_bin) (castVal w max_bin) (splitDefaultBin w min_bin default_bin)
        (splitTh w threshold min_bin default_bin)
        (numericalDefaultSide missing_type default_left default_bin threshold)
        (missingDefaultSide default_left) bin
    else
      sideNumerical (castVal w min_bin) (castVal w max_bin)
        (splitDefaultBin w min_bin default_bin) (splitTh w threshold min_bin default_bin)
        (numericalDefaultSide missing_type default_left default_bin threshold) bin
  else
    sideCategorical (castVal w min_bin) (castVal w max_bin)
      (splitDefaultBin w min_bin default_bin) (splitTh w threshold min_bin default_bin)
      (categoricalDefaultSide default_bin threshold) bin

/-- One step of a scan of `Split` once the example index is read: read its bin, write the
index to the side `sd` chooses. -/
def routeStep (data : List Nat) (sd : Nat → Side) (idx : Int) (st : SplitState) :
    Option SplitState :=
  match readAt data idx with
  | none => none
  | some bin => st.put (sd bin) idx

/-- The example indices of `xs`, in order, that a scan choosing sides by `sd` writes to
`lte_indices`. -/
def lteOf (data : List Nat) (sd : Nat → Side) (xs : List Int) : List Int :=
  xs.filter (fun idx => decide (sd (binAt data idx) = Side.lte))

/-- The example indices of `xs`, in order, that a scan choosing sides by `sd` writes to
`gt_indices`. -/
def gtOf (data : List Nat) (sd : Nat → Side) (xs : List Int) : List Int :=
  xs.filter (fun idx => decide (sd (binAt data idx) = Side.gt))

/-- The effect on the histogram of one pass of the one-at-a-time body that reads the bin
`e.1`, the gradient `e.2.1` and the hessian `e.2.2`. -/
def applyEvent {S : Type} [Add S] (e : Nat × S × S) (out : List (HistogramBinEntry S)) :
    List (HistogramBinEntry S) :=
  mapAt cntF e.1 (mapAt (hessF e.2.2) e.1 (mapAt (gradF e.2.1) e.1 out))

/-- The bin, gradient and hessian the indexed mode reads at position `i` when every read is
in bounds. -/
def eventAt {S : Type} [Zero S] (data : List Nat) (data_indices : List Int)
    (ordered_gradients ordered_hessians : List S) (i : Nat) : Nat × S × S :=
  (binAt data (data_indices.getD i 0), ordered_gradients.getD i 0, ordered_hessians.getD i 0)

/-- The positions `i < n`, in increasing order, at which the indexed mode reads the bin `b`:
those with `data_[data_indices[i]] = b`. -/
def positionsOf (data : List Nat) (data_indices : List Int) (n b : Nat) : List Nat :=
  (List.range n).filter (fun i => decide (binOfIndexed data data_indices (i : Int) = some b))

/-- An array whose entry at position `i` is the entry of `a` at position `p[i]`. -/
def permuteBy {α : Type} (p : List Nat) (a : List α) (d : α) : List α :=
  p.map (fun j => a.getD j d)

/-! ## The routing rules as the specification words them -/

/-- The rule of claim C3 for a numerical feature with `missing_type` `None` or `Zero`, with
`th` and `t_default_bin` computed as integers (so that they can be `-1`): `true` when the
raw bin `v` is routed to lte. -/
def specNumericalLte (min_bin max_bin default_bin threshold : Nat) (missing_type : MissingType)
    (default_left : Bool) (v : Nat) : Bool :=
  let dec : Int := if default_bin = 0 then 1 else 0
  let th : Int := (threshold : Int) + (min_bin : Int) - dec
  let t_default_bin : Int := (min_bin : Int) + (default_bin : Int) - dec
  if v < min_bin ∨ v > max_bin ∨ (v : Int) = t_default_bin then
    decide ((missing_type ≠ MissingType.Zero ∧ default_bin ≤ threshold)
      ∨ (default_left = true ∧ missing_type = MissingType.Zero))
  else decide ((v : Int) ≤ th)

/-- The rule of claim C3 with `th` and `t_default_bin` computed in the unsigned storage type
of `w` bits: both sums are reduced modulo `2 ^ w` and the decrement is modulo `2 ^ w` as
well, so that `0` decreased by 1 is `2 ^ w - 1`. -/
def widthNumericalLte (w min_bin max_bin default_bin threshold : Nat)
    (missing_type : MissingType) (default_left : Bool) (v : Nat) : Bool :=
  let th : Nat :=
    if default_bin = 0 then ((threshold + min_bin) % 2 ^ w + 2 ^ w - 1) % 2 ^ w
    else (threshold + min_bin) % 2 ^ w
  let t_default_bin : Nat :=
    if default_bin = 0 then ((min_bin + default_bin) % 2 ^ w + 2 ^ w - 1) % 2 ^ w
    else (min_bin + default_bin) % 2 ^ w
  if v < min_bin ∨ v > max_bin ∨ v = t_default_bin then
    decide ((missing_type ≠ MissingType.Zero ∧ default_bin ≤ threshold)
      ∨ (default_left = true ∧ missing_type = MissingType.Zero))
  else decide (v ≤ th)

/-- The three-way rule of the scan of a numerical feature with `missing_type` `NaN`, in
terms of the values `minb`, `maxb`, `t_default_bin` and `th` of the set-up of `Split`:
`true` when the raw bin `v` is routed to lte. -/
def specNaNLte (minb maxb t_default_bin th default_bin threshold : Nat) (default_left : Bool)
    (v : Nat) : Bool :=
  if v < minb ∨ v > maxb ∨ v = t_default_bin then decide (default_bin ≤ threshold)
  else if v = maxb then default_left
  else !decide (v > th)

/-- The rule of the scan of a categorical feature, in terms of the values `minb`, `maxb`,
`t_default_bin` and `th` of the set-up of `Split`: `true` when the raw bin `v` is routed to
lte. -/
def specCategoricalLte (minb maxb t_default_bin th default_bin threshold : Nat) (v : Nat) :
    Bool :=
  if v < minb ∨ v > maxb ∨ v = t_default_bin then decide (default_bin = threshold)
  else decide (v = th)

/-- The rule of claim C4 for a numerical feature with `missing_type` `NaN`, as the claim
words it: `th = threshold + min_bin` and `t_default_bin = min_bin + default_bin`, each
decreased by 1 when `default_bin = 0`, are plain integers (so that they can be `-1`);
`true` when the raw bin `v` is routed to lte. -/
def specNaNLteInt (min_bin max_bin default_bin threshold : Nat) (default_left : Bool)
    (v : Nat) : Bool :=
  let dec : Int := if default_bin = 0 then 1 else 0
  let th : Int := (threshold : Int) + (min_bin : Int) - dec
  let t_default_bin : Int := (min_bin : Int) + (default_bin : Int) - dec
  if v < min_bin ∨ v > max_bin ∨ (v : Int) = t_default_bin then decide (default_bin ≤ threshold)
  else if v = max_bin then default_left
  else !decide ((v : Int) > th)

/-- The rule of claim C4 with `th` and `t_default_bin` computed in the unsigned storage type
of `w` bits: both sums are reduced modulo `2 ^ w` and the decrement is modulo `2 ^ w` as
well, so that `0` decreased by 1 is `2 ^ w - 1`. -/
def widthNaNLte (w min_bin max_bin default_bin threshold : Nat) (default_left : Bool)
    (v : Nat) : Bool :=
  let th : Nat :=
    if default_bin = 0 then ((threshold + min_bin) % 2 ^ w + 2 ^ w - 1) % 2 ^ w
    else (threshold + min_bin) % 2 ^ w
  let t_default_bin : Nat :=
    if default_bin = 0 then ((min_bin + default_bin) % 2 ^ w + 2 ^ w - 1) % 2 ^ w
    else (min_bin + default_bin) % 2 ^ w
  if v < min_bin ∨ v > max_bin ∨ v = t_default_bin then decide (default_bin ≤ threshold)
  else if v = max_bin then default_left
  else !decide (v > th)

/-- The rule of claim C5 for a categorical feature, as the claim words it:
`th = threshold + min_bin` and `t_default_bin = min_bin + default_bin`, each decreased by 1
when `default_bin = 0`, are plain integers (so that they can be `-1`); `true` when the raw
bin `v` is routed to lte. -/
def specCategoricalLteInt (min_bin max_bin default_bin threshold : Nat) (v : Nat) : Bool :=
  let dec : Int := if default_bin = 0 then 1 else 0
  let th : Int := (threshold : Int) + (min_bin : Int) - dec
  let t_default_bin : Int := (min_bin : Int) + (default_bin : Int) - dec
  if v < min_bin ∨ v > max_bin ∨ (v : Int) = t_default_bin then decide (default_bin = threshold)
  else decide ((v : Int) = th)

/-- The rule of claim C5 with `th` and `t_default_bin` computed in the unsigned storage type
of `w` bits: both sums are reduced modulo `2 ^ w` and the decrement is modulo `2 ^ w` as
well, so that `0` decreased by 1 is `2 ^ w - 1`. -/
def widthCategoricalLte (w min_bin max_bin default_bin threshold : Nat) (v : Nat) : Bool :=
  let th : Nat :=
    if default_bin = 0 then ((threshold + min_bin) % 2 ^ w + 2 ^ w - 1) % 2 ^ w
    else (threshold + min_bin) % 2 ^ w
  let t_default_bin : Nat :=
    if default_bin = 0 then ((min_bin + default_bin) % 2 ^ w + 2 ^ w - 1) % 2 ^ w
    else (min_bin + default_bin) % 2 ^ w
  if v < min_bin ∨ v > max_bin ∨ v = t_default_bin then decide (default_bin = threshold)
  else decide (v = th)

/-- The test `get(idx) <= threshold` on the remapped bin an iterator exposes. -/
def iterLte {w : Nat} (it : DenseBinIterator w) (threshold : Nat) (idx : Int) : Bool :=
  match it.Get idx with
  | some g => decide (g ≤ threshold)
  | none => false

/-- The test `get(idx) > threshold` on the remapped bin an iterator exposes. -/
def iterGt {w : Nat} (it : DenseBinIterator w) (threshold : Nat) (idx : Int) : Bool :=
  match it.Get idx with
  | some g => decide (g > threshold)
  | none => false

/-! ## Concrete inputs -/

/-- A storage of 8-bit bins used to instantiate the properties. -/
def exampleBin : DenseBin 8 := ⟨5, [5, 1, 7, 2, 9]⟩

/-- A storage of 8-bit bins that holds the largest code `255`, on which the set-up of
`Split` wraps when `min_bin = 0` and `default_bin = 0`. -/
def wrapBin : DenseBin 8 := ⟨3, [255, 0, 7]⟩

/-- A storage of 8-bit bins with three distinct bins, used to instantiate the properties of
the histograms. -/
def histBin : DenseBin 8 := ⟨4, [1, 0, 2, 1]⟩

/-- The storage of scenario A of the specification, with 8-bit bins. -/
def scenarioA : DenseBin 8 := ⟨6, [0, 1, 2, 3, 1, 0]⟩

/-- The storage of scenario A of the specification, with 2-bit bins (codes 0 to 3). -/
def scenarioA2 : DenseBin 2 := ⟨6, [0, 1, 2, 3, 1, 0]⟩

/-- A storage of 32-bit bins that holds the largest code. -/
def wideBin : DenseBin 32 := ⟨1, [4294967295]⟩

/-- The storage of scenario C of the specification, with 8-bit bins. -/
def scenarioC : DenseBin 8 := ⟨4, [0, 1, 2, 3]⟩

/-! # Properties -/

/-! ## Loops -/

theorem forLoop_eq_iterM {σ : Type} (bound step : Int) (hstep : 0 < step)
    (body : Int → σ → Option σ) :
    ∀ (k : Nat) (i : Int) (s : σ), bound ≤ i + k * step →
      (∀ j : Nat, j < k → i + j * step < bound) →
      forLoop bound step hstep body i s
        = (iterM body step k i s).map (fun s' => (i + k * step, s')) := by
  intro k
  induction k with
  | zero =>
    intro i s hb _
    rw [forLoop]
    have : ¬ i < bound := by simpa using hb
    simp [this, iterM]
  | succ k ih =>
    intro i s hb hlt
    rw [forLoop]
    have h0 : i < bound := by simpa using hlt 0 (Nat.succ_pos k)
    simp only [h0, if_true, iterM]
    cases hbody : body i s with
    | none => simp
    | some s' =>
      simp only
      rw [ih (i + step) s']
      · have e : i + step + (k : Int) * step = i + ((k + 1 : Nat) : Int) * step := by
          push_cast; ring
        rw [e]
      · have e : i + step + (k : Int) * step = i + ((k + 1 : Nat) : Int) * step := by
          push_cast; ring
        rw [e]; exact hb
      · intro j hj
        have := hlt (j + 1) (Nat.succ_lt_succ hj)
        have e : i + step + (j : Int) * step = i + ((j + 1 : Nat) : Int) * step := by
          push_cast; ring
        rw [e]; exact this

/-- A loop with step 1 from 0 runs its body at the positions `0, ..., bound - 1`. -/
theorem forLoop_one {σ : Type} (bound : Int) (body : Int → σ → Option σ) (s : σ) :
    forLoop bound 1 Int.one_pos body 0 s
      = (iterM body 1 bound.toNat 0 s).map (fun s' => ((bound.toNat : Int), s')) := by
  rw [forLoop_eq_iterM bound 1 Int.one_pos body bound.toNat 0 s]
  · simp
  · simp only [mul_one, zero_add]; omega
  · intro j hj; simp only [mul_one, zero_add]; omega

theorem readAt_natCast {α : Type} (a : List α) (j : Nat) : readAt a (j : Int) = a[j]? := by
  simp [readAt]

theorem iterM_read {α σ : Type} (xs : List α) (f : α → σ → Option σ) :
    ∀ (k j : Nat) (s : σ), j + k ≤ xs.length →
      iterM (readThen xs f) 1 k (j : Int) s = foldOpt f ((xs.drop j).take k) s := by
  intro k
  induction k with
  | zero => intro j s _; simp [iterM, foldOpt]
  | succ k ih =>
    intro j s h
    have hj : j < xs.length := by omega
    have hd : xs.drop j = xs[j] :: xs.drop (j + 1) := by
      rw [List.drop_eq_getElem_cons hj]
    simp only [iterM, readThen, readAt_natCast, List.getElem?_eq_getElem hj, hd,
      List.take_succ_cons, foldOpt]
    cases f xs[j] s with
    | none => rfl
    | some s' =>
      have := ih (j + 1) s' (by omega)
      simpa using this

/-! ## The scans of `Split` -/

theorem take_succ_set {α : Type} (x : α) :
    ∀ (l : List α) (a : Nat), a < l.length → (l.set a x).take (a + 1) = l.take a ++ [x] := by
  intro l
  induction l with
  | nil => intro a h; simp at h
  | cons y l ih =>
    intro a h
    cases a with
    | zero => simp
    | succ a =>
      have := ih a (by simpa using h)
      simp [this]

theorem splitBodyNaN_eq (data : List Nat) (data_indices : List Int)
    (minb maxb t_default_bin th : Nat) (d md : Side) :
    splitBodyNaN data data_indices minb maxb t_default_bin th d md
      = readThen data_indices (routeStep data (sideNaN minb maxb t_default_bin th d md)) := by
  funext i st
  unfold splitBodyNaN readThen routeStep sideNaN
  cases readAt data_indices i with
  | none => rfl
  | some idx =>
    simp only
    cases readAt data idx with
    | none => rfl
    | some bin => simp only; split_ifs <;> rfl

theorem splitBodyNumerical_eq (data : List Nat) (data_indices : List Int)
    (minb maxb t_default_bin th : Nat) (d : Side) :
    splitBodyNumerical data data_indices minb maxb t_default_bin th d
      = readThen data_indices (routeStep data (sideNumerical minb maxb t_default_bin th d)) := by
  funext i st
  unfold splitBodyNumerical readThen routeStep sideNumerical
  cases readAt data_indices i with
  | none => rfl
  | some idx =>
    simp only
    cases readAt data idx with
    | none => rfl
    | some bin => simp only; split_ifs <;> rfl

theorem splitBodyCategorical_eq (data : List Nat) (data_indices : List Int)
    (minb maxb t_default_bin th : Nat) (d : Side) :
    splitBodyCategorical data data_indices minb maxb t_default_bin th d
      = readThen data_indices (routeStep data (sideCategorical minb maxb t_default_bin th d)) := by
  funext i st
  unfold splitBodyCategorical readThen routeStep sideCategorical
  cases readAt data_indices i with
  | none => rfl
  | some idx =>
    simp only
    cases readAt data idx with
    | none => rfl
    | some bin => simp only; split_ifs <;> rfl

theorem readAt_binAt (data : List Nat) (idx : Int) (h0 : 0 ≤ idx) (h1 : idx < data.length) :
    readAt data idx = some (binAt data idx) := by
  have h : idx.toNat < data.length := by omega
  simp [binAt, readAt, h0, List.getElem?_eq_getElem h]

theorem side_cases (s : Side) : s = Side.lte ∨ s = Side.gt := by
  cases s <;> simp

theorem foldOpt_routeStep (data : List Nat) (sd : Nat → Side) :
    ∀ (xs : List Int) (st : SplitState) (a b : Nat),
      st.lte_count = a → st.gt_count = b →
      (∀ idx ∈ xs, 0 ≤ idx ∧ idx < data.length) →
      a + (lteOf data sd xs).length ≤ st.lte_indices.length →
      b + (gtOf data sd xs).length ≤ st.gt_indices.length →
      foldOpt (routeStep data sd) xs st = some
        { lte_indices := st.lte_indices.take a ++ lteOf data sd xs
            ++ st.lte_indices.drop (a + (lteOf data sd xs).length)
          gt_indices := st.gt_indices.take b ++ gtOf data sd xs
            ++ st.gt_indices.drop (b + (gtOf data sd xs).length)
          lte_count := (a + (lteOf data sd xs).length : Nat)
          gt_count := (b + (gtOf data sd xs).length : Nat) } := by
  intro xs
  induction xs with
  | nil =>
    intro st a b ha hb _ _ _
    cases st
    simp_all [foldOpt, lteOf, gtOf]
  | cons idx rest ih =>
    intro st a b ha hb hin hl hg
    have hidx := hin idx (List.mem_cons_self _ _)
    have hrest : ∀ i ∈ rest, 0 ≤ i ∧ i < data.length :=
      fun i hi => hin i (List.mem_cons_of_mem _ hi)
    have hr := readAt_binAt data idx hidx.1 hidx.2
    rcases side_cases (sd (binAt data idx)) with hs | hs
    · have e1 : lteOf data sd (idx :: rest) = idx :: lteOf data sd rest := by
        simp [lteOf, hs]
      have e2 : gtOf data sd (idx :: rest) = gtOf data sd rest := by
        simp [gtOf, hs]
      rw [e1] at hl ⊢
      rw [e2] at hg ⊢
      simp only [List.length_cons] at hl ⊢
      have hlt : a < st.lte_indices.length := by omega
      have hw : writeAt st.lte_indices st.lte_count idx = some (st.lte_indices.set a idx) := by
        simp [writeAt, ha, hlt]
      simp only [foldOpt, routeStep, hr, hs, SplitState.put, hw]
      rw [ih _ (a + 1) b (by simp [ha]) (by simp [hb]) hrest
        (by simp only [List.length_set]; omega) (by simpa using hg)]
      simp only [take_succ_set idx _ a hlt,
        List.drop_set_of_lt idx st.lte_indices
          (show a < a + 1 + (lteOf data sd rest).length by omega)]
      have e3 : a + 1 + (lteOf data sd rest).length = a + ((lteOf data sd rest).length + 1) := by
        omega
      simp [e3]
    · have e1 : lteOf data sd (idx :: rest) = lteOf data sd rest := by
        simp [lteOf, hs]
      have e2 : gtOf data sd (idx :: rest) = idx :: gtOf data sd rest := by
        simp [gtOf, hs]
      rw [e1] at hl ⊢
      rw [e2] at hg ⊢
      simp only [List.length_cons] at hg ⊢
      have hlt : b < st.gt_indices.length := by omega
      have hw : writeAt st.gt_indices st.gt_count idx = some (st.gt_indices.set b idx) := by
        simp [writeAt, hb, hlt]
      simp only [foldOpt, routeStep, hr, hs, SplitState.put, hw]
      rw [ih _ a (b + 1) (by simp [ha]) (by simp [hb]) hrest
        (by simpa using hl) (by simp only [List.length_set]; omega)]
      simp only [take_succ_set idx _ b hlt,
        List.drop_set_of_lt idx st.gt_indices
          (show b < b + 1 + (gtOf data sd rest).length by omega)]
      have e3 : b + 1 + (gtOf data sd rest).length = b + ((gtOf data sd rest).length + 1) := by
        omega
      simp [e3]

theorem lteOf_length_le (data : List Nat) (sd : Nat → Side) (xs : List Int) :
    (lteOf data sd xs).length ≤ xs.length := by
  unfold lteOf; exact List.length_filter_le _ _

theorem gtOf_length_le (data : List Nat) (sd : Nat → Side) (xs : List Int) :
    (gtOf data sd xs).length ≤ xs.length := by
  unfold gtOf; exact List.length_filter_le _ _

theorem firstN_length {α : Type} (a : List α) (num_data : Int) :
    (firstN a num_data).length ≤ num_data.toNat := by
  unfold firstN; simp

/-- A whole scan of `Split`: the loop over the positions `0 .. num_data - 1` writes the
indices of each side, in order, at the front of the buffer of that side. -/
theorem scan_eq (data : List Nat) (data_indices : List Int) (sd : Nat → Side) (num_data : Int)
    (L G : List Int)
    (hlen : num_data ≤ data_indices.length)
    (hidx : ∀ idx ∈ firstN data_indices num_data, 0 ≤ idx ∧ idx < data.length)
    (hL : num_data ≤ L.length) (hG : num_data ≤ G.length) :
    forLoop num_data 1 Int.one_pos (readThen data_indices (routeStep data sd)) 0 ⟨L, G, 0, 0⟩
      = some ((num_data.toNat : Int),
          { lte_indices := lteOf data sd (firstN data_indices num_data)
              ++ L.drop (lteOf data sd (firstN data_indices num_data)).length
            gt_indices := gtOf data sd (firstN data_indices num_data)
              ++ G.drop (gtOf data sd (firstN data_indices num_data)).length
            lte_count := ((lteOf data sd (firstN data_indices num_data)).length : Nat)
            gt_count := ((gtOf data sd (firstN data_indices num_data)).length : Nat) }) := by
  rw [forLoop_one]
  have h1 : 0 + num_data.toNat ≤ data_indices.length := by omega
  have h2 := iterM_read data_indices (routeStep data sd) num_data.toNat 0 ⟨L, G, 0, 0⟩ h1
  simp only [Nat.cast_zero, List.drop_zero] at h2
  rw [h2]
  have hx := firstN_length data_indices num_data
  have h3 := lteOf_length_le data sd (firstN data_indices num_data)
  have h4 := gtOf_length_le data sd (firstN data_indices num_data)
  have h5 := foldOpt_routeStep data sd (firstN data_indices num_data) ⟨L, G, 0, 0⟩ 0 0
    (by simp) (by simp) hidx (by simp only []; omega) (by simp only []; omega)
  unfold firstN at h5 ⊢
  rw [h5]
  simp

/-- What `Split` computes: the function `splitSide` of the raw bin decides the side of each
of the first `num_data` indices, and each side is written in order at the front of its
buffer. -/
theorem Split_eq {w : Nat} (self : DenseBin w) (min_bin max_bin default_bin : Nat)
    (missing_type : MissingType) (default_left : Bool) (threshold : Nat)
    (data_indices : List Int) (num_data : Int) (lte_indices gt_indices : List Int)
    (bin_type : BinType)
    (hlen : num_data ≤ data_indices.length)
    (hidx : ∀ idx ∈ firstN data_indices num_data, 0 ≤ idx ∧ idx < self.data_.length)
    (hL : num_data ≤ lte_indices.length) (hG : num_data ≤ gt_indices.length) :
    self.Split min_bin max_bin default_bin missing_type default_left threshold data_indices
        num_data lte_indices gt_indices bin_type
      = some
        { ret := ((lteOf self.data_
              (splitSide w min_bin max_bin default_bin missing_type default_left threshold
                bin_type) (firstN data_indices num_data)).length : Nat)
          lte_indices := lteOf self.data_
              (splitSide w min_bin max_bin default_bin missing_type default_left threshold
                bin_type) (firstN data_indices num_data)
            ++ lte_indices.drop (lteOf self.data_
              (splitSide w min_bin max_bin default_bin missing_type default_left threshold
                bin_type) (firstN data_indices num_data)).length
          gt_indices := gtOf self.data_
              (splitSide w min_bin max_bin default_bin missing_type default_left threshold
                bin_type) (firstN data_indices num_data)
            ++ gt_indices.drop (gtOf self.data_
              (splitSide w min_bin max_bin default_bin missing_type default_left threshold
                bin_type) (firstN data_indices num_data)).length } := by
  by_cases hn : num_data ≤ 0
  · have h0 : num_data.toNat = 0 := by omega
    simp [DenseBin.Split, hn, firstN, h0, lteOf, gtOf]
  · unfold DenseBin.Split
    simp only [hn, if_false]
    by_cases hb : bin_type = BinType.NumericalBin
    · by_cases hm : missing_type = MissingType.NaN
      · have e : splitSide w min_bin max_bin default_bin missing_type default_left threshold
            bin_type = sideNaN (castVal w min_bin) (castVal w max_bin)
              (splitDefaultBin w min_bin default_bin) (splitTh w threshold min_bin default_bin)
              (numericalDefaultSide missing_type default_left default_bin threshold)
              (missingDefaultSide default_left) := by
          funext bin; simp [splitSide, hb, hm]
        rw [e]
        simp only [hb, hm, if_true, splitBodyNaN_eq]
        rw [scan_eq _ _ _ _ _ _ hlen hidx hL hG]
      · have e : splitSide w min_bin max_bin default_bin missing_type default_left threshold
            bin_type = sideNumerical (castVal w min_bin) (castVal w max_bin)
              (splitDefaultBin w min_bin default_bin) (splitTh w threshold min_bin default_bin)
              (numericalDefaultSide missing_type default_left default_bin threshold) := by
          funext bin; simp [splitSide, hb, hm]
        rw [e]
        simp only [hb, hm, if_true, if_false, splitBodyNumerical_eq]
        rw [scan_eq _ _ _ _ _ _ hlen hidx hL hG]
    · have e : splitSide w min_bin max_bin default_bin missing_type default_left threshold
          bin_type = sideCategorical (castVal w min_bin) (castVal w max_bin)
            (splitDefaultBin w min_bin default_bin) (splitTh w threshold min_bin default_bin)
            (categoricalDefaultSide default_bin threshold) := by
        funext bin; simp [splitSide, hb]
      rw [e]
      simp only [hb, if_false, splitBodyCategorical_eq]
      rw [scan_eq _ _ _ _ _ _ hlen hidx hL hG]

theorem gtOf_eq_filter_not (data : List Nat) (sd : Nat → Side) (xs : List Int) :
    gtOf data sd xs = xs.filter (fun idx => !decide (sd (binAt data idx) = Side.lte)) := by
  unfold gtOf
  congr 1
  funext idx
  cases sd (binAt data idx) <;> simp

theorem lteOf_append_gtOf_perm (data : List Nat) (sd : Nat → Side) (xs : List Int) :
    (lteOf data sd xs ++ gtOf data sd xs).Perm xs := by
  rw [gtOf_eq_filter_not]
  exact List.filter_append_perm _ xs

theorem lteOf_length_add (data : List Nat) (sd : Nat → Side) (xs : List Int) :
    (lteOf data sd xs).length + (gtOf data sd xs).length = xs.length := by
  have := (lteOf_append_gtOf_perm data sd xs).length_eq
  simpa using this

theorem firstN_append_drop {α : Type} (xs rest : List α) :
    firstN (xs ++ rest) ((xs.length : Nat) : Int) = xs := by
  simp [firstN]

/-- The form of the result of `Split` the properties below are read from: with `xs` the
first `num_data` input indices, the written part of each output buffer is the sublist of `xs`
of that side, the rest of each buffer is as before. -/
theorem Split_spec {w : Nat} (self : DenseBin w) (min_bin max_bin default_bin : Nat)
    (missing_type : MissingType) (default_left : Bool) (threshold : Nat)
    (data_indices : List Int) (num_data : Int) (lte_indices gt_indices : List Int)
    (bin_type : BinType)
    (hn : 0 ≤ num_data) (hlen : num_data ≤ data_indices.length)
    (hidx : ∀ idx ∈ firstN data_indices num_data, 0 ≤ idx ∧ idx < self.data_.length)
    (hL : num_data ≤ lte_indices.length) (hG : num_data ≤ gt_indices.length) :
    ∃ r : SplitResult,
      self.Split min_bin max_bin default_bin missing_type default_left threshold data_indices
        num_data lte_indices gt_indices bin_type = some r ∧
      firstN r.lte_indices r.ret = lteOf self.data_
        (splitSide w min_bin max_bin default_bin missing_type default_left threshold bin_type)
        (firstN data_indices num_data) ∧
      firstN r.gt_indices (num_data - r.ret) = gtOf self.data_
        (splitSide w min_bin max_bin default_bin missing_type default_left threshold bin_type)
        (firstN data_indices num_data) ∧
      0 ≤ r.ret ∧ r.ret ≤ num_data ∧
      r.lte_indices.length = lte_indices.length ∧
      r.gt_indices.length = gt_indices.length ∧
      r.lte_indices.drop r.ret.toNat = lte_indices.drop r.ret.toNat ∧
      r.gt_indices.drop (num_data - r.ret).toNat
        = gt_indices.drop (num_data - r.ret).toNat := by
  refine ⟨_, Split_eq self min_bin max_bin default_bin missing_type default_left threshold
    data_indices num_data lte_indices gt_indices bin_type hlen hidx hL hG, ?_⟩
  generalize hsd : splitSide w min_bin max_bin default_bin missing_type default_left threshold
    bin_type = sd
  have hadd := lteOf_length_add self.data_ sd (firstN data_indices num_data)
  have hxs : (firstN data_indices num_data).length = num_data.toNat := by
    unfold firstN; rw [List.length_take]; omega
  have hsub : num_data - ((lteOf self.data_ sd (firstN data_indices num_data)).length : Nat)
      = ((gtOf self.data_ sd (firstN data_indices num_data)).length : Nat) := by
    omega
  simp only [hsub, firstN_append_drop, Int.toNat_ofNat, List.length_append,
    List.length_drop, List.drop_append_of_le_length (le_refl _), List.drop_length,
    List.nil_append, true_and]
  exact ⟨by omega, by omega, by omega, by omega, trivial⟩

theorem lteOf_disjoint_gtOf (data : List Nat) (sd : Nat → Side) (xs : List Int) :
    ∀ idx, idx ∈ lteOf data sd xs → idx ∈ gtOf data sd xs → False := by
  intro idx h1 h2
  simp only [lteOf, gtOf, List.mem_filter, decide_eq_true_eq] at h1 h2
  rw [h1.2] at h2
  exact absurd h2.2 (by decide)

/-! ## Claims on `Split` -/

/-- Claim C1. For every storage, threshold descriptor and input of `num_data ≥ 0` in-bounds
example indices (output buffers of at least `num_data` entries), `Split` returns an
`lte_count` with `0 ≤ lte_count ≤ num_data`; it writes exactly the first `lte_count` entries
of `lte_indices` and the first `gt_count = num_data - lte_count` entries of `gt_indices`
(the rest of each buffer keeps its contents); the written part of `lte_indices` followed by
the written part of `gt_indices` is a permutation of the input; every input index is on
exactly one side; and for an input without duplicates the two sides are duplicate-free and
disjoint. -/
theorem Split_partition {w : Nat} (self : DenseBin w) (min_bin max_bin default_bin : Nat)
    (missing_type : MissingType) (default_left : Bool) (threshold : Nat)
    (data_indices : List Int) (num_data : Int) (lte_indices gt_indices : List Int)
    (bin_type : BinType)
    (hn : 0 ≤ num_data) (hlen : num_data ≤ data_indices.length)
    (hidx : ∀ idx ∈ firstN data_indices num_data, 0 ≤ idx ∧ idx < self.data_.length)
    (hL : num_data ≤ lte_indices.length) (hG : num_data ≤ gt_indices.length) :
    ∃ r : SplitResult,
      self.Split min_bin max_bin default_bin missing_type default_left threshold data_indices
        num_data lte_indices gt_indices bin_type = some r ∧
      0 ≤ r.ret ∧ r.ret ≤ num_data ∧
      r.lte_indices.length = lte_indices.length ∧
      r.gt_indices.length = gt_indices.length ∧
      r.lte_indices.drop r.ret.toNat = lte_indices.drop r.ret.toNat ∧
      r.gt_indices.drop (num_data - r.ret).toNat
        = gt_indices.drop (num_data - r.ret).toNat ∧
      (firstN r.lte_indices r.ret).length = r.ret.toNat ∧
      (firstN r.gt_indices (num_data - r.ret)).length = (num_data - r.ret).toNat ∧
      (firstN r.lte_indices r.ret ++ firstN r.gt_indices (num_data - r.ret)).Perm
        (firstN data_indices num_data) ∧
      (∀ idx ∈ firstN data_indices num_data,
        (idx ∈ firstN r.lte_indices r.ret ∧ idx ∉ firstN r.gt_indices (num_data - r.ret)) ∨
        (idx ∉ firstN r.lte_indices r.ret ∧ idx ∈ firstN r.gt_indices (num_data - r.ret))) ∧
      ((firstN data_indices num_data).Nodup →
        (firstN r.lte_indices r.ret).Nodup ∧
        (firstN r.gt_indices (num_data - r.ret)).Nodup ∧
        List.Disjoint (firstN r.lte_indices r.ret)
          (firstN r.gt_indices (num_data - r.ret))) := by
  obtain ⟨r, hr, h1, h2, h3, h4, h5, h6, h7, h8⟩ :=
    Split_spec self min_bin max_bin default_bin missing_type default_left threshold
      data_indices num_data lte_indices gt_indices bin_type hn hlen hidx hL hG
  refine ⟨r, hr, h3, h4, h5, h6, h7, h8, ?_, ?_, ?_, ?_, ?_⟩
  · unfold firstN; rw [List.length_take]; omega
  · unfold firstN; rw [List.length_take]; omega
  · rw [h1, h2]; exact lteOf_append_gtOf_perm _ _ _
  · intro idx hmem
    rw [h1, h2]
    have hp := (lteOf_append_gtOf_perm self.data_
      (splitSide w min_bin max_bin default_bin missing_type default_left threshold bin_type)
      (firstN data_indices num_data)).mem_iff.mpr hmem
    rcases List.mem_append.mp hp with h | h
    · exact Or.inl ⟨h, fun h' => lteOf_disjoint_gtOf _ _ _ idx h h'⟩
    · exact Or.inr ⟨fun h' => lteOf_disjoint_gtOf _ _ _ idx h' h, h⟩
  · intro hnd
    rw [h1, h2]
    refine ⟨hnd.sublist (List.filter_sublist _), hnd.sublist (List.filter_sublist _), ?_⟩
    intro idx ha hb
    exact lteOf_disjoint_gtOf _ _ _ idx ha hb

/-- Claim C2. `Split` is a stable partition: for every descriptor (so in each of the three
scan loops) the written part of `lte_indices` and the written part of `gt_indices` are each
a subsequence of the input `data_indices[0..num_data)`, in the order of the input. -/
theorem Split_stable {w : Nat} (self : DenseBin w) (min_bin max_bin default_bin : Nat)
    (missing_type : MissingType) (default_left : Bool) (threshold : Nat)
    (data_indices : List Int) (num_data : Int) (lte_indices gt_indices : List Int)
    (bin_type : BinType)
    (hn : 0 ≤ num_data) (hlen : num_data ≤ data_indices.length)
    (hidx : ∀ idx ∈ firstN data_indices num_data, 0 ≤ idx ∧ idx < self.data_.length)
    (hL : num_data ≤ lte_indices.length) (hG : num_data ≤ gt_indices.length) :
    ∃ r : SplitResult,
      self.Split min_bin max_bin default_bin missing_type default_left threshold data_indices
        num_data lte_indices gt_indices bin_type = some r ∧
      (firstN r.lte_indices r.ret).Sublist (firstN data_indices num_data) ∧
      (firstN r.gt_indices (num_data - r.ret)).Sublist (firstN data_indices num_data) := by
  obtain ⟨r, hr, h1, h2, _⟩ :=
    Split_spec self min_bin max_bin default_bin missing_type default_left threshold
      data_indices num_data lte_indices gt_indices bin_type hn hlen hidx hL hG
  refine ⟨r, hr, ?_, ?_⟩
  · rw [h1]; exact List.filter_sublist _
  · rw [h2]; exact List.filter_sublist _

theorem Split_partition_witness :
    (0 : Int) ≤ 5 ∧ (5 : Int) ≤ ([4, 0, 2, 1, 3] : List Int).length ∧
    (∀ idx ∈ firstN ([4, 0, 2, 1, 3] : List Int) 5, 0 ≤ idx ∧ idx < exampleBin.data_.length) ∧
    (5 : Int) ≤ ([0, 0, 0, 0, 0, 0] : List Int).length ∧
    (5 : Int) ≤ ([0, 0, 0, 0, 0] : List Int).length ∧
    ∃ r : SplitResult,
      exampleBin.Split 1 7 3 MissingType.NaN true 2 [4, 0, 2, 1, 3] 5 [0, 0, 0, 0, 0, 0]
        [0, 0, 0, 0, 0] BinType.NumericalBin = some r ∧
      0 ≤ r.ret ∧ r.ret ≤ 5 ∧
      r.lte_indices.length = ([0, 0, 0, 0, 0, 0] : List Int).length ∧
      r.gt_indices.length = ([0, 0, 0, 0, 0] : List Int).length ∧
      r.lte_indices.drop r.ret.toNat = ([0, 0, 0, 0, 0, 0] : List Int).drop r.ret.toNat ∧
      r.gt_indices.drop (5 - r.ret).toNat
        = ([0, 0, 0, 0, 0] : List Int).drop (5 - r.ret).toNat ∧
      (firstN r.lte_indices r.ret).length = r.ret.toNat ∧
      (firstN r.gt_indices (5 - r.ret)).length = (5 - r.ret).toNat ∧
      (firstN r.lte_indices r.ret ++ firstN r.gt_indices (5 - r.ret)).Perm
        (firstN [4, 0, 2, 1, 3] 5) ∧
      (∀ idx ∈ firstN ([4, 0, 2, 1, 3] : List Int) 5,
        (idx ∈ firstN r.lte_indices r.ret ∧ idx ∉ firstN r.gt_indices (5 - r.ret)) ∨
        (idx ∉ firstN r.lte_indices r.ret ∧ idx ∈ firstN r.gt_indices (5 - r.ret))) ∧
      ((firstN ([4, 0, 2, 1, 3] : List Int) 5).Nodup →
        (firstN r.lte_indices r.ret).Nodup ∧
        (firstN r.gt_indices (5 - r.ret)).Nodup ∧
        List.Disjoint (firstN r.lte_indices r.ret) (firstN r.gt_indices (5 - r.ret))) :=
  ⟨by decide, by decide, by decide, by decide, by decide,
    Split_partition exampleBin 1 7 3 MissingType.NaN true 2 [4, 0, 2, 1, 3] 5
      [0, 0, 0, 0, 0, 0] [0, 0, 0, 0, 0] BinType.NumericalBin
      (by decide) (by decide) (by decide) (by decide) (by decide)⟩

theorem Split_stable_witness :
    (0 : Int) ≤ 4 ∧ (4 : Int) ≤ ([3, 3, 0, 1, 2] : List Int).length ∧
    (∀ idx ∈ firstN ([3, 3, 0, 1, 2] : List Int) 4, 0 ≤ idx ∧ idx < exampleBin.data_.length) ∧
    (4 : Int) ≤ ([7, 7, 7, 7] : List Int).length ∧
    (4 : Int) ≤ ([8, 8, 8, 8] : List Int).length ∧
    ∃ r : SplitResult,
      exampleBin.Split 1 7 0 MissingType.Zero false 2 [3, 3, 0, 1, 2] 4 [7, 7, 7, 7]
        [8, 8, 8, 8] BinType.CategoricalBin = some r ∧
      (firstN r.lte_indices r.ret).Sublist (firstN [3, 3, 0, 1, 2] 4) ∧
      (firstN r.gt_indices (4 - r.ret)).Sublist (firstN [3, 3, 0, 1, 2] 4) :=
  ⟨by decide, by decide, by decide, by decide, by decide,
    Split_stable exampleBin 1 7 0 MissingType.Zero false 2 [3, 3, 0, 1, 2] 4
      [7, 7, 7, 7] [8, 8, 8, 8] BinType.CategoricalBin
      (by decide) (by decide) (by decide) (by decide) (by decide)⟩

/-! ### The routing rules -/

theorem mod_u32_mod (w x : Nat) (hw : w ≤ 32) : x % 2 ^ 32 % 2 ^ w = x % 2 ^ w :=
  Nat.mod_mod_of_dvd x (pow_dvd_pow 2 hw)

theorem lteOf_eq_filter (data : List Nat) (sd : Nat → Side) (rule : Nat → Bool)
    (h : ∀ v, decide (sd v = Side.lte) = rule v) (xs : List Int) :
    lteOf data sd xs = xs.filter (fun idx => rule (binAt data idx)) ∧
    gtOf data sd xs = xs.filter (fun idx => !rule (binAt data idx)) := by
  rw [gtOf_eq_filter_not]
  unfold lteOf
  constructor
  · congr 1; funext idx; exact h _
  · congr 1; funext idx; rw [h]

theorem splitSide_numerical (w min_bin max_bin default_bin threshold : Nat)
    (missing_type : MissingType) (default_left : Bool) (hw : w ≤ 32)
    (hmin : min_bin < 2 ^ w) (hmax : max_bin < 2 ^ w) (hm : missing_type ≠ MissingType.NaN)
    (v : Nat) :
    decide (splitSide w min_bin max_bin default_bin missing_type default_left threshold
      BinType.NumericalBin v = Side.lte)
      = widthNumericalLte w min_bin max_bin default_bin threshold missing_type default_left
          v := by
  simp only [splitSide, hm, if_true, if_false, sideNumerical, numericalDefaultSide, splitTh,
    splitDefaultBin, castVal, u32add, decVal, widthNumericalLte, mod_u32_mod _ _ hw,
    Nat.mod_eq_of_lt hmin, Nat.mod_eq_of_lt hmax]
  generalize (if default_bin = 0 then ((threshold + min_bin) % 2 ^ w + 2 ^ w - 1) % 2 ^ w
    else (threshold + min_bin) % 2 ^ w) = th
  generalize (if default_bin = 0 then ((min_bin + default_bin) % 2 ^ w + 2 ^ w - 1) % 2 ^ w
    else (min_bin + default_bin) % 2 ^ w) = t
  by_cases hc : v < min_bin ∨ v > max_bin ∨ v = t
  · have hc' : v < min_bin ∨ v > max_bin ∨ t = v := by omega
    simp only [hc, hc', if_true]
    cases missing_type <;> cases default_left <;> simp at hm ⊢
  · have hc' : ¬ (v < min_bin ∨ v > max_bin ∨ t = v) := by omega
    simp only [hc, hc', if_false]
    by_cases h2 : v > th
    · simp [h2]
    · simp [h2]; omega

theorem splitSide_nan (w min_bin max_bin default_bin threshold : Nat) (default_left : Bool)
    (v : Nat) :
    decide (splitSide w min_bin max_bin default_bin MissingType.NaN default_left threshold
      BinType.NumericalBin v = Side.lte)
      = specNaNLte (castVal w min_bin) (castVal w max_bin)
          (splitDefaultBin w min_bin default_bin) (splitTh w threshold min_bin default_bin)
          default_bin threshold default_left v := by
  simp only [splitSide, if_true, sideNaN, numericalDefaultSide, missingDefaultSide, specNaNLte]
  generalize splitTh w threshold min_bin default_bin = th
  generalize splitDefaultBin w min_bin default_bin = t
  generalize castVal w min_bin = minb
  generalize castVal w max_bin = maxb
  by_cases hc : v < minb ∨ v > maxb ∨ v = t
  · have hc' : v < minb ∨ v > maxb ∨ t = v := by omega
    simp only [hc, hc', if_true]
    cases default_left <;> simp
  · have hc' : ¬ (v < minb ∨ v > maxb ∨ t = v) := by omega
    simp only [hc, hc', if_false]
    by_cases h1 : v = maxb
    · simp only [h1, if_true]
      cases default_left <;> simp
    · simp only [h1, if_false]
      by_cases h2 : v > th
      · simp [h2]
      · simp [h2]

theorem splitSide_categorical (w min_bin max_bin default_bin threshold : Nat)
    (missing_type : MissingType) (default_left : Bool) (v : Nat) :
    decide (splitSide w min_bin max_bin default_bin missing_type default_left threshold
      BinType.CategoricalBin v = Side.lte)
      = specCategoricalLte (castVal w min_bin) (castVal w max_bin)
          (splitDefaultBin w min_bin default_bin) (splitTh w threshold min_bin default_bin)
          default_bin threshold v := by
  have hb : ¬ BinType.CategoricalBin = BinType.NumericalBin := by decide
  simp only [splitSide, hb, if_false, sideCategorical, categoricalDefaultSide,
    specCategoricalLte]
  generalize splitTh w threshold min_bin default_bin = th
  generalize splitDefaultBin w min_bin default_bin = t
  generalize castVal w min_bin = minb
  generalize castVal w max_bin = maxb
  by_cases hc : v < minb ∨ v > maxb ∨ v = t
  · have hc' : v < minb ∨ v > maxb ∨ t = v := by omega
    simp only [hc, hc', if_true]
    by_cases h1 : default_bin = threshold <;> simp [h1]
  · have hc' : ¬ (v < minb ∨ v > maxb ∨ t = v) := by omega
    simp only [hc, hc', if_false]
    by_cases h1 : v = th <;> simp [h1]

theorem Split_eval_zero_threshold :
    scenarioC.Split 0 3 0 MissingType.None false 0 [0, 1, 2, 3] 4 [-1, -1, -1, -1]
      [-1, -1, -1, -1] BinType.NumericalBin = some ⟨4, [0, 1, 2, 3], [-1, -1, -1, -1]⟩ := by
  simp [DenseBin.Split, forLoop, splitBodyNumerical, readAt, writeAt, SplitState.put,
    scenarioC, splitTh, splitDefaultBin, castVal, u32add, decVal, numericalDefaultSide]

/-- Claim C3 fails as stated. With 8-bit bins `[0, 1, 2, 3]`, `min_bin = 0`, `max_bin = 3`,
`default_bin = 0`, `threshold = 0` and `missing_type` `None`, the integer `th` of the claim
is `-1`, so the rule of the claim sends every index to gt and none to lte; in `Split` the
variable `th` of type `VAL_T` wraps to `255` and every index is written to `lte_indices`. -/
theorem Split_numerical_integer_rule_counterexample :
    scenarioC.Split 0 3 0 MissingType.None false 0 [0, 1, 2, 3] 4 [-1, -1, -1, -1]
      [-1, -1, -1, -1] BinType.NumericalBin = some ⟨4, [0, 1, 2, 3], [-1, -1, -1, -1]⟩ ∧
    (firstN ([0, 1, 2, 3] : List Int) 4).filter
      (fun idx => specNumericalLte 0 3 0 0 MissingType.None false (binAt scenarioC.data_ idx))
      = [] ∧
    ¬ ∃ r : SplitResult,
      scenarioC.Split 0 3 0 MissingType.None false 0 [0, 1, 2, 3] 4 [-1, -1, -1, -1]
        [-1, -1, -1, -1] BinType.NumericalBin = some r ∧
      firstN r.lte_indices r.ret = (firstN ([0, 1, 2, 3] : List Int) 4).filter
        (fun idx => specNumericalLte 0 3 0 0 MissingType.None false
          (binAt scenarioC.data_ idx)) ∧
      firstN r.gt_indices (4 - r.ret) = (firstN ([0, 1, 2, 3] : List Int) 4).filter
        (fun idx => !specNumericalLte 0 3 0 0 MissingType.None false
          (binAt scenarioC.data_ idx)) := by
  have hf : (firstN ([0, 1, 2, 3] : List Int) 4).filter
      (fun idx => specNumericalLte 0 3 0 0 MissingType.None false (binAt scenarioC.data_ idx))
      = [] := by decide
  refine ⟨Split_eval_zero_threshold, hf, ?_⟩
  rintro ⟨r, hr, h1, _⟩
  rw [Split_eval_zero_threshold] at hr
  cases hr
  rw [hf] at h1
  revert h1
  decide

/-- Claim C3, amended. For a numerical feature with `missing_type` `None` or `Zero`, a
storage type of `w ≤ 32` bits and `min_bin`, `max_bin` that fit it, the lte output of `Split`
is exactly the input indices, in order, whose raw bin `v` satisfies the rule of the claim
with `th` and `t_default_bin` computed in the storage type (reduced modulo `2 ^ w`, and `0`
decreased by 1 is `2 ^ w - 1`), and the gt output is the rest. On scenario C, `th` is `0`
and the result is lte `[0]`, gt `[1, 2, 3]`, `lte_count = 1`. -/
theorem Split_numerical_rule {w : Nat} (self : DenseBin w) (min_bin max_bin default_bin : Nat)
    (missing_type : MissingType) (default_left : Bool) (threshold : Nat)
    (data_indices : List Int) (num_data : Int) (lte_indices gt_indices : List Int)
    (hw : w ≤ 32) (hmin : min_bin < 2 ^ w) (hmax : max_bin < 2 ^ w)
    (hm : missing_type ≠ MissingType.NaN)
    (hn : 0 ≤ num_data) (hlen : num_data ≤ data_indices.length)
    (hidx : ∀ idx ∈ firstN data_indices num_data, 0 ≤ idx ∧ idx < self.data_.length)
    (hL : num_data ≤ lte_indices.length) (hG : num_data ≤ gt_indices.length) :
    (∃ r : SplitResult,
      self.Split min_bin max_bin default_bin missing_type default_left threshold data_indices
        num_data lte_indices gt_indices BinType.NumericalBin = some r ∧
      firstN r.lte_indices r.ret = (firstN data_indices num_data).filter
        (fun idx => widthNumericalLte w min_bin max_bin default_bin threshold missing_type
          default_left (binAt self.data_ idx)) ∧
      firstN r.gt_indices (num_data - r.ret) = (firstN data_indices num_data).filter
        (fun idx => !widthNumericalLte w min_bin max_bin default_bin threshold missing_type
          default_left (binAt self.data_ idx))) ∧
    (splitTh 8 1 0 0 = 0 ∧
      ∀ default_left' : Bool,
        scenarioC.Split 0 3 0 MissingType.None default_left' 1 [0, 1, 2, 3] 4
          [-1, -1, -1, -1] [-1, -1, -1, -1] BinType.NumericalBin
          = some ⟨1, [0, -1, -1, -1], [1, 2, 3, -1]⟩) := by
  constructor
  · obtain ⟨r, hr, h1, h2, _⟩ :=
      Split_spec self min_bin max_bin default_bin missing_type default_left threshold
        data_indices num_data lte_indices gt_indices BinType.NumericalBin hn hlen hidx hL hG
    have h := lteOf_eq_filter self.data_ _ _
      (splitSide_numerical w min_bin max_bin default_bin threshold missing_type default_left
        hw hmin hmax hm) (firstN data_indices num_data)
    exact ⟨r, hr, h1.trans h.1, h2.trans h.2⟩
  · refine ⟨by decide, ?_⟩
    intro default_left'
    cases default_left' <;>
    simp [DenseBin.Split, forLoop, splitBodyNumerical, readAt, writeAt, SplitState.put,
      scenarioC, splitTh, splitDefaultBin, castVal, u32add, decVal, numericalDefaultSide]

theorem Split_numerical_rule_witness :
    (8 ≤ 32 ∧ 2 < 2 ^ 8 ∧ 7 < 2 ^ 8 ∧ MissingType.Zero ≠ MissingType.NaN ∧
      (0 : Int) ≤ 5 ∧ (5 : Int) ≤ ([0, 1, 2, 3, 4] : List Int).length ∧
      (∀ idx ∈ firstN ([0, 1, 2, 3, 4] : List Int) 5,
        0 ≤ idx ∧ idx < exampleBin.data_.length) ∧
      (5 : Int) ≤ ([0, 0, 0, 0, 0] : List Int).length ∧
      (5 : Int) ≤ ([0, 0, 0, 0, 0] : List Int).length) ∧
    ∃ r : SplitResult,
      exampleBin.Split 2 7 0 MissingType.Zero true 3 [0, 1, 2, 3, 4] 5 [0, 0, 0, 0, 0]
        [0, 0, 0, 0, 0] BinType.NumericalBin = some r ∧
      firstN r.lte_indices r.ret = (firstN ([0, 1, 2, 3, 4] : List Int) 5).filter
        (fun idx => widthNumericalLte 8 2 7 0 3 MissingType.Zero true
          (binAt exampleBin.data_ idx)) ∧
      firstN r.gt_indices (5 - r.ret) = (firstN ([0, 1, 2, 3, 4] : List Int) 5).filter
        (fun idx => !widthNumericalLte 8 2 7 0 3 MissingType.Zero true
          (binAt exampleBin.data_ idx)) :=
  ⟨⟨by decide, by decide, by decide, by decide, by decide, by decide, by decide, by decide,
      by decide⟩,
    (Split_numerical_rule exampleBin 2 7 0 MissingType.Zero true 3 [0, 1, 2, 3, 4] 5
      [0, 0, 0, 0, 0] [0, 0, 0, 0, 0] (by decide) (by decide) (by decide) (by decide)
      (by decide) (by decide) (by decide) (by decide) (by decide)).1⟩

/-- When nothing wraps, the set-up of `Split` computes the plain integers: `min_bin`,
`max_bin`, `th = threshold + min_bin` and `t_default_bin = min_bin + default_bin`, the last
two decreased by 1 when `default_bin = 0`. -/
theorem setup_exact (w min_bin max_bin default_bin threshold : Nat) (hw : w ≤ 32)
    (hmin : min_bin < 2 ^ w) (hmax : max_bin < 2 ^ w) (hth : threshold + min_bin < 2 ^ w)
    (hd : min_bin + default_bin < 2 ^ w) (hb : default_bin = 0 → 1 ≤ min_bin) :
    castVal w min_bin = min_bin ∧ castVal w max_bin = max_bin ∧
    (splitTh w threshold min_bin default_bin : Int)
      = (threshold : Int) + min_bin - (if default_bin = 0 then 1 else 0) ∧
    (splitDefaultBin w min_bin default_bin : Int)
      = (min_bin : Int) + default_bin - (if default_bin = 0 then 1 else 0) := by
  have h32 : 2 ^ w ≤ 2 ^ 32 := Nat.pow_le_pow_right (by decide) hw
  have hdec : ∀ x : Nat, 1 ≤ x → x < 2 ^ w → decVal w x = x - 1 := by
    intro x h1 h2
    unfold decVal
    have e : x + 2 ^ w - 1 = (x - 1) + 2 ^ w := by omega
    rw [e, Nat.add_mod_right, Nat.mod_eq_of_lt (by omega)]
  have e1 : castVal w (u32add threshold min_bin) = threshold + min_bin := by
    unfold castVal u32add
    rw [Nat.mod_eq_of_lt (show threshold + min_bin < 2 ^ 32 by omega), Nat.mod_eq_of_lt hth]
  have e2 : castVal w (u32add min_bin default_bin) = min_bin + default_bin := by
    unfold castVal u32add
    rw [Nat.mod_eq_of_lt (show min_bin + default_bin < 2 ^ 32 by omega), Nat.mod_eq_of_lt hd]
  refine ⟨Nat.mod_eq_of_lt hmin, Nat.mod_eq_of_lt hmax, ?_, ?_⟩
  · unfold splitTh
    simp only [e1]
    by_cases h0 : default_bin = 0
    · have := hb h0
      simp only [h0, if_true]
      rw [hdec _ (by omega) hth]
      omega
    · simp [h0]
  · unfold splitDefaultBin
    simp only [e2]
    by_cases h0 : default_bin = 0
    · have := hb h0
      simp only [h0, if_true]
      rw [hdec _ (by omega) (by omega)]
      omega
    · simp [h0]

theorem iterator_rule {w : Nat} (self : DenseBin w) (min_bin max_bin default_bin threshold : Nat)
    (default_left : Bool) (hw : w ≤ 32)
    (hmin : min_bin < 2 ^ w) (hmax : max_bin < 2 ^ w) (hth : threshold + min_bin < 2 ^ w)
    (hd : min_bin + default_bin < 2 ^ w) (hb : default_bin = 0 → 1 ≤ min_bin)
    (idx : Int) (h0 : 0 ≤ idx) (h1 : idx < self.data_.length) :
    decide (splitSide w min_bin max_bin default_bin MissingType.None default_left threshold
        BinType.NumericalBin (binAt self.data_ idx) = Side.lte)
      = iterLte (self.GetIterator min_bin max_bin default_bin) threshold idx ∧
    (!decide (splitSide w min_bin max_bin default_bin MissingType.None default_left threshold
        BinType.NumericalBin (binAt self.data_ idx) = Side.lte))
      = iterGt (self.GetIterator min_bin max_bin default_bin) threshold idx := by
  obtain ⟨c1, c2, c3, c4⟩ := setup_exact w min_bin max_bin default_bin threshold hw hmin hmax
    hth hd hb
  have h32 : 2 ^ w ≤ 2 ^ 32 := Nat.pow_le_pow_right (by decide) hw
  have hr := readAt_binAt self.data_ idx h0 h1
  have cd : castVal w default_bin = default_bin := Nat.mod_eq_of_lt (by omega)
  have hm : ¬ MissingType.None = MissingType.NaN := by decide
  have hz : MissingType.None ≠ MissingType.Zero := by decide
  simp only [iterLte, iterGt, DenseBin.GetIterator, DenseBinIterator.new, DenseBinIterator.Get,
    hr, c1, c2, cd, splitSide, hm, if_true, if_false, sideNumerical, numericalDefaultSide]
  generalize binAt self.data_ idx = v
  generalize splitTh w threshold min_bin default_bin = th at c3 ⊢
  generalize splitDefaultBin w min_bin default_bin = t at c4 ⊢
  by_cases hd0 : default_bin = 0
  · have := hb hd0
    subst hd0
    simp only [if_true] at c3 c4 ⊢
    by_cases hc : v < min_bin ∨ v > max_bin ∨ t = v
    · have hc' : ¬ (v ≥ min_bin ∧ v ≤ max_bin) := by omega
      simp [hc, hc']
    · have hc' : v ≥ min_bin ∧ v ≤ max_bin := by omega
      have e : (v - min_bin + 1) % 2 ^ 32 = v - min_bin + 1 := Nat.mod_eq_of_lt (by omega)
      simp only [hc, hc', if_true, if_false, and_self, e]
      by_cases h2 : v > th
      · have : ¬ (v - min_bin + 1 ≤ threshold) := by omega
        have : v - min_bin + 1 > threshold := by omega
        simp [*]
      · have : (v - min_bin + 1 ≤ threshold) := by omega
        have : ¬ v - min_bin + 1 > threshold := by omega
        simp [*]
  · simp only [hd0, if_false] at c3 c4 ⊢
    by_cases hc : v < min_bin ∨ v > max_bin ∨ t = v
    · by_cases hc' : v ≥ min_bin ∧ v ≤ max_bin
      · have e : (v - min_bin + 0) % 2 ^ 32 = v - min_bin := Nat.mod_eq_of_lt (by omega)
        have e2 : v - min_bin = default_bin := by omega
        simp only [hc, hc', if_true, and_self, e, e2]
        by_cases h3 : default_bin ≤ threshold <;> simp [h3, hz] <;> omega
      · simp only [hc, hc', if_true, if_false]
        by_cases h3 : default_bin ≤ threshold
        · simp [h3, hz]
        · simp [h3, hz]; omega
    · have hc' : v ≥ min_bin ∧ v ≤ max_bin := by omega
      have e : (v - min_bin + 0) % 2 ^ 32 = v - min_bin := Nat.mod_eq_of_lt (by omega)
      simp only [hc, hc', if_true, if_false, and_self, e]
      by_cases h2 : v > th
      · have : ¬ (v - min_bin ≤ threshold) := by omega
        have : v - min_bin > threshold := by omega
        simp [*]
      · have : (v - min_bin ≤ threshold) := by omega
        have : ¬ v - min_bin > threshold := by omega
        simp [*]

theorem splitSide_nan_width (w min_bin max_bin default_bin threshold : Nat)
    (default_left : Bool) (hw : w ≤ 32) (hmin : min_bin < 2 ^ w) (hmax : max_bin < 2 ^ w)
    (v : Nat) :
    decide (splitSide w min_bin max_bin default_bin MissingType.NaN default_left threshold
      BinType.NumericalBin v = Side.lte)
      = widthNaNLte w min_bin max_bin default_bin threshold default_left v := by
  rw [splitSide_nan]
  simp only [specNaNLte, widthNaNLte, splitTh, splitDefaultBin, castVal, u32add, decVal,
    mod_u32_mod _ _ hw, Nat.mod_eq_of_lt hmin, Nat.mod_eq_of_lt hmax]

theorem splitSide_categorical_width (w min_bin max_bin default_bin threshold : Nat)
    (missing_type : MissingType) (default_left : Bool) (hw : w ≤ 32)
    (hmin : min_bin < 2 ^ w) (hmax : max_bin < 2 ^ w) (v : Nat) :
    decide (splitSide w min_bin max_bin default_bin missing_type default_left threshold
      BinType.CategoricalBin v = Side.lte)
      = widthCategoricalLte w min_bin max_bin default_bin threshold v := by
  rw [splitSide_categorical]
  simp only [specCategoricalLte, widthCategoricalLte, splitTh, splitDefaultBin, castVal,
    u32add, decVal, mod_u32_mod _ _ hw, Nat.mod_eq_of_lt hmin, Nat.mod_eq_of_lt hmax]

/-- A sum that fits the storage type and is at least 1 is decreased by 1 without wrapping. -/
theorem modDec_exact (w x : Nat) (h1 : 1 ≤ x) (h2 : x < 2 ^ w) :
    (x % 2 ^ w + 2 ^ w - 1) % 2 ^ w = x - 1 := by
  rw [Nat.mod_eq_of_lt h2]
  have e : x + 2 ^ w - 1 = (x - 1) + 2 ^ w := by omega
  rw [e, Nat.add_mod_right, Nat.mod_eq_of_lt (by omega)]

/-- When `threshold + min_bin` and `min_bin + default_bin` fit the storage type and
`min_bin ≥ 1` whenever `default_bin = 0`, nothing wraps and the rule computed in the storage
type is the rule of claim C4 on plain integers. -/
theorem widthNaNLte_eq_spec (w min_bin max_bin default_bin threshold : Nat)
    (default_left : Bool) (hth : threshold + min_bin < 2 ^ w)
    (hd : min_bin + default_bin < 2 ^ w) (hb : default_bin = 0 → 1 ≤ min_bin) (v : Nat) :
    widthNaNLte w min_bin max_bin default_bin threshold default_left v
      = specNaNLteInt min_bin max_bin default_bin threshold default_left v := by
  unfold widthNaNLte specNaNLteInt
  by_cases h0 : default_bin = 0
  · have h1 := hb h0
    simp only [h0, if_true, modDec_exact w (threshold + min_bin) (by omega) hth,
      modDec_exact w (min_bin + 0) (by omega) (by omega)]
    by_cases hc : v < min_bin ∨ v > max_bin ∨ v = min_bin + 0 - 1
    · have hc' : v < min_bin ∨ v > max_bin ∨
          (v : Int) = (min_bin : Int) + ((0 : Nat) : Int) - 1 := by
        omega
      simp only [hc, hc', if_true]
    · have hc' : ¬ (v < min_bin ∨ v > max_bin ∨
          (v : Int) = (min_bin : Int) + ((0 : Nat) : Int) - 1) := by
        omega
      simp only [hc, hc', if_false]
      by_cases hm : v = max_bin
      · simp only [hm, if_true]
      · simp only [hm, if_false]
        have e : (v > threshold + min_bin - 1) ↔
            ((v : Int) > (threshold : Int) + (min_bin : Int) - 1) := by
          omega
        simp only [e]
  · simp only [h0, if_false, Nat.mod_eq_of_lt hth, Nat.mod_eq_of_lt hd]
    by_cases hc : v < min_bin ∨ v > max_bin ∨ v = min_bin + default_bin
    · have hc' : v < min_bin ∨ v > max_bin ∨
          (v : Int) = (min_bin : Int) + (default_bin : Int) - 0 := by
        omega
      simp only [hc, hc', if_true]
    · have hc' : ¬ (v < min_bin ∨ v > max_bin ∨
          (v : Int) = (min_bin : Int) + (default_bin : Int) - 0) := by
        omega
      simp only [hc, hc', if_false]
      by_cases hm : v = max_bin
      · simp only [hm, if_true]
      · simp only [hm, if_false]
        have e : (v > threshold + min_bin) ↔
            ((v : Int) > (threshold : Int) + (min_bin : Int) - 0) := by
          omega
        simp only [e]

/-- When `threshold + min_bin` and `min_bin + default_bin` fit the storage type and
`min_bin ≥ 1` whenever `default_bin = 0`, nothing wraps and the rule computed in the storage
type is the rule of claim C5 on plain integers. -/
theorem widthCategoricalLte_eq_spec (w min_bin max_bin default_bin threshold : Nat)
    (hth : threshold + min_bin < 2 ^ w) (hd : min_bin + default_bin < 2 ^ w)
    (hb : default_bin = 0 → 1 ≤ min_bin) (v : Nat) :
    widthCategoricalLte w min_bin max_bin default_bin threshold v
      = specCategoricalLteInt min_bin max_bin default_bin threshold v := by
  unfold widthCategoricalLte specCategoricalLteInt
  by_cases h0 : default_bin = 0
  · have h1 := hb h0
    simp only [h0, if_true, modDec_exact w (threshold + min_bin) (by omega) hth,
      modDec_exact w (min_bin + 0) (by omega) (by omega)]
    by_cases hc : v < min_bin ∨ v > max_bin ∨ v = min_bin + 0 - 1
    · have hc' : v < min_bin ∨ v > max_bin ∨
          (v : Int) = (min_bin : Int) + ((0 : Nat) : Int) - 1 := by
        omega
      simp only [hc, hc', if_true]
    · have hc' : ¬ (v < min_bin ∨ v > max_bin ∨
          (v : Int) = (min_bin : Int) + ((0 : Nat) : Int) - 1) := by
        omega
      simp only [hc, hc', if_false]
      have e : (v = threshold + min_bin - 1) ↔
          ((v : Int) = (threshold : Int) + (min_bin : Int) - 1) := by
        omega
      simp only [e]
  · simp only [h0, if_false, Nat.mod_eq_of_lt hth, Nat.mod_eq_of_lt hd]
    by_cases hc : v < min_bin ∨ v > max_bin ∨ v = min_bin + default_bin
    · have hc' : v < min_bin ∨ v > max_bin ∨
          (v : Int) = (min_bin : Int) + (default_bin : Int) - 0 := by
        omega
      simp only [hc, hc', if_true]
    · have hc' : ¬ (v < min_bin ∨ v > max_bin ∨
          (v : Int) = (min_bin : Int) + (default_bin : Int) - 0) := by
        omega
      simp only [hc, hc', if_false]
      have e : (v = threshold + min_bin) ↔
          ((v : Int) = (threshold : Int) + (min_bin : Int) - 0) := by
        omega
      simp only [e]

theorem Split_eval_nan_wrap :
    wrapBin.Split 0 255 0 MissingType.NaN false 1 [0, 1, 2] 3 [-1, -1, -1] [-1, -1, -1]
      BinType.NumericalBin = some ⟨2, [0, 1, -1], [2, -1, -1]⟩ := by
  simp [DenseBin.Split, forLoop, splitBodyNaN, readAt, writeAt, SplitState.put, wrapBin,
    splitTh, splitDefaultBin, castVal, u32add, decVal, numericalDefaultSide,
    missingDefaultSide]

theorem Split_eval_categorical_wrap :
    wrapBin.Split 0 255 0 MissingType.None false 0 [0, 1, 2] 3 [-1, -1, -1] [-1, -1, -1]
      BinType.CategoricalBin = some ⟨1, [0, -1, -1], [1, 2, -1]⟩ := by
  simp [DenseBin.Split, forLoop, splitBodyCategorical, readAt, writeAt, SplitState.put,
    wrapBin, splitTh, splitDefaultBin, castVal, u32add, decVal, categoricalDefaultSide]

/-- Claim C4 fails as stated. With 8-bit bins `[255, 0, 7]`, `min_bin = 0`, `max_bin = 255`,
`default_bin = 0`, `threshold = 1`, `missing_type` `NaN` and `default_left = false`, the
integer `t_default_bin` of the claim is `-1`, so the bin `255` is in range, differs from
`t_default_bin` and equals `max_bin`, and the rule of the claim sends index 0 to gt; in
`Split` the variable `t_default_bin` of type `VAL_T` wraps to `255`, the default test fires
first and index 0 is written to `lte_indices`, since `default_bin ≤ threshold`. -/
theorem Split_nan_integer_rule_counterexample :
    wrapBin.Split 0 255 0 MissingType.NaN false 1 [0, 1, 2] 3 [-1, -1, -1] [-1, -1, -1]
      BinType.NumericalBin = some ⟨2, [0, 1, -1], [2, -1, -1]⟩ ∧
    splitDefaultBin 8 0 0 = 255 ∧
    specNaNLteInt 0 255 0 1 false (binAt wrapBin.data_ 0) = false ∧
    (firstN ([0, 1, 2] : List Int) 3).filter
      (fun idx => specNaNLteInt 0 255 0 1 false (binAt wrapBin.data_ idx)) = [1] ∧
    ¬ ∃ r : SplitResult,
      wrapBin.Split 0 255 0 MissingType.NaN false 1 [0, 1, 2] 3 [-1, -1, -1] [-1, -1, -1]
        BinType.NumericalBin = some r ∧
      firstN r.lte_indices r.ret = (firstN ([0, 1, 2] : List Int) 3).filter
        (fun idx => specNaNLteInt 0 255 0 1 false (binAt wrapBin.data_ idx)) ∧
      firstN r.gt_indices (3 - r.ret) = (firstN ([0, 1, 2] : List Int) 3).filter
        (fun idx => !specNaNLteInt 0 255 0 1 false (binAt wrapBin.data_ idx)) := by
  have hf : (firstN ([0, 1, 2] : List Int) 3).filter
      (fun idx => specNaNLteInt 0 255 0 1 false (binAt wrapBin.data_ idx)) = [1] := by decide
  refine ⟨Split_eval_nan_wrap, by decide, by decide, hf, ?_⟩
  rintro ⟨r, hr, h1, _⟩
  rw [Split_eval_nan_wrap] at hr
  cases hr
  rw [hf] at h1
  revert h1
  decide

/-- Claim C4, amended. For a numerical feature with `missing_type` `NaN`, a storage type of
`w ≤ 32` bits and `min_bin`, `max_bin` that fit it, the lte output of `Split` is exactly the
input indices, in order, whose raw bin `v` satisfies the rule of the claim with `th` and
`t_default_bin` computed in the storage type (reduced modulo `2 ^ w`, and `0` decreased by 1
is `2 ^ w - 1`): when `v < min_bin`, `v > max_bin` or `v = t_default_bin`,
`default_bin ≤ threshold`; else when `v = max_bin`, `default_left`; else not `v > th`; the
gt output is the rest. The default test comes first, so it takes precedence over the
`max_bin` sentinel when `max_bin = t_default_bin`. When `threshold + min_bin` and
`min_bin + default_bin` fit the storage type and `min_bin ≥ 1` whenever `default_bin = 0`,
nothing wraps and this is the rule of the claim on plain integers. -/
theorem Split_nan_rule {w : Nat} (self : DenseBin w) (min_bin max_bin default_bin : Nat)
    (default_left : Bool) (threshold : Nat)
    (data_indices : List Int) (num_data : Int) (lte_indices gt_indices : List Int)
    (hw : w ≤ 32) (hmin : min_bin < 2 ^ w) (hmax : max_bin < 2 ^ w)
    (hn : 0 ≤ num_data) (hlen : num_data ≤ data_indices.length)
    (hidx : ∀ idx ∈ firstN data_indices num_data, 0 ≤ idx ∧ idx < self.data_.length)
    (hL : num_data ≤ lte_indices.length) (hG : num_data ≤ gt_indices.length) :
    (∃ r : SplitResult,
      self.Split min_bin max_bin default_bin MissingType.NaN default_left threshold
        data_indices num_data lte_indices gt_indices BinType.NumericalBin = some r ∧
      firstN r.lte_indices r.ret = (firstN data_indices num_data).filter
        (fun idx => widthNaNLte w min_bin max_bin default_bin threshold default_left
          (binAt self.data_ idx)) ∧
      firstN r.gt_indices (num_data - r.ret) = (firstN data_indices num_data).filter
        (fun idx => !widthNaNLte w min_bin max_bin default_bin threshold default_left
          (binAt self.data_ idx))) ∧
    (threshold + min_bin < 2 ^ w → min_bin + default_bin < 2 ^ w →
      (default_bin = 0 → 1 ≤ min_bin) →
      ∀ v : Nat, widthNaNLte w min_bin max_bin default_bin threshold default_left v
        = specNaNLteInt min_bin max_bin default_bin threshold default_left v) := by
  refine ⟨?_, widthNaNLte_eq_spec w min_bin max_bin default_bin threshold default_left⟩
  obtain ⟨r, hr, h1, h2, _⟩ :=
    Split_spec self min_bin max_bin default_bin MissingType.NaN default_left threshold
      data_indices num_data lte_indices gt_indices BinType.NumericalBin hn hlen hidx hL hG
  have h := lteOf_eq_filter self.data_ _ _
    (splitSide_nan_width w min_bin max_bin default_bin threshold default_left hw hmin hmax)
    (firstN data_indices num_data)
  exact ⟨r, hr, h1.trans h.1, h2.trans h.2⟩

theorem Split_nan_rule_witness :
    (8 ≤ 32 ∧ 0 < 2 ^ 8 ∧ 255 < 2 ^ 8 ∧
      (0 : Int) ≤ 3 ∧ (3 : Int) ≤ ([0, 1, 2] : List Int).length ∧
      (∀ idx ∈ firstN ([0, 1, 2] : List Int) 3, 0 ≤ idx ∧ idx < wrapBin.data_.length) ∧
      (3 : Int) ≤ ([-1, -1, -1] : List Int).length ∧
      (3 : Int) ≤ ([-1, -1, -1] : List Int).length) ∧
    ∃ r : SplitResult,
      wrapBin.Split 0 255 0 MissingType.NaN false 1 [0, 1, 2] 3 [-1, -1, -1] [-1, -1, -1]
        BinType.NumericalBin = some r ∧
      firstN r.lte_indices r.ret = (firstN ([0, 1, 2] : List Int) 3).filter
        (fun idx => widthNaNLte 8 0 255 0 1 false (binAt wrapBin.data_ idx)) ∧
      firstN r.gt_indices (3 - r.ret) = (firstN ([0, 1, 2] : List Int) 3).filter
        (fun idx => !widthNaNLte 8 0 255 0 1 false (binAt wrapBin.data_ idx)) :=
  ⟨⟨by decide, by decide, by decide, by decide, by decide, by decide, by decide, by decide⟩,
    (Split_nan_rule wrapBin 0 255 0 false 1 [0, 1, 2] 3 [-1, -1, -1] [-1, -1, -1]
      (by decide) (by decide) (by decide) (by decide) (by decide) (by decide) (by decide)
      (by decide)).1⟩

/-- Claim C5 fails as stated. With 8-bit bins `[255, 0, 7]`, `min_bin = 0`,
`max_bin = 255`, `default_bin = 0` and `threshold = 0`, the integers `th` and
`t_default_bin` of the claim are `-1`, so the bin `255` is in range, differs from
`t_default_bin` and from `th`, and the rule of the claim sends every index to gt; in `Split`
the variable `t_default_bin` of type `VAL_T` wraps to `255` and index 0 is written to
`lte_indices`, since `default_bin = threshold`. -/
theorem Split_categorical_integer_rule_counterexample :
    wrapBin.Split 0 255 0 MissingType.None false 0 [0, 1, 2] 3 [-1, -1, -1] [-1, -1, -1]
      BinType.CategoricalBin = some ⟨1, [0, -1, -1], [1, 2, -1]⟩ ∧
    splitDefaultBin 8 0 0 = 255 ∧ splitTh 8 0 0 0 = 255 ∧
    (firstN ([0, 1, 2] : List Int) 3).filter
      (fun idx => specCategoricalLteInt 0 255 0 0 (binAt wrapBin.data_ idx)) = [] ∧
    ¬ ∃ r : SplitResult,
      wrapBin.Split 0 255 0 MissingType.None false 0 [0, 1, 2] 3 [-1, -1, -1] [-1, -1, -1]
        BinType.CategoricalBin = some r ∧
      firstN r.lte_indices r.ret = (firstN ([0, 1, 2] : List Int) 3).filter
        (fun idx => specCategoricalLteInt 0 255 0 0 (binAt wrapBin.data_ idx)) ∧
      firstN r.gt_indices (3 - r.ret) = (firstN ([0, 1, 2] : List Int) 3).filter
        (fun idx => !specCategoricalLteInt 0 255 0 0 (binAt wrapBin.data_ idx)) := by
  have hf : (firstN ([0, 1, 2] : List Int) 3).filter
      (fun idx => specCategoricalLteInt 0 255 0 0 (binAt wrapBin.data_ idx)) = [] := by decide
  refine ⟨Split_eval_categorical_wrap, by decide, by decide, hf, ?_⟩
  rintro ⟨r, hr, h1, _⟩
  rw [Split_eval_categorical_wrap] at hr
  cases hr
  rw [hf] at h1
  revert h1
  decide

/-- Claim C5, amended. For a categorical feature, a storage type of `w ≤ 32` bits and
`min_bin`, `max_bin` that fit it, whatever `missing_type` and `default_left` are, the lte
output of `Split` is exactly the input indices, in order, whose raw bin `v` satisfies the
rule of the claim with `th` and `t_default_bin` computed in the storage type (reduced modulo
`2 ^ w`, and `0` decreased by 1 is `2 ^ w - 1`): when `v` is out of `[min_bin, max_bin]` or
equals `t_default_bin`, `default_bin = threshold`; else `v = th`; the gt output is the rest;
and the result of `Split` is the same for every `missing_type` and `default_left`. When
`threshold + min_bin` and `min_bin + default_bin` fit the storage type and `min_bin ≥ 1`
whenever `default_bin = 0`, nothing wraps and this is the rule of the claim on plain
integers. -/
theorem Split_categorical_rule {w : Nat} (self : DenseBin w)
    (min_bin max_bin default_bin : Nat) (missing_type : MissingType) (default_left : Bool)
    (threshold : Nat) (data_indices : List Int) (num_data : Int)
    (lte_indices gt_indices : List Int)
    (hw : w ≤ 32) (hmin : min_bin < 2 ^ w) (hmax : max_bin < 2 ^ w)
    (hn : 0 ≤ num_data) (hlen : num_data ≤ data_indices.length)
    (hidx : ∀ idx ∈ firstN data_indices num_data, 0 ≤ idx ∧ idx < self.data_.length)
    (hL : num_data ≤ lte_indices.length) (hG : num_data ≤ gt_indices.length) :
    (∃ r : SplitResult,
      self.Split min_bin max_bin default_bin missing_type default_left threshold
        data_indices num_data lte_indices gt_indices BinType.CategoricalBin = some r ∧
      firstN r.lte_indices r.ret = (firstN data_indices num_data).filter
        (fun idx => widthCategoricalLte w min_bin max_bin default_bin threshold
          (binAt self.data_ idx)) ∧
      firstN r.gt_indices (num_data - r.ret) = (firstN data_indices num_data).filter
        (fun idx => !widthCategoricalLte w min_bin max_bin default_bin threshold
          (binAt self.data_ idx))) ∧
    (∀ (missing_type' : MissingType) (default_left' : Bool),
      self.Split min_bin max_bin default_bin missing_type' default_left' threshold
        data_indices num_data lte_indices gt_indices BinType.CategoricalBin
      = self.Split min_bin max_bin default_bin missing_type default_left threshold
        data_indices num_data lte_indices gt_indices BinType.CategoricalBin) ∧
    (threshold + min_bin < 2 ^ w → min_bin + default_bin < 2 ^ w →
      (default_bin = 0 → 1 ≤ min_bin) →
      ∀ v : Nat, widthCategoricalLte w min_bin max_bin default_bin threshold v
        = specCategoricalLteInt min_bin max_bin default_bin threshold v) := by
  refine ⟨?_, ?_, widthCategoricalLte_eq_spec w min_bin max_bin default_bin threshold⟩
  · obtain ⟨r, hr, h1, h2, _⟩ :=
      Split_spec self min_bin max_bin default_bin missing_type default_left threshold
        data_indices num_data lte_indices gt_indices BinType.CategoricalBin hn hlen hidx hL hG
    have h := lteOf_eq_filter self.data_ _ _
      (splitSide_categorical_width w min_bin max_bin default_bin threshold missing_type
        default_left hw hmin hmax) (firstN data_indices num_data)
    exact ⟨r, hr, h1.trans h.1, h2.trans h.2⟩
  · intro missing_type' default_left'
    have hb : ¬ BinType.CategoricalBin = BinType.NumericalBin := by decide
    simp only [DenseBin.Split, hb, if_false]

theorem Split_categorical_rule_witness :
    (8 ≤ 32 ∧ 0 < 2 ^ 8 ∧ 255 < 2 ^ 8 ∧
      (0 : Int) ≤ 3 ∧ (3 : Int) ≤ ([0, 1, 2] : List Int).length ∧
      (∀ idx ∈ firstN ([0, 1, 2] : List Int) 3, 0 ≤ idx ∧ idx < wrapBin.data_.length) ∧
      (3 : Int) ≤ ([-1, -1, -1] : List Int).length ∧
      (3 : Int) ≤ ([-1, -1, -1] : List Int).length) ∧
    ∃ r : SplitResult,
      wrapBin.Split 0 255 0 MissingType.None false 0 [0, 1, 2] 3 [-1, -1, -1] [-1, -1, -1]
        BinType.CategoricalBin = some r ∧
      firstN r.lte_indices r.ret = (firstN ([0, 1, 2] : List Int) 3).filter
        (fun idx => widthCategoricalLte 8 0 255 0 0 (binAt wrapBin.data_ idx)) ∧
      firstN r.gt_indices (3 - r.ret) = (firstN ([0, 1, 2] : List Int) 3).filter
        (fun idx => !widthCategoricalLte 8 0 255 0 0 (binAt wrapBin.data_ idx)) :=
  ⟨⟨by decide, by decide, by decide, by decide, by decide, by decide, by decide, by decide⟩,
    (Split_categorical_rule wrapBin 0 255 0 MissingType.None false 0 [0, 1, 2] 3
      [-1, -1, -1] [-1, -1, -1] (by decide) (by decide) (by decide) (by decide) (by decide)
      (by decide) (by decide) (by decide)).1⟩

/-- Claim C6. `Split` applies the threshold in the remapped bin space of the iterator: for a
numerical feature with `missing_type` `None`, a storage type of `w ≤ 32` bits, and
`min_bin`, `max_bin`, `threshold + min_bin`, `min_bin + default_bin` that fit it, with
`min_bin ≥ 1` whenever `default_bin = 0`, the lte output of `Split` is exactly the input
indices `idx`, in order, with `get(idx) ≤ threshold` for the iterator built from
`(min_bin, max_bin, default_bin)`, and the gt output exactly those with
`get(idx) > threshold`. -/
theorem Split_matches_iterator {w : Nat} (self : DenseBin w)
    (min_bin max_bin default_bin : Nat) (default_left : Bool) (threshold : Nat)
    (data_indices : List Int) (num_data : Int) (lte_indices gt_indices : List Int)
    (hw : w ≤ 32) (hmin : min_bin < 2 ^ w) (hmax : max_bin < 2 ^ w)
    (hth : threshold + min_bin < 2 ^ w) (hd : min_bin + default_bin < 2 ^ w)
    (hb : default_bin = 0 → 1 ≤ min_bin)
    (hn : 0 ≤ num_data) (hlen : num_data ≤ data_indices.length)
    (hidx : ∀ idx ∈ firstN data_indices num_data, 0 ≤ idx ∧ idx < self.data_.length)
    (hL : num_data ≤ lte_indices.length) (hG : num_data ≤ gt_indices.length) :
    ∃ r : SplitResult,
      self.Split min_bin max_bin default_bin MissingType.None default_left threshold
        data_indices num_data lte_indices gt_indices BinType.NumericalBin = some r ∧
      firstN r.lte_indices r.ret = (firstN data_indices num_data).filter
        (iterLte (self.GetIterator min_bin max_bin default_bin) threshold) ∧
      firstN r.gt_indices (num_data - r.ret) = (firstN data_indices num_data).filter
        (iterGt (self.GetIterator min_bin max_bin default_bin) threshold) := by
  obtain ⟨r, hr, h1, h2, _⟩ :=
    Split_spec self min_bin max_bin default_bin MissingType.None default_left threshold
      data_indices num_data lte_indices gt_indices BinType.NumericalBin hn hlen hidx hL hG
  refine ⟨r, hr, ?_, ?_⟩
  · rw [h1]
    unfold lteOf
    apply List.filter_congr
    intro idx hmem
    exact (iterator_rule self min_bin max_bin default_bin threshold default_left hw hmin hmax
      hth hd hb idx (hidx idx hmem).1 (hidx idx hmem).2).1
  · rw [h2, gtOf_eq_filter_not]
    apply List.filter_congr
    intro idx hmem
    exact (iterator_rule self min_bin max_bin default_bin threshold default_left hw hmin hmax
      hth hd hb idx (hidx idx hmem).1 (hidx idx hmem).2).2

theorem Split_matches_iterator_witness :
    (8 ≤ 32 ∧ 1 < 2 ^ 8 ∧ 7 < 2 ^ 8 ∧ 3 + 1 < 2 ^ 8 ∧ 1 + 0 < 2 ^ 8 ∧ (0 = 0 → 1 ≤ 1) ∧
      (0 : Int) ≤ 5 ∧ (5 : Int) ≤ ([2, 4, 1, 0, 3] : List Int).length ∧
      (∀ idx ∈ firstN ([2, 4, 1, 0, 3] : List Int) 5,
        0 ≤ idx ∧ idx < exampleBin.data_.length) ∧
      (5 : Int) ≤ ([0, 0, 0, 0, 0] : List Int).length ∧
      (5 : Int) ≤ ([0, 0, 0, 0, 0] : List Int).length) ∧
    ∃ r : SplitResult,
      exampleBin.Split 1 7 0 MissingType.None false 3 [2, 4, 1, 0, 3] 5 [0, 0, 0, 0, 0]
        [0, 0, 0, 0, 0] BinType.NumericalBin = some r ∧
      firstN r.lte_indices r.ret = (firstN ([2, 4, 1, 0, 3] : List Int) 5).filter
        (iterLte (exampleBin.GetIterator 1 7 0) 3) ∧
      firstN r.gt_indices (5 - r.ret) = (firstN ([2, 4, 1, 0, 3] : List Int) 5).filter
        (iterGt (exampleBin.GetIterator 1 7 0) 3) :=
  ⟨⟨by decide, by decide, by decide, by decide, by decide, by decide, by decide, by decide,
      by decide, by decide, by decide⟩,
    Split_matches_iterator exampleBin 1 7 0 false 3 [2, 4, 1, 0, 3] 5 [0, 0, 0, 0, 0]
      [0, 0, 0, 0, 0] (by decide) (by decide) (by decide) (by decide) (by decide) (by decide)
      (by decide) (by decide) (by decide) (by decide) (by decide)⟩

/-! ## The loop bodies of `ConstructHistogram` -/

theorem length_mapAt {α : Type} (f : α → α) : ∀ (b : Nat) (l : List α),
    (mapAt f b l).length = l.length := by
  intro b l
  induction l generalizing b with
  | nil => cases b <;> rfl
  | cons a l ih => cases b with
    | zero => rfl
    | succ b => simp [mapAt, ih]

theorem mapAt_comm {α : Type} (f g : α → α) (hfg : ∀ a, f (g a) = g (f a)) :
    ∀ (b c : Nat) (l : List α), mapAt f b (mapAt g c l) = mapAt g c (mapAt f b l) := by
  intro b c l
  induction l generalizing b c with
  | nil => cases b <;> cases c <;> rfl
  | cons a l ih =>
    cases b <;> cases c <;> simp [mapAt, hfg, ih]

theorem set_eq_mapAt {α : Type} (f : α → α) : ∀ (b : Nat) (l : List α) (e : α),
    l[b]? = some e → l.set b (f e) = mapAt f b l := by
  intro b l
  induction l generalizing b with
  | nil => intro e h; simp at h
  | cons a l ih =>
    intro e h
    cases b with
    | zero => simp at h; simp [mapAt, h]
    | succ b => simp at h; simp [mapAt, ih b e h]

theorem addGradient_eq {S : Type} [Add S] (out : List (HistogramBinEntry S)) (bin : Nat) (x : S) :
    addGradient out bin x = if bin < out.length then some (mapAt (gradF x) bin out) else none := by
  unfold addGradient
  by_cases h : bin < out.length
  · simp only [h, if_true, List.getElem?_eq_getElem h]
    exact congrArg some (set_eq_mapAt (gradF x) bin out _ (List.getElem?_eq_getElem h))
  · simp only [h, if_false, List.getElem?_eq_none (Nat.le_of_not_lt h)]

theorem addHessian_eq {S : Type} [Add S] (out : List (HistogramBinEntry S)) (bin : Nat) (x : S) :
    addHessian out bin x = if bin < out.length then some (mapAt (hessF x) bin out) else none := by
  unfold addHessian
  by_cases h : bin < out.length
  · simp only [h, if_true, List.getElem?_eq_getElem h]
    exact congrArg some (set_eq_mapAt (hessF x) bin out _ (List.getElem?_eq_getElem h))
  · simp only [h, if_false, List.getElem?_eq_none (Nat.le_of_not_lt h)]

theorem incCount_eq {S : Type} (out : List (HistogramBinEntry S)) (bin : Nat) :
    incCount out bin = if bin < out.length then some (mapAt cntF bin out) else none := by
  unfold incCount
  by_cases h : bin < out.length
  · simp only [h, if_true, List.getElem?_eq_getElem h]
    exact congrArg some (set_eq_mapAt cntF bin out _ (List.getElem?_eq_getElem h))
  · simp only [h, if_false, List.getElem?_eq_none (Nat.le_of_not_lt h)]

theorem match_eq_bind {α β : Type} (x : Option α) (f : α → Option β) :
    (match x with
     | none => none
     | some v => f v) = x.bind f := by
  cases x <;> rfl

theorem match_eq_bind_nat {β : Type} (x : Option Nat) (f : Nat → Option β) :
    (match x with
     | none => none
     | some v => f v) = x.bind f := by
  cases x <;> rfl

theorem match_eq_bind_hist {S β : Type} (x : Option (List (HistogramBinEntry S)))
    (f : List (HistogramBinEntry S) → Option β) :
    (match x with
     | none => none
     | some v => f v) = x.bind f := by
  cases x <;> rfl

theorem histStep_bind {S : Type} [Add S] (rd : Int → Option Nat) (g h : List S) (i : Int)
    (out : List (HistogramBinEntry S)) :
    histStep rd g h i out =
      (rd i).bind fun bin => (readAt g i).bind fun x => (addGradient out bin x).bind fun o =>
      (readAt h i).bind fun y => (addHessian o bin y).bind fun o => incCount o bin := by
  simp only [histStep, match_eq_bind, match_eq_bind_nat, match_eq_bind_hist]

theorem addGradient4_bind {S : Type} [Add S] (g : List S) (i : Int)
    (bin0 bin1 bin2 bin3 : Nat) (out : List (HistogramBinEntry S)) :
    addGradient4 g i bin0 bin1 bin2 bin3 out =
      (readAt g i).bind fun g0 => (addGradient out bin0 g0).bind fun o =>
      (readAt g (i + 1)).bind fun g1 => (addGradient o bin1 g1).bind fun o =>
      (readAt g (i + 2)).bind fun g2 => (addGradient o bin2 g2).bind fun o =>
      (readAt g (i + 3)).bind fun g3 => addGradient o bin3 g3 := by
  simp only [addGradient4, match_eq_bind, match_eq_bind_hist]

theorem addHessian4_bind {S : Type} [Add S] (h : List S) (i : Int)
    (bin0 bin1 bin2 bin3 : Nat) (out : List (HistogramBinEntry S)) :
    addHessian4 h i bin0 bin1 bin2 bin3 out =
      (readAt h i).bind fun h0 => (addHessian out bin0 h0).bind fun o =>
      (readAt h (i + 1)).bind fun h1 => (addHessian o bin1 h1).bind fun o =>
      (readAt h (i + 2)).bind fun h2 => (addHessian o bin2 h2).bind fun o =>
      (readAt h (i + 3)).bind fun h3 => addHessian o bin3 h3 := by
  simp only [addHessian4, match_eq_bind, match_eq_bind_hist]

theorem incCount4_bind {S : Type} (bin0 bin1 bin2 bin3 : Nat)
    (out : List (HistogramBinEntry S)) :
    incCount4 bin0 bin1 bin2 bin3 out =
      (incCount out bin0).bind fun o => (incCount o bin1).bind fun o =>
      (incCount o bin2).bind fun o => incCount o bin3 := by
  simp only [incCount4, match_eq_bind_hist]

theorem histBlock_bind {S : Type} [Add S] (rd : Int → Option Nat) (g h : List S) (i : Int)
    (out : List (HistogramBinEntry S)) :
    histBlock rd g h i out =
      (rd i).bind fun bin0 => (rd (i + 1)).bind fun bin1 => (rd (i + 2)).bind fun bin2 =>
      (rd (i + 3)).bind fun bin3 =>
      (addGradient4 g i bin0 bin1 bin2 bin3 out).bind fun o =>
      (addHessian4 h i bin0 bin1 bin2 bin3 o).bind fun o =>
      incCount4 bin0 bin1 bin2 bin3 o := by
  simp only [histBlock, match_eq_bind_nat, match_eq_bind_hist]

theorem comm_GH {S : Type} [Add S] (x y : S) (b c : Nat) (l : List (HistogramBinEntry S)) :
    mapAt (gradF x) b (mapAt (hessF y) c l) = mapAt (hessF y) c (mapAt (gradF x) b l) :=
  mapAt_comm (gradF x) (hessF y) (fun _ => rfl) b c l

theorem comm_GC {S : Type} [Add S] (x : S) (b c : Nat) (l : List (HistogramBinEntry S)) :
    mapAt (gradF x) b (mapAt cntF c l) = mapAt cntF c (mapAt (gradF x) b l) :=
  mapAt_comm (gradF x) cntF (fun _ => rfl) b c l

theorem comm_HC {S : Type} [Add S] (y : S) (b c : Nat) (l : List (HistogramBinEntry S)) :
    mapAt (hessF y) b (mapAt cntF c l) = mapAt cntF c (mapAt (hessF y) b l) :=
  mapAt_comm (hessF y) cntF (fun _ => rfl) b c l

/-- The updates of one pass of the four-at-a-time body, once the twelve reads are done, are
the updates of four passes of the one-at-a-time body. -/
theorem histBlock_core {S : Type} [Add S] (b0 b1 b2 b3 : Nat) (x0 x1 x2 x3 y0 y1 y2 y3 : S)
    (out : List (HistogramBinEntry S)) :
    ((addGradient out b0 x0).bind fun o => (addGradient o b1 x1).bind fun o =>
      (addGradient o b2 x2).bind fun o => (addGradient o b3 x3).bind fun o =>
      (addHessian o b0 y0).bind fun o => (addHessian o b1 y1).bind fun o =>
      (addHessian o b2 y2).bind fun o => (addHessian o b3 y3).bind fun o =>
      (incCount o b0).bind fun o => (incCount o b1).bind fun o =>
      (incCount o b2).bind fun o => incCount o b3)
    = ((addGradient out b0 x0).bind fun o => (addHessian o b0 y0).bind fun o =>
      (incCount o b0).bind fun o =>
      (addGradient o b1 x1).bind fun o => (addHessian o b1 y1).bind fun o =>
      (incCount o b1).bind fun o =>
      (addGradient o b2 x2).bind fun o => (addHessian o b2 y2).bind fun o =>
      (incCount o b2).bind fun o =>
      (addGradient o b3 x3).bind fun o => (addHessian o b3 y3).bind fun o =>
      incCount o b3) := by
  simp only [addGradient_eq, addHessian_eq, incCount_eq]
  by_cases c0 : b0 < out.length
  · by_cases c1 : b1 < out.length
    · by_cases c2 : b2 < out.length
      · by_cases c3 : b3 < out.length
        · simp only [c0, c1, c2, c3, length_mapAt, if_true, Option.some_bind, comm_GH, comm_GC,
            comm_HC]
        · simp [c0, c1, c2, c3, length_mapAt]
      · simp [c0, c1, c2, length_mapAt]
    · simp [c0, c1, length_mapAt]
  · simp [c0]

/-- One pass of the four-at-a-time body is four passes of the one-at-a-time body, at the
positions `i`, `i + 1`, `i + 2`, `i + 3` in turn: the same result, or both undefined. -/
theorem histBlock_eq_steps {S : Type} [Add S] (rd : Int → Option Nat) (g h : List S) (i : Int)
    (out : List (HistogramBinEntry S)) :
    histBlock rd g h i out =
      (histStep rd g h i out).bind fun o => (histStep rd g h (i + 1) o).bind fun o =>
      (histStep rd g h (i + 2) o).bind (histStep rd g h (i + 3)) := by
  simp only [histBlock_bind, addGradient4_bind, addHessian4_bind, incCount4_bind,
    histStep_bind]
  cases hr0 : rd i with
  | none => simp
  | some b0 =>
    cases hr1 : rd (i + 1) with
    | none => simp
    | some b1 =>
      cases hr2 : rd (i + 2) with
      | none => simp
      | some b2 =>
        cases hr3 : rd (i + 3) with
        | none => simp
        | some b3 =>
          cases hr4 : readAt g i with
          | none => simp
          | some x0 =>
            cases hr5 : readAt g (i + 1) with
            | none => simp
            | some x1 =>
              cases hr6 : readAt g (i + 2) with
              | none => simp
              | some x2 =>
                cases hr7 : readAt g (i + 3) with
                | none => simp
                | some x3 =>
                  cases hr8 : readAt h i with
                  | none => simp
                  | some y0 =>
                    cases hr9 : readAt h (i + 1) with
                    | none => simp
                    | some y1 =>
                      cases hr10 : readAt h (i + 2) with
                      | none => simp
                      | some y2 =>
                        cases hr11 : readAt h (i + 3) with
                        | none => simp
                        | some y3 =>
                          simp only [Option.some_bind, Option.bind_assoc]
                          exact histBlock_core b0 b1 b2 b3 x0 x1 x2 x3 y0 y1 y2 y3 out

/-! ## The loops of `ConstructHistogram` -/

theorem ldiff_three (m : Nat) : Nat.ldiff 3 m = 3 - m % 4 := by
  apply Nat.eq_of_testBit_eq
  intro i
  rw [Nat.testBit_ldiff]
  have hr : m % 4 < 4 := Nat.mod_lt _ (by decide)
  rcases i with _ | _ | i
  · simp only [Nat.testBit_zero]
    have : (3 - m % 4) % 2 = 1 - m % 2 := by omega
    rcases Nat.mod_two_eq_zero_or_one m with h | h <;> simp [h, this]
  · simp only [Nat.testBit_succ, Nat.testBit_zero, zero_add]
    have : (3 - m % 4) / 2 % 2 = 1 - m / 2 % 2 := by omega
    rcases Nat.mod_two_eq_zero_or_one (m / 2) with h | h <;> simp [h, this]
  · have h3 : Nat.testBit 3 (i + 1 + 1) = false :=
      Nat.testBit_eq_false_of_lt (by
        have : 4 ≤ 2 ^ (i + 1 + 1) := by
          calc 4 = 2 ^ 2 := rfl
            _ ≤ 2 ^ (i + 1 + 1) := Nat.pow_le_pow_right (by decide) (by omega)
        omega)
    have h4 : Nat.testBit (3 - m % 4) (i + 1 + 1) = false :=
      Nat.testBit_eq_false_of_lt (by
        have : 4 ≤ 2 ^ (i + 1 + 1) := by
          calc 4 = 2 ^ 2 := rfl
            _ ≤ 2 ^ (i + 1 + 1) := Nat.pow_le_pow_right (by decide) (by omega)
        omega)
    rw [h3, h4]; rfl

/-- The remainder modulo 4 that `lowTwoBits` takes is the bitwise conjunction with 3 on the
two's complement integers. -/
theorem lowTwoBits_eq_land (n : Int) : lowTwoBits n = Int.land n 3 := by
  unfold lowTwoBits
  symm
  rcases n with m | m
  · show ((m &&& 3 : Nat) : Int) = _
    rw [show (3 : Nat) = 2 ^ 2 - 1 by rfl, Nat.and_pow_two_sub_one_eq_mod]
    simp
  · show ((Nat.ldiff 3 m : Nat) : Int) = _
    rw [ldiff_three]
    have hr : m % 4 < 4 := Nat.mod_lt _ (by decide)
    rw [Int.negSucc_eq]
    omega

theorem iterM_succ {σ : Type} (body : Int → σ → Option σ) (step : Int) (k : Nat) (i : Int)
    (s : σ) : iterM body step (k + 1) i s = (body i s).bind (iterM body step k (i + step)) := by
  simp only [iterM]
  cases body i s <;> rfl

theorem iterM_add {σ : Type} (body : Int → σ → Option σ) (step : Int) :
    ∀ (a b : Nat) (i : Int) (s : σ),
      iterM body step (a + b) i s
        = (iterM body step a i s).bind (iterM body step b (i + a * step)) := by
  intro a
  induction a with
  | zero => intro b i s; simp [iterM]
  | succ a ih =>
    intro b i s
    have e : a + 1 + b = (a + b) + 1 := by omega
    rw [e, iterM_succ, iterM_succ, Option.bind_assoc]
    congr 1
    funext s'
    rw [ih]
    have e2 : i + step + (a : Int) * step = i + ((a + 1 : Nat) : Int) * step := by
      push_cast; ring
    rw [e2]

theorem iterM_congr {σ : Type} (body1 body2 : Int → σ → Option σ) :
    ∀ (k : Nat) (i1 i2 : Int) (s : σ),
      (∀ j : Nat, j < k → ∀ s, body1 (i1 + j) s = body2 (i2 + j) s) →
      iterM body1 1 k i1 s = iterM body2 1 k i2 s := by
  intro k
  induction k with
  | zero => intro i1 i2 s _; rfl
  | succ k ih =>
    intro i1 i2 s hb
    rw [iterM_succ, iterM_succ]
    have h0 := hb 0 (Nat.succ_pos k) s
    simp only [Nat.cast_zero, add_zero] at h0
    rw [h0]
    congr 1
    funext s'
    apply ih
    intro j hj s''
    have := hb (j + 1) (Nat.succ_lt_succ hj) s''
    have e1 : i1 + 1 + (j : Int) = i1 + ((j + 1 : Nat) : Int) := by push_cast; ring
    have e2 : i2 + 1 + (j : Int) = i2 + ((j + 1 : Nat) : Int) := by push_cast; ring
    rw [e1, e2]; exact this

theorem iterM_four {σ : Type} (body : Int → σ → Option σ) (i : Int) (s : σ) :
    iterM body 1 4 i s = (body i s).bind fun o => (body (i + 1) o).bind fun o =>
      (body (i + 2) o).bind (body (i + 3)) := by
  have e : (4 : Nat) = 0 + 1 + 1 + 1 + 1 := rfl
  have e1 : i + 1 + 1 = i + 2 := by ring
  have e2 : i + 2 + 1 = i + 3 := by ring
  rw [e]
  simp only [iterM_succ, e1, e2]
  congr 1; funext o1
  congr 1; funext o2
  congr 1; funext o3
  cases body (i + 3) o3 <;> rfl

/-- A run of the four-at-a-time body over `k` blocks is a run of the one-at-a-time body over
the same `4 * k` positions. -/
theorem iterM_histBlock {S : Type} [Add S] (rd : Int → Option Nat) (g h : List S) :
    ∀ (k : Nat) (i : Int) (out : List (HistogramBinEntry S)),
      iterM (histBlock rd g h) 4 k i out = iterM (histStep rd g h) 1 (4 * k) i out := by
  intro k
  induction k with
  | zero => intro i out; rfl
  | succ k ih =>
    intro i out
    have e : 4 * (k + 1) = 4 + 4 * k := by omega
    rw [e, iterM_add (histStep rd g h) 1 4 (4 * k), iterM_four,
      iterM_succ (histBlock rd g h), histBlock_eq_steps]
    have e4 : i + ((4 : Nat) : Int) * 1 = i + 4 := by push_cast; ring
    rw [e4]
    congr 1
    funext o
    exact ih _ _

theorem forLoop_from {σ : Type} (bound : Int) (body : Int → σ → Option σ) (i : Int) (s : σ) :
    forLoop bound 1 Int.one_pos body i s
      = (iterM body 1 (bound - i).toNat i s).map (fun s' => (i + (bound - i).toNat, s')) := by
  rw [forLoop_eq_iterM bound 1 Int.one_pos body (bound - i).toNat i s]
  · simp
  · simp only [mul_one]; omega
  · intro j hj; simp only [mul_one]; omega

/-- The two loops of `ConstructHistogram` together run the one-at-a-time body at the
positions `0, 1, ..., num_data - 1` in turn, and at no other position. -/
theorem histLoops_eq {S : Type} [Add S] (rd : Int → Option Nat) (num_data : Int) (g h : List S)
    (out : List (HistogramBinEntry S)) :
    histLoops rd num_data g h out = iterM (histStep rd g h) 1 num_data.toNat 0 out := by
  unfold histLoops lowTwoBits
  have hq : num_data - num_data % 4 = 4 * (num_data / 4) := by omega
  have h1 := forLoop_eq_iterM (num_data - num_data % 4) 4 (by decide) (histBlock rd g h)
    (num_data / 4).toNat 0 out (by omega) (by intro j hj; omega)
  simp only [h1, iterM_histBlock]
  cases hA : iterM (histStep rd g h) 1 (4 * (num_data / 4).toNat) 0 out with
  | none =>
    have e : num_data.toNat = 4 * (num_data / 4).toNat + (num_data.toNat - 4 * (num_data / 4).toNat) := by
      omega
    rw [e, iterM_add, hA]
    rfl
  | some out1 =>
    simp only [Option.map_some']
    rw [forLoop_from]
    have e : num_data.toNat = 4 * (num_data / 4).toNat + (num_data - (0 + ((num_data / 4).toNat : Int) * 4)).toNat := by
      omega
    rw [e, iterM_add, hA]
    simp only [Option.some_bind]
    have e2 : (0 : Int) + ((4 * (num_data / 4).toNat : Nat) : Int) * 1 = 0 + ((num_data / 4).toNat : Int) * 4 := by
      push_cast; ring
    rw [e2]
    generalize (num_data - (0 + ((num_data / 4).toNat : Int) * 4)).toNat = m
    generalize (0 + ((num_data / 4).toNat : Int) * 4) = i0
    cases iterM (histStep rd g h) 1 m i0 out1 <;> rfl

theorem getElem?_mapAt {α : Type} (f : α → α) : ∀ (c : Nat) (l : List α) (b : Nat),
    (mapAt f c l)[b]? = if b = c then (l[b]?).map f else l[b]? := by
  intro c l
  induction l generalizing c with
  | nil => intro b; cases c <;> simp [mapAt]
  | cons a l ih =>
    intro b
    cases c with
    | zero => cases b <;> simp [mapAt]
    | succ c => cases b <;> simp [mapAt, ih]

theorem length_applyEvent {S : Type} [Add S] (e : Nat × S × S)
    (out : List (HistogramBinEntry S)) : (applyEvent e out).length = out.length := by
  simp [applyEvent, length_mapAt]

theorem length_foldl_applyEvent {S : Type} [Add S] (evs : List (Nat × S × S)) :
    ∀ out : List (HistogramBinEntry S),
      (evs.foldl (fun l e => applyEvent e l) out).length = out.length := by
  induction evs with
  | nil => intro out; rfl
  | cons e evs ih => intro out; simp [List.foldl, ih, length_applyEvent]

theorem histStep_some {S : Type} [Add S] (rd : Int → Option Nat) (g h : List S) (i : Int)
    (out : List (HistogramBinEntry S)) (b : Nat) (x y : S)
    (hr : rd i = some b) (hg : readAt g i = some x) (hh : readAt h i = some y)
    (hb : b < out.length) :
    histStep rd g h i out = some (applyEvent (b, x, y) out) := by
  simp [histStep_bind, hr, hg, hh, addGradient_eq, addHessian_eq, incCount_eq, hb,
    length_mapAt, applyEvent]

/-- The plain loop over the positions `0 .. k - 1`, when every read is in bounds, applies
the events of these positions in turn. -/
theorem iterM_histStep_fold {S : Type} [Add S] (rd : Int → Option Nat) (g h : List S)
    (ev : Nat → Nat × S × S) (out : List (HistogramBinEntry S)) :
    ∀ k : Nat,
      (∀ j : Nat, j < k → rd (j : Int) = some (ev j).1 ∧ readAt g (j : Int) = some (ev j).2.1 ∧
        readAt h (j : Int) = some (ev j).2.2 ∧ (ev j).1 < out.length) →
      iterM (histStep rd g h) 1 k 0 out
        = some (((List.range k).map ev).foldl (fun l e => applyEvent e l) out) := by
  intro k
  induction k with
  | zero => intro _; rfl
  | succ k ih =>
    intro hv
    have hk := hv k (Nat.lt_succ_self k)
    rw [iterM_add, ih (fun j hj => hv j (Nat.lt_succ_of_lt hj)), Option.some_bind,
      iterM_succ]
    have e0 : (0 : Int) + (k : Int) * 1 = (k : Int) := by ring
    rw [e0, histStep_some rd g h k _ (ev k).1 (ev k).2.1 (ev k).2.2 hk.1 hk.2.1 hk.2.2.1
      (by rw [length_foldl_applyEvent]; exact hk.2.2.2)]
    simp [iterM, List.range_succ, List.foldl_append]

/-- The entry of bin `b` after the events `evs` are applied in turn: the sums of the
gradients and hessians of the events of bin `b` are added, and their number to the count. -/
theorem foldl_applyEvent_getElem? {S : Type} [AddCommMonoid S] (b : Nat) :
    ∀ (evs : List (Nat × S × S)) (out : List (HistogramBinEntry S)),
      (evs.foldl (fun l e => applyEvent e l) out)[b]?
        = (out[b]?).map (fun e =>
            { sum_gradients := e.sum_gradients
                + ((evs.filter (fun ev => decide (ev.1 = b))).map (fun ev => ev.2.1)).sum
              sum_hessians := e.sum_hessians
                + ((evs.filter (fun ev => decide (ev.1 = b))).map (fun ev => ev.2.2)).sum
              cnt := e.cnt + ((evs.filter (fun ev => decide (ev.1 = b))).length : Nat) }) := by
  intro evs
  induction evs with
  | nil =>
    intro out
    simp only [List.foldl_nil]
    rcases out[b]? with _ | e
    · rfl
    · cases e; simp
  | cons ev evs ih =>
    intro out
    rw [List.foldl_cons, ih]
    simp only [applyEvent, getElem?_mapAt]
    by_cases hb : b = ev.1
    · have hb' : ev.1 = b := hb.symm
      simp only [hb, if_true, Option.map_map]
      cases out[ev.1]? with
      | none => rfl
      | some e =>
        simp only [Option.map_some', Function.comp, cntF, hessF, gradF, List.filter_cons,
          decide_True, if_true, List.map_cons, List.sum_cons, List.length_cons, add_assoc]
        congr 2
        push_cast
        ring
    · have hb' : ¬ ev.1 = b := fun h => hb h.symm
      simp [hb, hb', List.filter_cons]

theorem binOfIndexed_eq (data : List Nat) (data_indices : List Int) (num_data : Int)
    (hlen : num_data ≤ data_indices.length)
    (hidx : ∀ idx ∈ firstN data_indices num_data, 0 ≤ idx ∧ idx < data.length)
    (j : Nat) (hj : j < num_data.toNat) :
    binOfIndexed data data_indices (j : Int) = some (binAt data (data_indices.getD j 0)) := by
  have hj' : j < data_indices.length := by omega
  have hmem : data_indices[j] ∈ firstN data_indices num_data := by
    unfold firstN
    rw [List.mem_iff_getElem]
    exact ⟨j, by rw [List.length_take]; omega, by simp⟩
  have hb := hidx _ hmem
  simp only [binOfIndexed, readAt_natCast, List.getElem?_eq_getElem hj',
    List.getD_eq_getElem _ 0 hj']
  exact readAt_binAt data _ hb.1 hb.2

theorem readAt_getD {S : Type} (g : List S) (d : S) (j : Nat) (hj : j < g.length) :
    readAt g (j : Int) = some (g.getD j d) := by
  simp [readAt_natCast, List.getElem?_eq_getElem hj, List.getD_eq_getElem _ d hj]

/-- The indexed mode, when every read is in bounds, applies the events of the positions
`0 .. num_data - 1` in turn. -/
theorem ConstructHistogram_eq_fold {w : Nat} {S : Type} [AddCommMonoid S] (self : DenseBin w)
    (data_indices : List Int) (num_data : Int) (g h : List S)
    (out : List (HistogramBinEntry S))
    (hlen : num_data ≤ data_indices.length)
    (hidx : ∀ idx ∈ firstN data_indices num_data, 0 ≤ idx ∧ idx < self.data_.length)
    (hbin : ∀ idx ∈ firstN data_indices num_data, binAt self.data_ idx < out.length)
    (hg : num_data ≤ g.length) (hh : num_data ≤ h.length) :
    self.ConstructHistogram data_indices num_data g h out
      = some (((List.range num_data.toNat).map (eventAt self.data_ data_indices g h)).foldl
          (fun l e => applyEvent e l) out) := by
  unfold DenseBin.ConstructHistogram
  rw [histLoops_eq]
  apply iterM_histStep_fold
  intro j hj
  have hj' : j < data_indices.length := by omega
  have hmem : data_indices[j] ∈ firstN data_indices num_data := by
    unfold firstN
    rw [List.mem_iff_getElem]
    exact ⟨j, by rw [List.length_take]; omega, by simp⟩
  refine ⟨binOfIndexed_eq self.data_ data_indices num_data hlen hidx j hj,
    readAt_getD g 0 j (by omega), readAt_getD h 0 j (by omega), ?_⟩
  have := hbin _ hmem
  simpa [eventAt, List.getElem?_eq_getElem hj'] using this

theorem events_filter {S : Type} [AddCommMonoid S] (data : List Nat) (data_indices : List Int)
    (num_data : Int) (g h : List S)
    (hlen : num_data ≤ data_indices.length)
    (hidx : ∀ idx ∈ firstN data_indices num_data, 0 ≤ idx ∧ idx < data.length) (b : Nat) :
    ((List.range num_data.toNat).map (eventAt data data_indices g h)).filter
        (fun ev => decide (ev.1 = b))
      = (positionsOf data data_indices num_data.toNat b).map
          (eventAt data data_indices g h) := by
  rw [List.filter_map]
  congr 1
  unfold positionsOf
  apply List.filter_congr
  intro i hi
  have hi' : i < num_data.toNat := List.mem_range.mp hi
  rw [binOfIndexed_eq data data_indices num_data hlen hidx i hi']
  simp [eventAt]

/-! ## Claims on `ConstructHistogram` -/

/-- Claim C7. The indexed mode with gradients and hessians follows the accumulation rule
with positional alignment: when the reads are in bounds, it returns a histogram of the same
length in which, for every bin `b`, the entry is the prior entry plus, over exactly the
positions `i < num_data` with `data_[data_indices[i]] = b`, the sum of
`ordered_gradients[i]`, the sum of `ordered_hessians[i]`, and the number of these positions
added to the count; the entry of a bin without such a position is unchanged. The sums are
exact: `S` is any commutative additive monoid, such as the integers or the rationals. -/
theorem ConstructHistogram_accumulates {w : Nat} {S : Type} [AddCommMonoid S]
    (self : DenseBin w) (data_indices : List Int) (num_data : Int) (g h : List S)
    (out : List (HistogramBinEntry S))
    (hlen : num_data ≤ data_indices.length)
    (hidx : ∀ idx ∈ firstN data_indices num_data, 0 ≤ idx ∧ idx < self.data_.length)
    (hbin : ∀ idx ∈ firstN data_indices num_data, binAt self.data_ idx < out.length)
    (hg : num_data ≤ g.length) (hh : num_data ≤ h.length) :
    ∃ out' : List (HistogramBinEntry S),
      self.ConstructHistogram data_indices num_data g h out = some out' ∧
      out'.length = out.length ∧
      ∀ (b : Nat) (e : HistogramBinEntry S), out[b]? = some e →
        out'[b]? = some
          { sum_gradients := e.sum_gradients
              + ((positionsOf self.data_ data_indices num_data.toNat b).map
                  (fun i => g.getD i 0)).sum
            sum_hessians := e.sum_hessians
              + ((positionsOf self.data_ data_indices num_data.toNat b).map
                  (fun i => h.getD i 0)).sum
            cnt := e.cnt
              + ((positionsOf self.data_ data_indices num_data.toNat b).length : Nat) } ∧
        (positionsOf self.data_ data_indices num_data.toNat b = [] → out'[b]? = some e) := by
  refine ⟨_, ConstructHistogram_eq_fold self data_indices num_data g h out hlen hidx hbin hg
    hh, length_foldl_applyEvent _ _, ?_⟩
  intro b e he
  have key : (((List.range num_data.toNat).map (eventAt self.data_ data_indices g h)).foldl
      (fun l e => applyEvent e l) out)[b]? = some
        { sum_gradients := e.sum_gradients
            + ((positionsOf self.data_ data_indices num_data.toNat b).map
                (fun i => g.getD i 0)).sum
          sum_hessians := e.sum_hessians
            + ((positionsOf self.data_ data_indices num_data.toNat b).map
                (fun i => h.getD i 0)).sum
          cnt := e.cnt
            + ((positionsOf self.data_ data_indices num_data.toNat b).length : Nat) } := by
    rw [foldl_applyEvent_getElem?, he,
      events_filter self.data_ data_indices num_data g h hlen hidx b]
    simp only [Option.map_some', List.map_map, List.length_map]
    rfl
  refine ⟨key, ?_⟩
  intro hnil
  rw [key, hnil]
  cases e
  simp

theorem ConstructHistogram_accumulates_witness :
    ((5 : Int) ≤ ([3, 0, 1, 2, 0] : List Int).length ∧
      (∀ idx ∈ firstN ([3, 0, 1, 2, 0] : List Int) 5, 0 ≤ idx ∧ idx < histBin.data_.length) ∧
      (∀ idx ∈ firstN ([3, 0, 1, 2, 0] : List Int) 5,
        binAt histBin.data_ idx
          < ([⟨0, 0, 0⟩, ⟨7, 1, 1⟩, ⟨0, 0, 0⟩] : List (HistogramBinEntry Int)).length) ∧
      (5 : Int) ≤ ([10, 20, 30, 40, 50] : List Int).length ∧
      (5 : Int) ≤ ([1, 2, 3, 4, 5] : List Int).length) ∧
    ∃ out' : List (HistogramBinEntry Int),
      histBin.ConstructHistogram [3, 0, 1, 2, 0] 5 [10, 20, 30, 40, 50] [1, 2, 3, 4, 5]
        [⟨0, 0, 0⟩, ⟨7, 1, 1⟩, ⟨0, 0, 0⟩] = some out' ∧
      out'.length = ([⟨0, 0, 0⟩, ⟨7, 1, 1⟩, ⟨0, 0, 0⟩] : List (HistogramBinEntry Int)).length ∧
      ∀ (b : Nat) (e : HistogramBinEntry Int),
        ([⟨0, 0, 0⟩, ⟨7, 1, 1⟩, ⟨0, 0, 0⟩] : List (HistogramBinEntry Int))[b]? = some e →
        out'[b]? = some
          { sum_gradients := e.sum_gradients
              + ((positionsOf histBin.data_ [3, 0, 1, 2, 0] (5 : Int).toNat b).map
                  (fun i => ([10, 20, 30, 40, 50] : List Int).getD i 0)).sum
            sum_hessians := e.sum_hessians
              + ((positionsOf histBin.data_ [3, 0, 1, 2, 0] (5 : Int).toNat b).map
                  (fun i => ([1, 2, 3, 4, 5] : List Int).getD i 0)).sum
            cnt := e.cnt
              + ((positionsOf histBin.data_ [3, 0, 1, 2, 0] (5 : Int).toNat b).length : Nat) } ∧
        (positionsOf histBin.data_ [3, 0, 1, 2, 0] (5 : Int).toNat b = [] →
          out'[b]? = some e) :=
  ⟨⟨by decide, by decide, by decide, by decide, by decide⟩,
    ConstructHistogram_accumulates histBin [3, 0, 1, 2, 0] 5 [10, 20, 30, 40, 50]
      [1, 2, 3, 4, 5] [⟨0, 0, 0⟩, ⟨7, 1, 1⟩, ⟨0, 0, 0⟩]
      (by decide) (by decide) (by decide) (by decide) (by decide)⟩

theorem applyEvent_comm {S : Type} [AddCommMonoid S] (e1 e2 : Nat × S × S)
    (l : List (HistogramBinEntry S)) :
    applyEvent e1 (applyEvent e2 l) = applyEvent e2 (applyEvent e1 l) := by
  apply List.ext_getElem?
  intro b
  simp only [applyEvent, getElem?_mapAt]
  split_ifs <;> cases l[b]? <;> simp [cntF, hessF, gradF, add_right_comm]

theorem map_range_getD {α : Type} (f : Nat → α) :
    ∀ l : List Nat, (List.range l.length).map (fun i => f (l.getD i 0)) = l.map f := by
  intro l
  induction l with
  | nil => rfl
  | cons a l ih =>
    rw [List.length_cons, List.range_succ_eq_map, List.map_cons, List.map_map, List.map_cons,
      ← ih]
    simp [Function.comp]

theorem getD_permuteBy {α : Type} (p : List Nat) (a : List α) (d : α) (i : Nat)
    (hi : i < p.length) : (permuteBy p a d).getD i d = a.getD (p.getD i 0) d := by
  unfold permuteBy
  simp [List.getD_eq_getElem?_getD, List.getElem?_map, List.getElem?_eq_getElem hi]

theorem mem_firstN_permuteBy (p : List Nat) (data_indices : List Int) (num_data : Int)
    (hp : p.Perm (List.range num_data.toNat)) (hlen : num_data ≤ data_indices.length)
    (idx : Int) (h : idx ∈ firstN (permuteBy p data_indices 0) num_data) :
    idx ∈ firstN data_indices num_data := by
  unfold firstN permuteBy at h
  have h' := List.mem_of_mem_take h
  obtain ⟨j, hj, rfl⟩ := List.mem_map.mp h'
  have hj1 : j < num_data.toNat := List.mem_range.mp (hp.mem_iff.mp hj)
  have hj' : j < data_indices.length := by omega
  unfold firstN
  rw [List.getD_eq_getElem _ 0 hj', List.mem_iff_getElem]
  exact ⟨j, by rw [List.length_take]; omega, by simp⟩

/-- Claim C9. The accumulation of the indexed mode does not depend on the order of the
positions: for every permutation `p` of the positions `0 .. num_data - 1`, the run on
`(data_indices, ordered_gradients, ordered_hessians)` and the run on the three arrays each
permuted by `p`, from the same prior histogram, return the same histogram (the same count,
`sum_gradients` and `sum_hessians` in every bin) when the reads are in bounds and addition
is exact: `S` is any commutative additive monoid, such as the integers or the rationals. -/
theorem ConstructHistogram_order_independent {w : Nat} {S : Type} [AddCommMonoid S]
    (self : DenseBin w) (data_indices : List Int) (num_data : Int) (g h : List S)
    (out : List (HistogramBinEntry S)) (p : List Nat)
    (hp : p.Perm (List.range num_data.toNat))
    (hlen : num_data ≤ data_indices.length)
    (hidx : ∀ idx ∈ firstN data_indices num_data, 0 ≤ idx ∧ idx < self.data_.length)
    (hbin : ∀ idx ∈ firstN data_indices num_data, binAt self.data_ idx < out.length)
    (hg : num_data ≤ g.length) (hh : num_data ≤ h.length) :
    ∃ out' : List (HistogramBinEntry S),
      self.ConstructHistogram data_indices num_data g h out = some out' ∧
      self.ConstructHistogram (permuteBy p data_indices 0) num_data (permuteBy p g 0)
        (permuteBy p h 0) out = some out' := by
  have hpl : p.length = num_data.toNat := by simpa using hp.length_eq
  have hlenp : ∀ {α : Type} (a : List α) (d : α), (permuteBy p a d).length = p.length := by
    intro α a d; simp [permuteBy]
  refine ⟨_, ConstructHistogram_eq_fold self data_indices num_data g h out hlen hidx hbin hg
    hh, ?_⟩
  rw [ConstructHistogram_eq_fold self (permuteBy p data_indices 0) num_data (permuteBy p g 0)
    (permuteBy p h 0) out (by rw [hlenp]; omega)
    (fun idx hm => hidx idx (mem_firstN_permuteBy p data_indices num_data hp hlen idx hm))
    (fun idx hm => hbin idx (mem_firstN_permuteBy p data_indices num_data hp hlen idx hm))
    (by rw [hlenp]; omega) (by rw [hlenp]; omega)]
  congr 1
  have hev : (List.range num_data.toNat).map
      (eventAt self.data_ (permuteBy p data_indices 0) (permuteBy p g 0) (permuteBy p h 0))
      = p.map (eventAt self.data_ data_indices g h) := by
    rw [← map_range_getD (eventAt self.data_ data_indices g h) p, hpl]
    apply List.map_congr_left
    intro i hi
    have hi' : i < p.length := by rw [hpl]; exact List.mem_range.mp hi
    simp only [eventAt, getD_permuteBy p _ _ i hi']
  rw [hev]
  exact List.Perm.foldl_eq' (hp.map _)
    (fun x _ y _ z => applyEvent_comm y x z) out

theorem ConstructHistogram_order_independent_witness :
    (([2, 0, 3, 1] : List Nat).Perm (List.range (4 : Int).toNat) ∧
      (4 : Int) ≤ ([3, 0, 1, 2] : List Int).length ∧
      (∀ idx ∈ firstN ([3, 0, 1, 2] : List Int) 4, 0 ≤ idx ∧ idx < histBin.data_.length) ∧
      (∀ idx ∈ firstN ([3, 0, 1, 2] : List Int) 4,
        binAt histBin.data_ idx
          < ([⟨0, 0, 0⟩, ⟨2, 1, 1⟩, ⟨0, 0, 0⟩] : List (HistogramBinEntry Int)).length) ∧
      (4 : Int) ≤ ([10, 20, 30, 40] : List Int).length ∧
      (4 : Int) ≤ ([1, 2, 3, 4] : List Int).length) ∧
    ∃ out' : List (HistogramBinEntry Int),
      histBin.ConstructHistogram [3, 0, 1, 2] 4 [10, 20, 30, 40] [1, 2, 3, 4]
        [⟨0, 0, 0⟩, ⟨2, 1, 1⟩, ⟨0, 0, 0⟩] = some out' ∧
      histBin.ConstructHistogram (permuteBy [2, 0, 3, 1] [3, 0, 1, 2] 0) 4
        (permuteBy [2, 0, 3, 1] [10, 20, 30, 40] 0) (permuteBy [2, 0, 3, 1] [1, 2, 3, 4] 0)
        [⟨0, 0, 0⟩, ⟨2, 1, 1⟩, ⟨0, 0, 0⟩] = some out' :=
  ⟨⟨by decide, by decide, by decide, by decide, by decide, by decide⟩,
    ConstructHistogram_order_independent histBin [3, 0, 1, 2] 4 [10, 20, 30, 40] [1, 2, 3, 4]
      [⟨0, 0, 0⟩, ⟨2, 1, 1⟩, ⟨0, 0, 0⟩] [2, 0, 3, 1]
      (by decide) (by decide) (by decide) (by decide) (by decide) (by decide)⟩

theorem histStep_congr3 {S : Type} [Add S] (rd1 rd2 : Int → Option Nat) (g1 h1 g2 h2 : List S)
    (i1 i2 : Int) (out : List (HistogramBinEntry S)) (hrd : rd1 i1 = rd2 i2)
    (hg : readAt g1 i1 = readAt g2 i2) (hh : readAt h1 i1 = readAt h2 i2) :
    histStep rd1 g1 h1 i1 out = histStep rd2 g2 h2 i2 out := by
  simp only [histStep_bind, hrd, hg, hh]

/-- What `Get` returns at a position that holds the raw code `v`. -/
theorem Get_eq {w : Nat} (self : DenseBin w) (min_bin max_bin default_bin : Nat) (idx : Int)
    (v : Nat) (hv : readAt self.data_ idx = some v) :
    (self.GetIterator min_bin max_bin default_bin).Get idx
      = some (if castVal w min_bin ≤ v ∧ v ≤ castVal w max_bin then
          (v - castVal w min_bin + (if castVal w default_bin = 0 then 1 else 0)) % 2 ^ 32
        else castVal w default_bin) := by
  simp only [DenseBin.GetIterator, DenseBinIterator.new, DenseBinIterator.Get, hv, ge_iff_le]
  split_ifs <;> rfl

/-- Claim C11 fails as stated, for a storage of 32 bits only: when the storage holds the
code `2 ^ 32 - 1`, with `min_bin = 0`, `max_bin = 2 ^ 32 - 1` and `default_bin = 0`, the
code is in range and `v - min_bin + bias` is `2 ^ 32`, which is no `uint32_t`; `Get` returns
`0`. -/
theorem Get_wraps_counterexample :
    readAt wideBin.data_ 0 = some 4294967295 ∧
    (0 ≤ 4294967295 ∧ 4294967295 ≤ 4294967295) ∧
    (wideBin.GetIterator 0 4294967295 0).Get 0 = some 0 ∧
    ¬ (wideBin.GetIterator 0 4294967295 0).Get 0
        = some (4294967295 - 0 + (if (0 : Nat) = 0 then 1 else 0)) := by
  decide

/-- Claim C11, amended. For `(min_bin, max_bin, default_bin)` that fit the storage width and
an in-bounds position that holds the raw code `v`, `Get` returns `v - min_bin + bias` reduced
modulo `2 ^ 32` (its result is a `uint32_t`) when `min_bin ≤ v ≤ max_bin` and `default_bin`
otherwise, with `bias = 1` if `default_bin = 0` and `bias = 0` otherwise. The reduction
changes nothing when `v - min_bin + bias < 2 ^ 32`, which holds for every storage of less
than 32 bits. On scenario A (data `[0, 1, 2, 3, 1, 0]`, `min_bin = 1`, `max_bin = 2`,
`default_bin = 0`) `Get` over the positions 0 to 5 yields `[0, 1, 2, 0, 1, 0]`. -/
theorem Get_remap {w : Nat} (self : DenseBin w) (min_bin max_bin default_bin : Nat) (idx : Int)
    (v : Nat) (hmin : min_bin < 2 ^ w) (hmax : max_bin < 2 ^ w) (hdef : default_bin < 2 ^ w)
    (hv : readAt self.data_ idx = some v) :
    (self.GetIterator min_bin max_bin default_bin).Get idx
      = some (if min_bin ≤ v ∧ v ≤ max_bin then
          (v - min_bin + (if default_bin = 0 then 1 else 0)) % 2 ^ 32
        else default_bin) ∧
    (v - min_bin + (if default_bin = 0 then 1 else 0) < 2 ^ 32 →
      (self.GetIterator min_bin max_bin default_bin).Get idx
        = some (if min_bin ≤ v ∧ v ≤ max_bin then
            v - min_bin + (if default_bin = 0 then 1 else 0)
          else default_bin)) ∧
    (w < 32 → v < 2 ^ w → v - min_bin + (if default_bin = 0 then 1 else 0) < 2 ^ 32) ∧
    (List.range 6).map (fun i => (scenarioA.GetIterator 1 2 0).Get (Int.ofNat i))
      = [some 0, some 1, some 2, some 0, some 1, some 0] ∧
    (List.range 6).map (fun i => (scenarioA2.GetIterator 1 2 0).Get (Int.ofNat i))
      = [some 0, some 1, some 2, some 0, some 1, some 0] := by
  have h := Get_eq self min_bin max_bin default_bin idx v hv
  simp only [castVal, Nat.mod_eq_of_lt hmin, Nat.mod_eq_of_lt hmax, Nat.mod_eq_of_lt hdef] at h
  refine ⟨h, ?_, ?_, by decide, by decide⟩
  · intro hlt
    rw [h, Nat.mod_eq_of_lt hlt]
  · intro hw hvw
    have h1 : 2 ^ w < 2 ^ 32 := Nat.pow_lt_pow_right (by decide) hw
    split_ifs <;> omega

theorem Get_remap_witness :
    (1 < 2 ^ 8 ∧ 7 < 2 ^ 8 ∧ 3 < 2 ^ 8 ∧ readAt exampleBin.data_ 2 = some 7) ∧
    (exampleBin.GetIterator 1 7 3).Get 2
      = some (if 1 ≤ 7 ∧ 7 ≤ 7 then (7 - 1 + (if 3 = 0 then 1 else 0)) % 2 ^ 32 else 3) :=
  ⟨⟨by decide, by decide, by decide, by decide⟩,
    (Get_remap exampleBin 1 7 3 2 7 (by decide) (by decide) (by decide) (by decide)).1⟩

/-- Claim C12 fails as stated. With 8-bit bins, `min_bin = 1`, `max_bin = 5` and
`default_bin = 2`, the stored code `v = 3` is in range and `Get` returns
`v - min_bin + bias = 3 - 1 + 0 = 2`, which is `default_bin`. -/
theorem Get_default_in_range_counterexample :
    readAt (⟨1, [3]⟩ : DenseBin 8).data_ 0 = some 3 ∧
    ((⟨1, [3]⟩ : DenseBin 8).GetIterator 1 5 2).Get 0 = some 2 ∧
    ¬ (((⟨1, [3]⟩ : DenseBin 8).GetIterator 1 5 2).Get 0 = some 2 ↔ (3 < 1 ∨ 3 > 5)) := by
  decide

/-- Claim C12, amended. For `(min_bin, max_bin, default_bin)` that fit a storage width of
`w ≤ 32` bits and every stored raw code `v`, `Get` returns `default_bin` if and only if
`v < min_bin` or `v > max_bin`, or `default_bin ≠ 0` and `v = min_bin + default_bin` (the
raw code of the default bin itself, which can be in range), or `default_bin = 0`,
`min_bin = 0` and `v = 2 ^ 32 - 1` (where the 32-bit result wraps to `0`). When
`default_bin = 0` and the storage has less than 32 bits, `Get` returns `default_bin` if and
only if `v < min_bin` or `v > max_bin`. -/
theorem Get_default_iff {w : Nat} (self : DenseBin w) (min_bin max_bin default_bin : Nat)
    (idx : Int) (v : Nat) (hw : w ≤ 32)
    (hmin : min_bin < 2 ^ w) (hmax : max_bin < 2 ^ w) (hdef : default_bin < 2 ^ w)
    (hv : readAt self.data_ idx = some v) (hvw : v < 2 ^ w) :
    ((self.GetIterator min_bin max_bin default_bin).Get idx = some default_bin ↔
      (v < min_bin ∨ v > max_bin ∨ (default_bin ≠ 0 ∧ v = min_bin + default_bin) ∨
        (default_bin = 0 ∧ min_bin = 0 ∧ v = 2 ^ 32 - 1))) ∧
    (default_bin = 0 → w < 32 →
      ((self.GetIterator min_bin max_bin default_bin).Get idx = some default_bin ↔
        (v < min_bin ∨ v > max_bin))) := by
  have h := Get_eq self min_bin max_bin default_bin idx v hv
  simp only [castVal, Nat.mod_eq_of_lt hmin, Nat.mod_eq_of_lt hmax, Nat.mod_eq_of_lt hdef] at h
  have h32 : 2 ^ w ≤ 2 ^ 32 := Nat.pow_le_pow_right (by decide) hw
  rw [h, Option.some_inj]
  constructor
  · by_cases hr : min_bin ≤ v ∧ v ≤ max_bin
    · simp only [hr, and_self, if_true]
      by_cases hd : default_bin = 0
      · simp only [hd, if_true, ne_eq, not_true_eq_false, false_and, true_and, false_or]
        constructor
        · intro h'
          right; right
          omega
        · rintro (h' | h' | h') <;> omega
      · simp only [hd, if_false, ne_eq, not_false_eq_true, false_and, true_and, or_false]
        constructor
        · intro h'
          right; right
          omega
        · rintro (h' | h' | h') <;> omega
    · simp only [hr, if_false, true_iff]
      omega
  · intro hd hw'
    have h32' : 2 ^ w < 2 ^ 32 := Nat.pow_lt_pow_right (by decide) hw'
    by_cases hr : min_bin ≤ v ∧ v ≤ max_bin
    · simp only [hr, and_self, if_true, hd]
      constructor
      · intro h'
        omega
      · rintro (h' | h') <;> omega
    · simp only [hr, if_false, true_iff]
      omega

theorem Get_default_iff_witness :
    (8 ≤ 32 ∧ 1 < 2 ^ 8 ∧ 7 < 2 ^ 8 ∧ 4 < 2 ^ 8 ∧ readAt exampleBin.data_ 0 = some 5 ∧
      5 < 2 ^ 8) ∧
    ((exampleBin.GetIterator 1 7 4).Get 0 = some 4 ↔
      (5 < 1 ∨ 5 > 7 ∨ (4 ≠ 0 ∧ 5 = 1 + 4) ∨ (4 = 0 ∧ 1 = 0 ∧ 5 = 2 ^ 32 - 1))) :=
  ⟨⟨by decide, by decide, by decide, by decide, by decide, by decide⟩,
    (Get_default_iff exampleBin 1 7 4 0 5 (by decide) (by decide) (by decide) (by decide)
      (by decide) (by decide)).1⟩

/-! ## Claims on the degenerate case of `Split` and on the storage -/

/-- Claim C13. For every `num_data ≤ 0` and every other argument, `Split` returns `0` and
writes nothing: it does not fail, and both output buffers keep their prior contents. -/
theorem Split_degenerate {w : Nat} (self : DenseBin w) (min_bin max_bin default_bin : Nat)
    (missing_type : MissingType) (default_left : Bool) (threshold : Nat)
    (data_indices : List Int) (num_data : Int) (lte_indices gt_indices : List Int)
    (bin_type : BinType) (hn : num_data ≤ 0) :
    self.Split min_bin max_bin default_bin missing_type default_left threshold data_indices
        num_data lte_indices gt_indices bin_type
      = some ⟨0, lte_indices, gt_indices⟩ := by
  simp only [DenseBin.Split, hn, if_true]

theorem Split_degenerate_witness :
    (-3 : Int) ≤ 0 ∧
    exampleBin.Split 900 2 700 MissingType.NaN true 5 [99, -4] (-3) [1, 2] []
        BinType.NumericalBin
      = some ⟨0, [1, 2], []⟩ :=
  ⟨by decide,
    Split_degenerate exampleBin 900 2 700 MissingType.NaN true 5 [99, -4] (-3) [1, 2] []
      BinType.NumericalBin (by decide)⟩

theorem length_vectorResize (data : List Nat) (n : Nat) : (vectorResize data n).length = n := by
  simp only [vectorResize, List.length_append, List.length_take, List.length_replicate]
  omega

theorem getElem?_vectorResize_lt (data : List Nat) (n i : Nat) (hi : i < n)
    (hd : i < data.length) : (vectorResize data n)[i]? = data[i]? := by
  unfold vectorResize
  rw [List.getElem?_append_left (by rw [List.length_take]; omega), List.getElem?_take, if_pos hi]

theorem getElem?_vectorResize_ge (data : List Nat) (n i : Nat) (hi : i < n)
    (hd : data.length ≤ i) : (vectorResize data n)[i]? = some 0 := by
  unfold vectorResize
  rw [List.getElem?_append_right (by rw [List.length_take]; omega), List.length_take,
    List.getElem?_replicate]
  have : i - min n data.length < n - data.length := by omega
  simp [this]

/-- Claim C14. A storage is created zero-filled, and for every storage of size `n` and every
new size `m ≥ 0`, `ReSize(m)` returns a storage with `num_data = m` in which slot `i` holds
its previous value for every `i < min(n, m)` and every slot `i` with `n ≤ i < m` holds `0`;
when `m = n` the storage is unchanged. -/
theorem ReSize_spec {w : Nat} (self : DenseBin w) (m : Int) (hwf : self.WellFormed)
    (hm : 0 ≤ m) :
    (∃ s' : DenseBin w,
      self.ReSize m = some s' ∧ s'.num_data_ = m ∧ s'.WellFormed ∧
      (∀ i : Nat, (i : Int) < min self.num_data_ m → s'.data_[i]? = self.data_[i]?) ∧
      (∀ i : Nat, self.num_data_ ≤ (i : Int) → (i : Int) < m → s'.data_[i]? = some 0) ∧
      (m = self.num_data_ → s' = self)) ∧
    (∀ n : Nat, ∃ s : DenseBin w,
      DenseBin.new w (n : Int) = some s ∧ s.num_data_ = (n : Int) ∧ s.WellFormed ∧
      ∀ i : Nat, i < n → s.data_[i]? = some 0) := by
  unfold DenseBin.WellFormed at hwf
  constructor
  · by_cases h : self.num_data_ = m
    · refine ⟨self, by simp [DenseBin.ReSize, h], h, hwf, fun _ _ => rfl, ?_, fun _ => rfl⟩
      intro i h1 h2
      omega
    · refine ⟨⟨m, vectorResize self.data_ m.toNat⟩, by simp [DenseBin.ReSize, h, hm], rfl, ?_,
        ?_, ?_, ?_⟩
      · simp only [DenseBin.WellFormed, length_vectorResize]
        omega
      · intro i hi
        exact getElem?_vectorResize_lt _ _ _ (by omega) (by omega)
      · intro i h1 h2
        exact getElem?_vectorResize_ge _ _ _ (by omega) (by omega)
      · intro h'
        exact absurd h'.symm h
  · intro n
    refine ⟨⟨(n : Int), List.replicate n 0⟩, by simp [DenseBin.new], rfl, ?_, ?_⟩
    · simp [DenseBin.WellFormed]
    · intro i hi
      simp [List.getElem?_replicate, hi]

theorem ReSize_spec_witness :
    (exampleBin.WellFormed ∧ (0 : Int) ≤ 7) ∧
    ∃ s' : DenseBin 8,
      exampleBin.ReSize 7 = some s' ∧ s'.num_data_ = 7 ∧ s'.WellFormed ∧
      (∀ i : Nat, (i : Int) < min exampleBin.num_data_ 7 →
        s'.data_[i]? = exampleBin.data_[i]?) ∧
      (∀ i : Nat, exampleBin.num_data_ ≤ (i : Int) → (i : Int) < 7 →
        s'.data_[i]? = some 0) ∧
      ((7 : Int) = exampleBin.num_data_ → s' = exampleBin) :=
  ⟨⟨by simp [DenseBin.WellFormed, exampleBin], by decide⟩,
    (ReSize_spec exampleBin 7 (by simp [DenseBin.WellFormed, exampleBin]) (by decide)).1⟩

/-- Claim C18. For every storage of `w` bits, every in-bounds position `p` and every value
`x`, `Push(p, x)` returns a storage with the same `num_data` in which `RawGet(p)` is
`x mod 2 ^ w` (`x` itself when `x` fits the width) and `RawGet(q)` is as before for every
`q ≠ p`, whatever `min_bin`, `max_bin` and `default_bin` the iterator is built with. -/
theorem Push_RawGet {w : Nat} (self : DenseBin w) (tid p : Int) (x : Nat)
    (hp0 : 0 ≤ p) (hp : p < self.data_.length) :
    ∃ s' : DenseBin w,
      self.Push tid p x = some s' ∧ s'.num_data_ = self.num_data_ ∧
      s'.data_.length = self.data_.length ∧
      (∀ min_bin max_bin default_bin : Nat,
        (s'.GetIterator min_bin max_bin default_bin).RawGet p = some (x % 2 ^ w)) ∧
      (x < 2 ^ w → ∀ min_bin max_bin default_bin : Nat,
        (s'.GetIterator min_bin max_bin default_bin).RawGet p = some x) ∧
      (∀ q : Int, q ≠ p → ∀ min_bin max_bin default_bin min_bin' max_bin' default_bin' : Nat,
        (s'.GetIterator min_bin max_bin default_bin).RawGet q
          = (self.GetIterator min_bin' max_bin' default_bin').RawGet q) := by
  have hlt : p.toNat < self.data_.length := by omega
  have hw : writeAt self.data_ p (castVal w x) = some (self.data_.set p.toNat (castVal w x)) := by
    simp [writeAt, hp0, hlt]
  refine ⟨{ self with data_ := self.data_.set p.toNat (castVal w x) }, by
    simp [DenseBin.Push, hw], rfl, by simp, ?_, ?_, ?_⟩
  · intro _ _ _
    simp [DenseBin.GetIterator, DenseBinIterator.new, DenseBinIterator.RawGet, readAt, hp0,
      hlt, castVal]
  · intro hx _ _ _
    simp [DenseBin.GetIterator, DenseBinIterator.new, DenseBinIterator.RawGet, readAt, hp0,
      hlt, castVal, Nat.mod_eq_of_lt hx]
  · intro q hq _ _ _ _ _ _
    simp only [DenseBin.GetIterator, DenseBinIterator.new, DenseBinIterator.RawGet, readAt]
    by_cases hq0 : 0 ≤ q
    · simp only [hq0, if_true]
      rw [List.getElem?_set_ne (by omega)]
    · simp [hq0]

theorem Push_RawGet_witness :
    ((0 : Int) ≤ 3 ∧ (3 : Int) < exampleBin.data_.length) ∧
    ∃ s' : DenseBin 8,
      exampleBin.Push 0 3 300 = some s' ∧ s'.num_data_ = exampleBin.num_data_ ∧
      s'.data_.length = exampleBin.data_.length ∧
      (∀ min_bin max_bin default_bin : Nat,
        (s'.GetIterator min_bin max_bin default_bin).RawGet 3 = some (300 % 2 ^ 8)) ∧
      (300 < 2 ^ 8 → ∀ min_bin max_bin default_bin : Nat,
        (s'.GetIterator min_bin max_bin default_bin).RawGet 3 = some 300) ∧
      (∀ q : Int, q ≠ 3 → ∀ min_bin max_bin default_bin min_bin' max_bin' default_bin' : Nat,
        (s'.GetIterator min_bin max_bin default_bin).RawGet q
          = (exampleBin.GetIterator min_bin' max_bin' default_bin').RawGet q) :=
  ⟨⟨by decide, by decide⟩, Push_RawGet exampleBin 0 3 300 (by decide) (by decide)⟩

/-! ## Claims on the copy loops -/

/-- A loop that copies `src i` into slot `i` for the `k` positions from `j` on: the copied
slots hold the values read, the other slots and the length are as before. -/
theorem iterM_copy (src : Int → Option Nat) (val : Nat → Nat) :
    ∀ (k j : Nat) (d : List Nat),
      (∀ i : Nat, j ≤ i → i < j + k → src (i : Int) = some (val i)) → j + k ≤ d.length →
      ∃ d' : List Nat,
        iterM (fun i d => (src i).bind (writeAt d i)) 1 k (j : Int) d = some d' ∧
        d'.length = d.length ∧
        (∀ i : Nat, j ≤ i → i < j + k → d'[i]? = some (val i)) ∧
        (∀ i : Nat, (i < j ∨ j + k ≤ i) → d'[i]? = d[i]?) := by
  intro k
  induction k with
  | zero =>
    intro j d _ _
    exact ⟨d, rfl, rfl, by intro i h1 h2; omega, fun _ _ => rfl⟩
  | succ k ih =>
    intro j d hs hl
    have h0 := hs j le_rfl (by omega)
    have hj : j < d.length := by omega
    have hw : writeAt d (j : Int) (val j) = some (d.set j (val j)) := by
      simp [writeAt, hj]
    obtain ⟨d', h1, h2, h3, h4⟩ := ih (j + 1) (d.set j (val j))
      (fun i a b => hs i (by omega) (by omega)) (by rw [List.length_set]; omega)
    refine ⟨d', ?_, by rw [h2, List.length_set], ?_, ?_⟩
    · rw [iterM_succ]
      simp only [h0, Option.bind, hw]
      push_cast at h1
      exact h1
    · intro i a b
      by_cases e : i = j
      · subst e
        rw [h4 i (Or.inl (by omega))]
        simp [hj]
      · exact h3 i (by omega) (by omega)
    · intro i hi
      rw [h4 i (by omega), List.getElem?_set_ne (by omega)]

/-- The copy loop of `LoadFromMemory` and `CopySubset` over the positions below `n`. -/
theorem copyLoop_spec (src : Int → Option Nat) (val : Nat → Nat) (n : Int) (d : List Nat)
    (hs : ∀ i : Nat, (i : Int) < n → src (i : Int) = some (val i)) (hl : n ≤ d.length) :
    ∃ d' : List Nat,
      forLoop n 1 Int.one_pos (fun i d => (src i).bind (writeAt d i)) 0 d
        = some ((n.toNat : Int), d') ∧
      d'.length = d.length ∧
      (∀ i : Nat, (i : Int) < n → d'[i]? = some (val i)) ∧
      (∀ i : Nat, n ≤ (i : Int) → d'[i]? = d[i]?) := by
  obtain ⟨d', h1, h2, h3, h4⟩ := iterM_copy src val n.toNat 0 d
    (fun i _ b => hs i (by omega)) (by omega)
  refine ⟨d', ?_, h2, fun i hi => h3 i (Nat.zero_le i) (by omega),
    fun i hi => h4 i (Or.inr (by omega))⟩
  rw [forLoop_one]
  simp only [Nat.cast_zero] at h1
  rw [h1]
  rfl

/-- A loop whose body is undefined at one of its positions is undefined. -/
theorem iterM_fail {σ : Type} (body : Int → σ → Option σ) :
    ∀ (k : Nat) (i : Int) (s : σ) (j : Nat), j < k → (∀ s, body (i + j) s = none) →
      iterM body 1 k i s = none := by
  intro k
  induction k with
  | zero => intro i s j hj _; omega
  | succ k ih =>
    intro i s j hj hb
    rw [iterM_succ]
    cases j with
    | zero =>
      have := hb s
      simp only [Nat.cast_zero, add_zero] at this
      rw [this]
      rfl
    | succ j =>
      cases body i s with
      | none => rfl
      | some s' =>
        refine ih (i + 1) s' j (by omega) ?_
        intro s''
        have := hb s''
        have e : i + 1 + (j : Int) = i + ((j + 1 : Nat) : Int) := by push_cast; ring
        rw [e]
        exact this

theorem loadBodyIndexed_eq (mem_data : List Nat) (local_used_indices : List Int) :
    loadBodyIndexed mem_data local_used_indices
      = fun i d => (binOfIndexed mem_data local_used_indices i).bind (writeAt d i) := by
  funext i d
  simp only [loadBodyIndexed, binOfIndexed]
  cases readAt local_used_indices i with
  | none => rfl
  | some j =>
    simp only
    cases readAt mem_data j <;> rfl

theorem loadBodyPlain_eq (mem_data : List Nat) :
    loadBodyPlain mem_data = fun i d => (readAt mem_data i).bind (writeAt d i) := by
  funext i d
  simp only [loadBodyPlain]
  cases readAt mem_data i <;> rfl

theorem copyBody_eq (other_data : List Nat) (used_indices : List Int) :
    copyBody other_data used_indices
      = fun i d => (binOfIndexed other_data used_indices i).bind (writeAt d i) := by
  funext i d
  simp only [copyBody, binOfIndexed]
  cases readAt used_indices i with
  | none => rfl
  | some j =>
    simp only
    cases readAt other_data j <;> rfl

/-- The indexed read `a[idx[i]]` in terms of the two reads it is made of. -/
theorem binOfIndexed_bind (data : List Nat) (data_indices : List Int) (i : Int) :
    binOfIndexed data data_indices i = (readAt data_indices i).bind (readAt data) := by
  simp only [binOfIndexed]
  cases readAt data_indices i <;> rfl

/-- `LoadFromMemory` on a buffer that holds the elements it reads: the storage it returns is
given slot by slot, and is the same for every well-formed storage of the same size. -/
theorem LoadFromMemory_core {w : Nat} (self : DenseBin w) (memory : List Nat)
    (local_used_indices : List Int) (src : Int → Option Nat) (val : Nat → Nat)
    (hwf : self.WellFormed)
    (hbody : (if ¬ local_used_indices = [] then loadBodyIndexed memory local_used_indices
      else loadBodyPlain memory) = fun i d => (src i).bind (writeAt d i))
    (hs : ∀ i : Nat, (i : Int) < self.num_data_ → src (i : Int) = some (val i)) :
    ∃ s' : DenseBin w,
      self.LoadFromMemory memory local_used_indices = some s' ∧
      s'.num_data_ = self.num_data_ ∧ s'.WellFormed ∧
      (∀ i : Nat, (i : Int) < self.num_data_ → s'.data_[i]? = some (val i)) := by
  unfold DenseBin.WellFormed at hwf
  obtain ⟨d', h1, h2, h3, _⟩ := copyLoop_spec src val self.num_data_ self.data_ hs
    (by omega)
  refine ⟨{ self with data_ := d' }, ?_, rfl, ?_, h3⟩
  · unfold DenseBin.LoadFromMemory
    by_cases he : local_used_indices = []
    · simp only [he, not_true_eq_false, if_false] at hbody ⊢
      rw [hbody, h1]
    · simp only [he, not_false_eq_true, if_true] at hbody ⊢
      rw [hbody, h1]
  · simp only [DenseBin.WellFormed, h2]
    exact hwf

/-- Two well-formed storages of the same size with the same slots are the same storage. -/
theorem DenseBin.eq_of_slots {w : Nat} (a b : DenseBin w) (ha : a.WellFormed)
    (hb : b.WellFormed) (hn : a.num_data_ = b.num_data_)
    (h : ∀ i : Nat, (i : Int) < a.num_data_ → a.data_[i]? = b.data_[i]?) : a = b := by
  unfold DenseBin.WellFormed at ha hb
  cases a with
  | mk na da =>
    cases b with
    | mk nb db =>
      simp only at ha hb hn h
      subst hn
      have hd : da = db := by
        apply List.ext_getElem?
        intro i
        by_cases hi : i < da.length
        · exact h i (by omega)
        · rw [List.getElem?_eq_none (by omega), List.getElem?_eq_none (by omega)]
      rw [hd]

/-- The result of `LoadFromMemory` is the same for every well-formed storage of the size. -/
theorem LoadFromMemory_indep {w : Nat} (self other : DenseBin w) (memory : List Nat)
    (local_used_indices : List Int) (src : Int → Option Nat) (val : Nat → Nat)
    (hwf : self.WellFormed) (hwf' : other.WellFormed)
    (hn : other.num_data_ = self.num_data_)
    (hbody : (if ¬ local_used_indices = [] then loadBodyIndexed memory local_used_indices
      else loadBodyPlain memory) = fun i d => (src i).bind (writeAt d i))
    (hs : ∀ i : Nat, (i : Int) < self.num_data_ → src (i : Int) = some (val i)) :
    other.LoadFromMemory memory local_used_indices
      = self.LoadFromMemory memory local_used_indices := by
  obtain ⟨s1, a1, a2, a3, a4⟩ :=
    LoadFromMemory_core self memory local_used_indices src val hwf hbody hs
  obtain ⟨s2, b1, b2, b3, b4⟩ :=
    LoadFromMemory_core other memory local_used_indices src val hwf' hbody
      (fun i hi => hs i (by omega))
  rw [a1, b1]
  congr 1
  apply DenseBin.eq_of_slots s2 s1 b3 a3 (by omega)
  intro i hi
  rw [b4 i (by omega), a4 i (by omega)]

/-- Claim C15. For every well-formed storage and every buffer: `LoadFromMemory` with an
empty remap list and a buffer of at least `num_data` elements sets `data[i] = buffer[i]` for
every `i < num_data`; with a non-empty remap list of at least `num_data` in-bounds entries it
sets `data[i] = buffer[remap[i]]` for every `i < num_data`. In both cases `num_data` is
unchanged and every well-formed storage of the same size gives the same result. -/
theorem LoadFromMemory_spec {w : Nat} (self : DenseBin w) (memory : List Nat)
    (local_used_indices : List Int) (hwf : self.WellFormed)
    (hvalid : if local_used_indices = [] then self.num_data_ ≤ memory.length
      else self.num_data_ ≤ local_used_indices.length ∧
        ∀ j ∈ firstN local_used_indices self.num_data_, 0 ≤ j ∧ j < memory.length) :
    ∃ s' : DenseBin w,
      self.LoadFromMemory memory local_used_indices = some s' ∧
      s'.num_data_ = self.num_data_ ∧ s'.WellFormed ∧
      (local_used_indices = [] → ∀ i : Nat, (i : Int) < self.num_data_ →
        ∃ x : Nat, readAt memory (i : Int) = some x ∧ s'.data_[i]? = some x) ∧
      (local_used_indices ≠ [] → ∀ i : Nat, (i : Int) < self.num_data_ →
        ∃ (j : Int) (x : Nat), readAt local_used_indices (i : Int) = some j ∧
          readAt memory j = some x ∧ s'.data_[i]? = some x) ∧
      (∀ other : DenseBin w, other.WellFormed → other.num_data_ = self.num_data_ →
        other.LoadFromMemory memory local_used_indices = some s') := by
  by_cases he : local_used_indices = []
  · simp only [he, if_true] at hvalid
    have hbody : (if ¬ local_used_indices = [] then loadBodyIndexed memory local_used_indices
        else loadBodyPlain memory) = fun i d => (readAt memory i).bind (writeAt d i) := by
      simp only [he, not_true_eq_false, if_false]
      exact loadBodyPlain_eq memory
    have hs : ∀ i : Nat, (i : Int) < self.num_data_ →
        readAt memory (i : Int) = some (memory.getD i 0) :=
      fun i hi => readAt_getD memory 0 i (by omega)
    obtain ⟨s', a1, a2, a3, a4⟩ :=
      LoadFromMemory_core self memory local_used_indices _ _ hwf hbody hs
    refine ⟨s', a1, a2, a3, ?_, fun h => absurd he h, ?_⟩
    · intro _ i hi
      exact ⟨_, hs i hi, a4 i hi⟩
    · intro other ho hn
      rw [← a1]
      exact LoadFromMemory_indep self other memory local_used_indices _ _ hwf ho hn hbody hs
  · simp only [he, if_false] at hvalid
    have hbody : (if ¬ local_used_indices = [] then loadBodyIndexed memory local_used_indices
        else loadBodyPlain memory)
        = fun i d => (binOfIndexed memory local_used_indices i).bind (writeAt d i) := by
      simp only [he, not_false_eq_true, if_true]
      exact loadBodyIndexed_eq memory local_used_indices
    have hs : ∀ i : Nat, (i : Int) < self.num_data_ →
        binOfIndexed memory local_used_indices (i : Int)
          = some (binAt memory (local_used_indices.getD i 0)) :=
      fun i hi => binOfIndexed_eq memory local_used_indices self.num_data_ hvalid.1 hvalid.2 i
        (by omega)
    obtain ⟨s', a1, a2, a3, a4⟩ :=
      LoadFromMemory_core self memory local_used_indices _ _ hwf hbody hs
    refine ⟨s', a1, a2, a3, fun h => absurd h he, ?_, ?_⟩
    · intro _ i hi
      have h1 := hs i hi
      rw [binOfIndexed_bind] at h1
      cases hj : readAt local_used_indices (i : Int) with
      | none => rw [hj] at h1; cases h1
      | some j =>
        rw [hj] at h1
        exact ⟨j, _, rfl, h1, a4 i hi⟩
    · intro other ho hn
      rw [← a1]
      exact LoadFromMemory_indep self other memory local_used_indices _ _ hwf ho hn hbody hs

theorem LoadFromMemory_spec_witness :
    (exampleBin.WellFormed ∧
      (if ([4, 0, 2, 2, 1, 9] : List Int) = [] then
        exampleBin.num_data_ ≤ ([10, 20, 30, 40, 50] : List Nat).length
      else exampleBin.num_data_ ≤ ([4, 0, 2, 2, 1, 9] : List Int).length ∧
        ∀ j ∈ firstN ([4, 0, 2, 2, 1, 9] : List Int) exampleBin.num_data_,
          0 ≤ j ∧ j < ([10, 20, 30, 40, 50] : List Nat).length)) ∧
    ∃ s' : DenseBin 8,
      exampleBin.LoadFromMemory [10, 20, 30, 40, 50] [4, 0, 2, 2, 1, 9] = some s' ∧
      s'.num_data_ = exampleBin.num_data_ ∧ s'.WellFormed ∧
      (([4, 0, 2, 2, 1, 9] : List Int) = [] → ∀ i : Nat, (i : Int) < exampleBin.num_data_ →
        ∃ x : Nat, readAt [10, 20, 30, 40, 50] (i : Int) = some x ∧ s'.data_[i]? = some x) ∧
      (([4, 0, 2, 2, 1, 9] : List Int) ≠ [] → ∀ i : Nat, (i : Int) < exampleBin.num_data_ →
        ∃ (j : Int) (x : Nat), readAt ([4, 0, 2, 2, 1, 9] : List Int) (i : Int) = some j ∧
          readAt [10, 20, 30, 40, 50] j = some x ∧ s'.data_[i]? = some x) ∧
      (∀ other : DenseBin 8, other.WellFormed → other.num_data_ = exampleBin.num_data_ →
        other.LoadFromMemory [10, 20, 30, 40, 50] [4, 0, 2, 2, 1, 9] = some s') :=
  ⟨⟨by simp [DenseBin.WellFormed, exampleBin], by decide⟩,
    LoadFromMemory_spec exampleBin [10, 20, 30, 40, 50] [4, 0, 2, 2, 1, 9]
      (by simp [DenseBin.WellFormed, exampleBin]) (by decide)⟩

/-- Claim C17. For every well-formed destination storage, every source storage of the same
width and every list `used_indices` of at least `num_used_indices` in-bounds source
positions with `num_used_indices ≤` the destination size, `CopySubset` sets
`data[i] = source.data[used_indices[i]]` for every `i < num_used_indices` and leaves every
destination slot `i ≥ num_used_indices` and the destination's `num_data` unchanged; the
source is an argument that is only read. -/
theorem CopySubset_spec {w : Nat} (self full_bin : DenseBin w) (used_indices : List Int)
    (num_used_indices : Int) (hwf : self.WellFormed)
    (hlen : num_used_indices ≤ used_indices.length)
    (hidx : ∀ j ∈ firstN used_indices num_used_indices, 0 ≤ j ∧ j < full_bin.data_.length)
    (hdst : num_used_indices ≤ self.num_data_) :
    ∃ s' : DenseBin w,
      self.CopySubset full_bin used_indices num_used_indices = some s' ∧
      s'.num_data_ = self.num_data_ ∧ s'.WellFormed ∧
      (∀ i : Nat, (i : Int) < num_used_indices →
        ∃ (j : Int) (x : Nat), readAt used_indices (i : Int) = some j ∧
          readAt full_bin.data_ j = some x ∧ s'.data_[i]? = some x) ∧
      (∀ i : Nat, num_used_indices ≤ (i : Int) → s'.data_[i]? = self.data_[i]?) := by
  unfold DenseBin.WellFormed at hwf
  have hs : ∀ i : Nat, (i : Int) < num_used_indices →
      binOfIndexed full_bin.data_ used_indices (i : Int)
        = some (binAt full_bin.data_ (used_indices.getD i 0)) :=
    fun i hi => binOfIndexed_eq full_bin.data_ used_indices num_used_indices hlen hidx i
      (by omega)
  obtain ⟨d', h1, h2, h3, h4⟩ := copyLoop_spec _ _ num_used_indices self.data_ hs (by omega)
  refine ⟨{ self with data_ := d' }, ?_, rfl, ?_, ?_, h4⟩
  · unfold DenseBin.CopySubset
    rw [copyBody_eq, h1]
  · simp only [DenseBin.WellFormed, h2]
    exact hwf
  · intro i hi
    have e := hs i hi
    rw [binOfIndexed_bind] at e
    cases hj : readAt used_indices (i : Int) with
    | none => rw [hj] at e; cases e
    | some j =>
      rw [hj] at e
      exact ⟨j, _, rfl, e, h3 i hi⟩

theorem CopySubset_spec_witness :
    (exampleBin.WellFormed ∧ (3 : Int) ≤ ([5, 0, 2, 77] : List Int).length ∧
      (∀ j ∈ firstN ([5, 0, 2, 77] : List Int) 3, 0 ≤ j ∧ j < scenarioA.data_.length) ∧
      (3 : Int) ≤ exampleBin.num_data_) ∧
    ∃ s' : DenseBin 8,
      exampleBin.CopySubset scenarioA [5, 0, 2, 77] 3 = some s' ∧
      s'.num_data_ = exampleBin.num_data_ ∧ s'.WellFormed ∧
      (∀ i : Nat, (i : Int) < 3 →
        ∃ (j : Int) (x : Nat), readAt ([5, 0, 2, 77] : List Int) (i : Int) = some j ∧
          readAt scenarioA.data_ j = some x ∧ s'.data_[i]? = some x) ∧
      (∀ i : Nat, (3 : Int) ≤ (i : Int) → s'.data_[i]? = exampleBin.data_[i]?) :=
  ⟨⟨by simp [DenseBin.WellFormed, exampleBin], by decide, by decide, by decide⟩,
    CopySubset_spec exampleBin scenarioA [5, 0, 2, 77] 3
      (by simp [DenseBin.WellFormed, exampleBin]) (by decide) (by decide) (by decide)⟩

/-! ## Claim on resizing and then loading -/

/-- Claim C16, counterexample. A storage holding the one value `5` writes the buffer `[5]`;
after it is resized to two slots, `LoadFromMemory` copies two elements from the buffer and
reads past its end, so that the round trip has no result. -/
theorem resize_then_load_counterexample :
    (⟨1, [5]⟩ : DenseBin 8).WellFormed ∧
    (⟨1, [5]⟩ : DenseBin 8).SaveBinaryToFile = some [5] ∧
    (⟨1, [5]⟩ : DenseBin 8).ReSize 2 = some ⟨2, [5, 0]⟩ ∧
    (⟨2, [5, 0]⟩ : DenseBin 8).LoadFromMemory [5] [] = none ∧
    readAt ([5] : List Nat) 1 = none ∧
    ¬ ∃ s' s'' : DenseBin 8, (⟨1, [5]⟩ : DenseBin 8).ReSize 2 = some s' ∧
      s'.LoadFromMemory [5] [] = some s'' ∧ s''.data_[0]? = some 5 := by
  have h1 : (⟨1, [5]⟩ : DenseBin 8).ReSize 2 = some ⟨2, [5, 0]⟩ := by decide
  have h2 : (⟨2, [5, 0]⟩ : DenseBin 8).LoadFromMemory [5] [] = none := by
    simp [DenseBin.LoadFromMemory, forLoop, loadBodyPlain, readAt, writeAt]
  refine ⟨by simp [DenseBin.WellFormed], by decide, h1, h2, by decide, ?_⟩
  rintro ⟨s', s'', a, b, _⟩
  rw [h1] at a
  cases a
  rw [h2] at b
  cases b

/-- Claim C16, amended. For every well-formed storage holding `N` values, every `M > N` and
every buffer of at least `M` elements whose first `N` elements are the raw contents of the
storage (what `SaveBinaryToFile` writes), resizing the storage to `M` and then calling
`LoadFromMemory` on the buffer with an empty remap list returns a storage of size `M` whose
slots `0..N-1` equal the original `N` values. With the `N` raw elements alone as the buffer
the load reads past the end of the buffer and has no result. -/
theorem resize_then_load {w : Nat} (self : DenseBin w) (M : Int) (buffer : List Nat)
    (hwf : self.WellFormed) (hM : self.num_data_ < M)
    (hbuf : self.SaveBinaryToFile = some (firstN buffer self.num_data_))
    (hlen : M ≤ buffer.length) :
    (∃ s' s'' : DenseBin w,
      self.ReSize M = some s' ∧ s'.LoadFromMemory buffer [] = some s'' ∧
      s''.num_data_ = M ∧
      ∀ i : Nat, (i : Int) < self.num_data_ → s''.data_[i]? = self.data_[i]?) ∧
    (∀ (raw : List Nat) (s' : DenseBin w), self.SaveBinaryToFile = some raw →
      self.ReSize M = some s' → s'.LoadFromMemory raw [] = none) := by
  have hwf0 := hwf
  unfold DenseBin.WellFormed at hwf
  have hn0 : 0 ≤ self.num_data_ := by omega
  have hsave : self.SaveBinaryToFile = some self.data_ := by
    unfold DenseBin.SaveBinaryToFile
    have e : self.num_data_.toNat = self.data_.length := by omega
    simp [hn0, e]
  have hre : self.ReSize M = some ⟨M, vectorResize self.data_ M.toNat⟩ := by
    have h1 : self.num_data_ ≠ M := by omega
    have h2 : 0 ≤ M := by omega
    simp [DenseBin.ReSize, h1, h2]
  have hwf2 : (⟨M, vectorResize self.data_ M.toNat⟩ : DenseBin w).WellFormed := by
    simp only [DenseBin.WellFormed, length_vectorResize]
    omega
  constructor
  · rw [hsave] at hbuf
    have hd : self.data_ = firstN buffer self.num_data_ := Option.some.inj hbuf
    have hbody : (if ¬ ([] : List Int) = [] then loadBodyIndexed buffer []
        else loadBodyPlain buffer) = fun i d => (readAt buffer i).bind (writeAt d i) := by
      simp only [not_true_eq_false, if_false]
      exact loadBodyPlain_eq buffer
    obtain ⟨s'', a1, a2, _, a4⟩ :=
      LoadFromMemory_core (⟨M, vectorResize self.data_ M.toNat⟩ : DenseBin w) buffer []
        (readAt buffer) (fun i => buffer.getD i 0) hwf2 hbody
        (fun i hi => readAt_getD buffer 0 i (by simp only at hi; omega))
    refine ⟨_, s'', hre, a1, a2, ?_⟩
    intro i hi
    rw [a4 i (by simp only; omega)]
    have hi' : i < buffer.length := by omega
    rw [hd]
    unfold firstN
    rw [List.getElem?_take, if_pos (by omega), List.getElem?_eq_getElem hi',
      List.getD_eq_getElem _ 0 hi']
  · intro raw s' hr hs
    rw [hsave] at hr
    rw [hre] at hs
    cases hr
    cases hs
    unfold DenseBin.LoadFromMemory
    simp only [not_true_eq_false, if_false]
    have hf := iterM_fail (loadBodyPlain self.data_) M.toNat 0
      (vectorResize self.data_ M.toNat) self.data_.length (by omega)
      (by intro s; simp [loadBodyPlain, readAt_natCast])
    rw [forLoop_one, hf]
    rfl

theorem resize_then_load_witness :
    (exampleBin.WellFormed ∧ exampleBin.num_data_ < 7 ∧
      exampleBin.SaveBinaryToFile = some (firstN [5, 1, 7, 2, 9, 40, 41] exampleBin.num_data_) ∧
      (7 : Int) ≤ ([5, 1, 7, 2, 9, 40, 41] : List Nat).length) ∧
    (∃ s' s'' : DenseBin 8,
      exampleBin.ReSize 7 = some s' ∧ s'.LoadFromMemory [5, 1, 7, 2, 9, 40, 41] [] = some s'' ∧
      s''.num_data_ = 7 ∧
      ∀ i : Nat, (i : Int) < exampleBin.num_data_ → s''.data_[i]? = exampleBin.data_[i]?) ∧
    (∀ (raw : List Nat) (s' : DenseBin 8), exampleBin.SaveBinaryToFile = some raw →
      exampleBin.ReSize 7 = some s' → s'.LoadFromMemory raw [] = none) :=
  ⟨⟨by simp [DenseBin.WellFormed, exampleBin], by decide, by decide, by decide⟩,
    resize_then_load exampleBin 7 [5, 1, 7, 2, 9, 40, 41]
      (by simp [DenseBin.WellFormed, exampleBin]) (by decide) (by decide) (by decide)⟩

/-! ## The modes with gradients only -/

theorem histStepGrad_bind {S : Type} [Add S] (rd : Int → Option Nat) (g : List S) (i : Int)
    (out : List (HistogramBinEntry S)) :
    histStepGrad rd g i out =
      (rd i).bind fun bin => (readAt g i).bind fun x => (addGradient out bin x).bind fun o =>
      incCount o bin := by
  simp only [histStepGrad, match_eq_bind, match_eq_bind_nat, match_eq_bind_hist]

theorem histBlockGrad_bind {S : Type} [Add S] (rd : Int → Option Nat) (g : List S) (i : Int)
    (out : List (HistogramBinEntry S)) :
    histBlockGrad rd g i out =
      (rd i).bind fun bin0 => (rd (i + 1)).bind fun bin1 => (rd (i + 2)).bind fun bin2 =>
      (rd (i + 3)).bind fun bin3 =>
      (addGradient4 g i bin0 bin1 bin2 bin3 out).bind fun o =>
      incCount4 bin0 bin1 bin2 bin3 o := by
  simp only [histBlockGrad, match_eq_bind_nat, match_eq_bind_hist]

/-- The updates of one pass of the four-at-a-time body with gradients only, once the eight
reads are done, are the updates of four passes of the one-at-a-time body. -/
theorem histBlockGrad_core {S : Type} [Add S] (b0 b1 b2 b3 : Nat) (x0 x1 x2 x3 : S)
    (out : List (HistogramBinEntry S)) :
    ((addGradient out b0 x0).bind fun o => (addGradient o b1 x1).bind fun o =>
      (addGradient o b2 x2).bind fun o => (addGradient o b3 x3).bind fun o =>
      (incCount o b0).bind fun o => (incCount o b1).bind fun o =>
      (incCount o b2).bind fun o => incCount o b3)
    = ((addGradient out b0 x0).bind fun o => (incCount o b0).bind fun o =>
      (addGradient o b1 x1).bind fun o => (incCount o b1).bind fun o =>
      (addGradient o b2 x2).bind fun o => (incCount o b2).bind fun o =>
      (addGradient o b3 x3).bind fun o => incCount o b3) := by
  simp only [addGradient_eq, incCount_eq]
  by_cases c0 : b0 < out.length
  · by_cases c1 : b1 < out.length
    · by_cases c2 : b2 < out.length
      · by_cases c3 : b3 < out.length
        · simp only [c0, c1, c2, c3, length_mapAt, if_true, Option.some_bind, comm_GC]
        · simp [c0, c1, c2, c3, length_mapAt]
      · simp [c0, c1, c2, length_mapAt]
    · simp [c0, c1, length_mapAt]
  · simp [c0]

/-- One pass of the four-at-a-time body with gradients only is four passes of the
one-at-a-time body, at the positions `i`, `i + 1`, `i + 2`, `i + 3` in turn: the same
result, or both undefined. -/
theorem histBlockGrad_eq_steps {S : Type} [Add S] (rd : Int → Option Nat) (g : List S)
    (i : Int) (out : List (HistogramBinEntry S)) :
    histBlockGrad rd g i out =
      (histStepGrad rd g i out).bind fun o => (histStepGrad rd g (i + 1) o).bind fun o =>
      (histStepGrad rd g (i + 2) o).bind (histStepGrad rd g (i + 3)) := by
  simp only [histBlockGrad_bind, addGradient4_bind, incCount4_bind, histStepGrad_bind]
  cases hr0 : rd i with
  | none => simp
  | some b0 =>
    cases hr1 : rd (i + 1) with
    | none => simp
    | some b1 =>
      cases hr2 : rd (i + 2) with
      | none => simp
      | some b2 =>
        cases hr3 : rd (i + 3) with
        | none => simp
        | some b3 =>
          cases hr4 : readAt g i with
          | none => simp
          | some x0 =>
            cases hr5 : readAt g (i + 1) with
            | none => simp
            | some x1 =>
              cases hr6 : readAt g (i + 2) with
              | none => simp
              | some x2 =>
                cases hr7 : readAt g (i + 3) with
                | none => simp
                | some x3 =>
                  simp only [Option.some_bind, Option.bind_assoc]
                  exact histBlockGrad_core b0 b1 b2 b3 x0 x1 x2 x3 out

/-- A run of the four-at-a-time body with gradients only over `k` blocks is a run of the
one-at-a-time body over the same `4 * k` positions. -/
theorem iterM_histBlockGrad {S : Type} [Add S] (rd : Int → Option Nat) (g : List S) :
    ∀ (k : Nat) (i : Int) (out : List (HistogramBinEntry S)),
      iterM (histBlockGrad rd g) 4 k i out = iterM (histStepGrad rd g) 1 (4 * k) i out := by
  intro k
  induction k with
  | zero => intro i out; rfl
  | succ k ih =>
    intro i out
    have e : 4 * (k + 1) = 4 + 4 * k := by omega
    rw [e, iterM_add (histStepGrad rd g) 1 4 (4 * k), iterM_four,
      iterM_succ (histBlockGrad rd g), histBlockGrad_eq_steps]
    have e4 : i + ((4 : Nat) : Int) * 1 = i + 4 := by push_cast; ring
    rw [e4]
    congr 1
    funext o
    exact ih _ _

/-- The two loops of the modes with gradients only together run the one-at-a-time body at
the positions `0, 1, ..., num_data - 1` in turn, and at no other position. -/
theorem histLoopsGrad_eq {S : Type} [Add S] (rd : Int → Option Nat) (num_data : Int)
    (g : List S) (out : List (HistogramBinEntry S)) :
    histLoopsGrad rd num_data g out = iterM (histStepGrad rd g) 1 num_data.toNat 0 out := by
  unfold histLoopsGrad lowTwoBits
  have hq : num_data - num_data % 4 = 4 * (num_data / 4) := by omega
  have h1 := forLoop_eq_iterM (num_data - num_data % 4) 4 (by decide) (histBlockGrad rd g)
    (num_data / 4).toNat 0 out (by omega) (by intro j hj; omega)
  simp only [h1, iterM_histBlockGrad]
  cases hA : iterM (histStepGrad rd g) 1 (4 * (num_data / 4).toNat) 0 out with
  | none =>
    have e : num_data.toNat
        = 4 * (num_data / 4).toNat + (num_data.toNat - 4 * (num_data / 4).toNat) := by
      omega
    rw [e, iterM_add, hA]
    rfl
  | some out1 =>
    simp only [Option.map_some']
    rw [forLoop_from]
    have e : num_data.toNat
        = 4 * (num_data / 4).toNat
          + (num_data - (0 + ((num_data / 4).toNat : Int) * 4)).toNat := by
      omega
    rw [e, iterM_add, hA]
    simp only [Option.some_bind]
    have e2 : (0 : Int) + ((4 * (num_data / 4).toNat : Nat) : Int) * 1
        = 0 + ((num_data / 4).toNat : Int) * 4 := by
      push_cast; ring
    rw [e2]
    generalize (num_data - (0 + ((num_data / 4).toNat : Int) * 4)).toNat = m
    generalize (0 + ((num_data / 4).toNat : Int) * 4) = i0
    cases iterM (histStepGrad rd g) 1 m i0 out1 <;> rfl

/-- The plain loop runs its body at the positions `0, 1, ..., num_data - 1` in turn. -/
theorem plainLoop_eq {σ : Type} (body : Int → σ → Option σ) (num_data : Int) (s : σ) :
    plainLoop body num_data s = iterM body 1 num_data.toNat 0 s := by
  unfold plainLoop
  rw [forLoop_one]
  cases iterM body 1 num_data.toNat 0 s <;> rfl

theorem histStepGrad_congr3 {S : Type} [Add S] (rd1 rd2 : Int → Option Nat) (g1 g2 : List S)
    (i1 i2 : Int) (out : List (HistogramBinEntry S)) (hrd : rd1 i1 = rd2 i2)
    (hg : readAt g1 i1 = readAt g2 i2) :
    histStepGrad rd1 g1 i1 out = histStepGrad rd2 g2 i2 out := by
  simp only [histStepGrad_bind, hrd, hg]

/-- A read below `num_data` in the first `num_data` entries of an array is the read in the
array. -/
theorem readAt_firstN {α : Type} (a : List α) (num_data : Int) (j : Nat)
    (hj : j < num_data.toNat) : readAt (firstN a num_data) (j : Int) = readAt a (j : Int) := by
  rw [readAt_natCast, readAt_natCast, firstN, List.getElem?_take, if_pos hj]

theorem binOfIndexed_firstN (data : List Nat) (data_indices : List Int) (num_data : Int)
    (j : Nat) (hj : j < num_data.toNat) :
    binOfIndexed data (firstN data_indices num_data) (j : Int)
      = binOfIndexed data data_indices (j : Int) := by
  simp only [binOfIndexed, readAt_firstN _ _ j hj]

/-! ## Claims on the four-at-a-time loops and on the modes with gradients only -/

theorem foldOpt_map {α β σ : Type} (f : α → σ → Option σ) (m : β → α) :
    ∀ (l : List β) (s : σ), foldOpt f (l.map m) s = foldOpt (fun x => f (m x)) l s := by
  intro l
  induction l with
  | nil => intro s; rfl
  | cons x l ih =>
    intro s
    simp only [List.map_cons, foldOpt]
    cases f (m x) s with
    | none => rfl
    | some s' => exact ih s'

/-- A run over `k` positions from `i` on visits `i + 0, i + 1, ..., i + (k - 1)`, each once
and in this order. -/
theorem iterM_eq_foldOpt_range {σ : Type} (body : Int → σ → Option σ) :
    ∀ (k : Nat) (i : Int) (s : σ),
      iterM body 1 k i s = foldOpt (fun (j : Nat) => body (i + (j : Int))) (List.range k) s := by
  intro k
  induction k with
  | zero => intro i s; rfl
  | succ k ih =>
    intro i s
    rw [List.range_succ_eq_map]
    simp only [iterM, foldOpt, Nat.cast_zero, add_zero]
    cases body i s with
    | none => rfl
    | some s' =>
      simp only
      rw [foldOpt_map, ih (i + 1) s']
      congr 1
      funext j
      have e : i + 1 + (j : Int) = i + ((j.succ : Nat) : Int) := by push_cast; ring
      rw [e]

/-- Claim C19. For every `num_data` (a multiple of 4 or not, smaller than 4, zero or
negative) each of the four `ConstructHistogram` modes, the four-at-a-time loop followed by
the remainder loop, returns exactly what the plain loop over the positions
`0, 1, ..., num_data - 1` returns with the body of the remainder loop (the same histogram,
or both undefined), for sums in any type with an addition, of which no law is used:
`rest = num_data & 3` lies in `0 .. 3` and leaves `num_data - rest` a multiple of 4; the
plain loop visits every position below `num_data` once, in increasing order; the result is
the same when the arrays are cut after their first `num_data` entries, so that no entry at
or above `num_data` is read; and for `num_data ≤ 0` the histogram is returned unchanged. -/
theorem ConstructHistogram_unrolled {w : Nat} {S : Type} [Add S] (self : DenseBin w)
    (data_indices : List Int) (num_data : Int) (g h : List S)
    (out : List (HistogramBinEntry S)) :
    (self.ConstructHistogram data_indices num_data g h out
        = plainLoop (histStep (binOfIndexed self.data_ data_indices) g h) num_data out ∧
      self.ConstructHistogramRange num_data g h out
        = plainLoop (histStep (binOfRange self.data_) g h) num_data out ∧
      self.ConstructHistogramGrad data_indices num_data g out
        = plainLoop (histStepGrad (binOfIndexed self.data_ data_indices) g) num_data out ∧
      self.ConstructHistogramRangeGrad num_data g out
        = plainLoop (histStepGrad (binOfRange self.data_) g) num_data out) ∧
    (lowTwoBits num_data = Int.land num_data 3 ∧ 0 ≤ lowTwoBits num_data ∧
      lowTwoBits num_data ≤ 3 ∧ (4 : Int) ∣ num_data - lowTwoBits num_data) ∧
    (∀ body : Int → List (HistogramBinEntry S) → Option (List (HistogramBinEntry S)),
      plainLoop body num_data out
        = foldOpt (fun (j : Nat) => body (j : Int)) (List.range num_data.toNat) out) ∧
    (self.ConstructHistogram (firstN data_indices num_data) num_data (firstN g num_data)
          (firstN h num_data) out
        = self.ConstructHistogram data_indices num_data g h out ∧
      (⟨self.num_data_, firstN self.data_ num_data⟩ : DenseBin w).ConstructHistogramRange
          num_data (firstN g num_data) (firstN h num_data) out
        = self.ConstructHistogramRange num_data g h out ∧
      self.ConstructHistogramGrad (firstN data_indices num_data) num_data (firstN g num_data)
          out
        = self.ConstructHistogramGrad data_indices num_data g out ∧
      (⟨self.num_data_, firstN self.data_ num_data⟩ : DenseBin w).ConstructHistogramRangeGrad
          num_data (firstN g num_data) out
        = self.ConstructHistogramRangeGrad num_data g out) ∧
    (num_data ≤ 0 →
      self.ConstructHistogram data_indices num_data g h out = some out ∧
      self.ConstructHistogramRange num_data g h out = some out ∧
      self.ConstructHistogramGrad data_indices num_data g out = some out ∧
      self.ConstructHistogramRangeGrad num_data g out = some out) := by
  refine ⟨⟨?_, ?_, ?_, ?_⟩, ⟨lowTwoBits_eq_land num_data, ?_, ?_, ?_⟩, ?_, ⟨?_, ?_, ?_, ?_⟩, ?_⟩
  · rw [plainLoop_eq]; exact histLoops_eq _ _ _ _ _
  · rw [plainLoop_eq]; exact histLoops_eq _ _ _ _ _
  · rw [plainLoop_eq]; exact histLoopsGrad_eq _ _ _ _
  · rw [plainLoop_eq]; exact histLoopsGrad_eq _ _ _ _
  · unfold lowTwoBits; omega
  · unfold lowTwoBits; omega
  · unfold lowTwoBits; omega
  · intro body
    rw [plainLoop_eq, iterM_eq_foldOpt_range]
    simp only [zero_add]
  · unfold DenseBin.ConstructHistogram
    rw [histLoops_eq, histLoops_eq]
    apply iterM_congr
    intro j hj s
    simp only [zero_add]
    exact histStep_congr3 _ _ _ _ _ _ _ _ s (binOfIndexed_firstN _ _ _ j hj)
      (readAt_firstN _ _ j hj) (readAt_firstN _ _ j hj)
  · unfold DenseBin.ConstructHistogramRange
    rw [histLoops_eq, histLoops_eq]
    apply iterM_congr
    intro j hj s
    simp only [zero_add]
    exact histStep_congr3 _ _ _ _ _ _ _ _ s (readAt_firstN _ _ j hj)
      (readAt_firstN _ _ j hj) (readAt_firstN _ _ j hj)
  · unfold DenseBin.ConstructHistogramGrad
    rw [histLoopsGrad_eq, histLoopsGrad_eq]
    apply iterM_congr
    intro j hj s
    simp only [zero_add]
    exact histStepGrad_congr3 _ _ _ _ _ _ s (binOfIndexed_firstN _ _ _ j hj)
      (readAt_firstN _ _ j hj)
  · unfold DenseBin.ConstructHistogramRangeGrad
    rw [histLoopsGrad_eq, histLoopsGrad_eq]
    apply iterM_congr
    intro j hj s
    simp only [zero_add]
    exact histStepGrad_congr3 _ _ _ _ _ _ s (readAt_firstN _ _ j hj)
      (readAt_firstN _ _ j hj)
  · intro hn
    have e : num_data.toNat = 0 := by omega
    unfold DenseBin.ConstructHistogram DenseBin.ConstructHistogramRange
      DenseBin.ConstructHistogramGrad DenseBin.ConstructHistogramRangeGrad
    simp only [histLoops_eq, histLoopsGrad_eq, e, iterM, and_self]

theorem ConstructHistogram_unrolled_witness :
    histBin.ConstructHistogram [3, 0, 1, 2, 0] 5 [10, 20, 30, 40, 50] [1, 2, 3, 4, 5]
        ([⟨0, 0, 0⟩, ⟨7, 1, 1⟩, ⟨0, 0, 0⟩] : List (HistogramBinEntry Int))
      = plainLoop (histStep (binOfIndexed histBin.data_ [3, 0, 1, 2, 0]) [10, 20, 30, 40, 50]
          [1, 2, 3, 4, 5]) 5 [⟨0, 0, 0⟩, ⟨7, 1, 1⟩, ⟨0, 0, 0⟩] ∧
    plainLoop (histStep (binOfIndexed histBin.data_ [3, 0, 1, 2, 0]) [10, 20, 30, 40, 50]
        [1, 2, 3, 4, 5]) 5 ([⟨0, 0, 0⟩, ⟨7, 1, 1⟩, ⟨0, 0, 0⟩] : List (HistogramBinEntry Int))
      = some [⟨30, 3, 1⟩, ⟨87, 9, 4⟩, ⟨40, 4, 1⟩] ∧
    ((-3 : Int) ≤ 0 ∧
      histBin.ConstructHistogramRangeGrad (-3) [10]
          ([⟨0, 0, 0⟩, ⟨7, 1, 1⟩, ⟨0, 0, 0⟩] : List (HistogramBinEntry Int))
        = some [⟨0, 0, 0⟩, ⟨7, 1, 1⟩, ⟨0, 0, 0⟩]) :=
  ⟨(ConstructHistogram_unrolled histBin [3, 0, 1, 2, 0] 5 [10, 20, 30, 40, 50] [1, 2, 3, 4, 5]
      [⟨0, 0, 0⟩, ⟨7, 1, 1⟩, ⟨0, 0, 0⟩]).1.1,
    by rw [plainLoop_eq]; decide,
    by decide,
    ((ConstructHistogram_unrolled histBin [] (-3) [10] []
      [⟨0, 0, 0⟩, ⟨7, 1, 1⟩, ⟨0, 0, 0⟩]).2.2.2.2 (by decide)).2.2.2⟩

theorem iterM_succ_last {σ : Type} (body : Int → σ → Option σ) (k : Nat) (s : σ) :
    iterM body 1 (k + 1) 0 s = (iterM body 1 k 0 s).bind (body (k : Int)) := by
  rw [iterM_add]
  congr 1
  funext s'
  simp only [iterM, mul_one, zero_add]
  cases body (k : Int) s' <;> rfl

theorem histStepGrad_some {S : Type} [Add S] (rd : Int → Option Nat) (g : List S) (i : Int)
    (out : List (HistogramBinEntry S)) (b : Nat) (x : S)
    (hr : rd i = some b) (hg : readAt g i = some x) (hb : b < out.length) :
    histStepGrad rd g i out = some (mapAt cntF b (mapAt (gradF x) b out)) := by
  simp [histStepGrad_bind, hr, hg, addGradient_eq, incCount_eq, hb, length_mapAt]

theorem mem_firstN {α : Type} (a : List α) (num_data : Int) (d : α) (j : Nat)
    (hj : j < num_data.toNat) (hl : j < a.length) : a.getD j d ∈ firstN a num_data := by
  unfold firstN
  rw [List.getD_eq_getElem _ d hl, List.mem_iff_getElem]
  exact ⟨j, by rw [List.length_take]; omega, by simp⟩

/-- The plain loops of a mode with gradients only and of the mode with gradients and
hessians, run on the same reads: the first leaves every `sum_hessians` as it was and agrees
with the second on every `sum_gradients` and every count. -/
theorem iterM_grad_vs_full {S : Type} [Add S] (rd : Int → Option Nat) (g h : List S)
    (out : List (HistogramBinEntry S)) :
    ∀ k : Nat,
      (∀ j : Nat, j < k → ∃ (b : Nat) (x y : S), rd (j : Int) = some b ∧
        readAt g (j : Int) = some x ∧ readAt h (j : Int) = some y ∧ b < out.length) →
      ∃ r1 r2 : List (HistogramBinEntry S),
        iterM (histStepGrad rd g) 1 k 0 out = some r1 ∧
        iterM (histStep rd g h) 1 k 0 out = some r2 ∧
        r1.length = out.length ∧ r2.length = out.length ∧
        ∀ b : Nat,
          (r1[b]?).map HistogramBinEntry.sum_hessians
            = (out[b]?).map HistogramBinEntry.sum_hessians ∧
          (r1[b]?).map HistogramBinEntry.sum_gradients
            = (r2[b]?).map HistogramBinEntry.sum_gradients ∧
          (r1[b]?).map HistogramBinEntry.cnt = (r2[b]?).map HistogramBinEntry.cnt := by
  intro k
  induction k with
  | zero =>
    intro _
    exact ⟨out, out, rfl, rfl, rfl, rfl, fun _ => ⟨rfl, rfl, rfl⟩⟩
  | succ k ih =>
    intro hv
    obtain ⟨r1, r2, a1, a2, l1, l2, hrel⟩ := ih (fun j hj => hv j (Nat.lt_succ_of_lt hj))
    obtain ⟨b, x, y, hr, hg, hh, hb⟩ := hv k (Nat.lt_succ_self k)
    refine ⟨mapAt cntF b (mapAt (gradF x) b r1), applyEvent (b, x, y) r2, ?_, ?_, ?_, ?_, ?_⟩
    · rw [iterM_succ_last, a1]
      exact histStepGrad_some rd g _ r1 b x hr hg (by omega)
    · rw [iterM_succ_last, a2]
      exact histStep_some rd g h _ r2 b x y hr hg hh (by omega)
    · rw [length_mapAt, length_mapAt, l1]
    · rw [length_applyEvent, l2]
    · intro b'
      obtain ⟨i1, i2, i3⟩ := hrel b'
      simp only [applyEvent, getElem?_mapAt]
      by_cases hb' : b' = b
      · simp only [hb', if_true]
        rw [hb'] at i1 i2 i3
        cases h1 : r1[b]? <;> cases h2 : r2[b]? <;> cases h3 : out[b]? <;>
          simp_all [gradF, hessF, cntF]
      · simp only [hb', if_false]
        exact ⟨i1, i2, i3⟩

/-- Two lists with the same image of each slot under `f` have the same image under `f`. -/
theorem map_eq_of_getElem? {α β : Type} (f : α → β) (l1 l2 : List α)
    (h : ∀ b : Nat, (l1[b]?).map f = (l2[b]?).map f) : l1.map f = l2.map f := by
  apply List.ext_getElem?
  intro b
  rw [List.getElem?_map, List.getElem?_map]
  exact h b

/-- The loops of a mode with gradients only and of the mode with gradients and hessians on
the same reads, for any hessians array of at least `num_data` entries. -/
theorem histLoopsGrad_vs_full {S : Type} [Add S] (rd : Int → Option Nat) (num_data : Int)
    (g : List S) (out : List (HistogramBinEntry S)) (hg : num_data ≤ g.length)
    (hrd : ∀ j : Nat, j < num_data.toNat → ∃ b : Nat, rd (j : Int) = some b ∧ b < out.length) :
    ∃ o1 : List (HistogramBinEntry S),
      histLoopsGrad rd num_data g out = some o1 ∧ o1.length = out.length ∧
      o1.map HistogramBinEntry.sum_hessians = out.map HistogramBinEntry.sum_hessians ∧
      ∀ h : List S, num_data ≤ h.length →
        ∃ o2 : List (HistogramBinEntry S),
          histLoops rd num_data g h out = some o2 ∧ o2.length = out.length ∧
          o1.map HistogramBinEntry.sum_gradients = o2.map HistogramBinEntry.sum_gradients ∧
          o1.map HistogramBinEntry.cnt = o2.map HistogramBinEntry.cnt := by
  have hv : ∀ h : List S, num_data ≤ h.length →
      ∀ j : Nat, j < num_data.toNat → ∃ (b : Nat) (x y : S), rd (j : Int) = some b ∧
        readAt g (j : Int) = some x ∧ readAt h (j : Int) = some y ∧ b < out.length := by
    intro h hh j hj
    obtain ⟨b, e1, e2⟩ := hrd j hj
    have hjg : j < g.length := by omega
    have hjh : j < h.length := by omega
    have hx : ∃ x, readAt g (j : Int) = some x := by
      rw [readAt_natCast]
      exact ⟨g[j], List.getElem?_eq_getElem hjg⟩
    have hy : ∃ y, readAt h (j : Int) = some y := by
      rw [readAt_natCast]
      exact ⟨h[j], List.getElem?_eq_getElem hjh⟩
    obtain ⟨x, hx⟩ := hx
    obtain ⟨y, hy⟩ := hy
    exact ⟨b, x, y, e1, hx, hy, e2⟩
  obtain ⟨o1, _, a1, _, l1, _, hrel⟩ := iterM_grad_vs_full rd g g out num_data.toNat (hv g hg)
  refine ⟨o1, by rw [histLoopsGrad_eq]; exact a1, l1,
    map_eq_of_getElem? _ _ _ (fun b => (hrel b).1), ?_⟩
  intro h hh
  obtain ⟨r1, r2, b1, b2, _, m2, hrel2⟩ := iterM_grad_vs_full rd g h out num_data.toNat (hv h hh)
  have e : r1 = o1 := by
    rw [a1] at b1
    exact (Option.some.inj b1).symm
  subst e
  exact ⟨r2, by rw [histLoops_eq]; exact b2, m2,
    map_eq_of_getElem? _ _ _ (fun b => (hrel2 b).2.1),
    map_eq_of_getElem? _ _ _ (fun b => (hrel2 b).2.2)⟩

/-- Claim C20. Each mode with gradients only, indexed and full-range, when its reads are in
bounds, returns a histogram in which `sum_hessians` of every entry is as in the prior
histogram and in which, for any hessians array of at least `num_data` entries,
`sum_gradients` and the count of every entry are exactly those the corresponding mode with
gradients and hessians returns on the same storage, indices, `num_data`, gradients and prior
histogram. -/
theorem ConstructHistogramGrad_frame {w : Nat} {S : Type} [Add S] (self : DenseBin w)
    (data_indices : List Int) (num_data : Int) (g : List S)
    (out : List (HistogramBinEntry S)) (hg : num_data ≤ g.length) :
    (num_data ≤ data_indices.length →
      (∀ idx ∈ firstN data_indices num_data, 0 ≤ idx ∧ idx < self.data_.length) →
      (∀ idx ∈ firstN data_indices num_data, binAt self.data_ idx < out.length) →
      ∃ o1 : List (HistogramBinEntry S),
        self.ConstructHistogramGrad data_indices num_data g out = some o1 ∧
        o1.length = out.length ∧
        o1.map HistogramBinEntry.sum_hessians = out.map HistogramBinEntry.sum_hessians ∧
        ∀ h : List S, num_data ≤ h.length →
          ∃ o2 : List (HistogramBinEntry S),
            self.ConstructHistogram data_indices num_data g h out = some o2 ∧
            o2.length = out.length ∧
            o1.map HistogramBinEntry.sum_gradients
              = o2.map HistogramBinEntry.sum_gradients ∧
            o1.map HistogramBinEntry.cnt = o2.map HistogramBinEntry.cnt) ∧
    (num_data ≤ self.data_.length →
      (∀ v ∈ firstN self.data_ num_data, v < out.length) →
      ∃ o1 : List (HistogramBinEntry S),
        self.ConstructHistogramRangeGrad num_data g out = some o1 ∧
        o1.length = out.length ∧
        o1.map HistogramBinEntry.sum_hessians = out.map HistogramBinEntry.sum_hessians ∧
        ∀ h : List S, num_data ≤ h.length →
          ∃ o2 : List (HistogramBinEntry S),
            self.ConstructHistogramRange num_data g h out = some o2 ∧
            o2.length = out.length ∧
            o1.map HistogramBinEntry.sum_gradients
              = o2.map HistogramBinEntry.sum_gradients ∧
            o1.map HistogramBinEntry.cnt = o2.map HistogramBinEntry.cnt) := by
  constructor
  · intro hlen hidx hbin
    apply histLoopsGrad_vs_full (binOfIndexed self.data_ data_indices) num_data g out hg
    intro j hj
    exact ⟨_, binOfIndexed_eq self.data_ data_indices num_data hlen hidx j hj,
      hbin _ (mem_firstN data_indices num_data 0 j hj (by omega))⟩
  · intro hlen hbin
    apply histLoopsGrad_vs_full (binOfRange self.data_) num_data g out hg
    intro j hj
    have hl : j < self.data_.length := by omega
    exact ⟨_, readAt_getD self.data_ 0 j hl, hbin _ (mem_firstN self.data_ num_data 0 j hj hl)⟩

theorem ConstructHistogramGrad_frame_witness :
    ((4 : Int) ≤ ([10, 20, 30, 40, 50] : List Int).length ∧
      (4 : Int) ≤ ([3, 0, 1, 2, 0] : List Int).length ∧
      (∀ idx ∈ firstN ([3, 0, 1, 2, 0] : List Int) 4, 0 ≤ idx ∧ idx < histBin.data_.length) ∧
      (∀ idx ∈ firstN ([3, 0, 1, 2, 0] : List Int) 4,
        binAt histBin.data_ idx
          < ([⟨0, 0, 0⟩, ⟨7, 1, 1⟩, ⟨0, 0, 0⟩] : List (HistogramBinEntry Int)).length) ∧
      (4 : Int) ≤ histBin.data_.length ∧
      (∀ v ∈ firstN histBin.data_ 4,
        v < ([⟨0, 0, 0⟩, ⟨7, 1, 1⟩, ⟨0, 0, 0⟩] : List (HistogramBinEntry Int)).length)) ∧
    (∃ o1 : List (HistogramBinEntry Int),
      histBin.ConstructHistogramGrad [3, 0, 1, 2, 0] 4 [10, 20, 30, 40, 50]
        [⟨0, 0, 0⟩, ⟨7, 1, 1⟩, ⟨0, 0, 0⟩] = some o1 ∧
      o1.length = ([⟨0, 0, 0⟩, ⟨7, 1, 1⟩, ⟨0, 0, 0⟩] : List (HistogramBinEntry Int)).length ∧
      o1.map HistogramBinEntry.sum_hessians
        = ([⟨0, 0, 0⟩, ⟨7, 1, 1⟩, ⟨0, 0, 0⟩] : List (HistogramBinEntry Int)).map
            HistogramBinEntry.sum_hessians ∧
      ∀ h : List Int, (4 : Int) ≤ h.length →
        ∃ o2 : List (HistogramBinEntry Int),
          histBin.ConstructHistogram [3, 0, 1, 2, 0] 4 [10, 20, 30, 40, 50] h
            [⟨0, 0, 0⟩, ⟨7, 1, 1⟩, ⟨0, 0, 0⟩] = some o2 ∧
          o2.length
            = ([⟨0, 0, 0⟩, ⟨7, 1, 1⟩, ⟨0, 0, 0⟩] : List (HistogramBinEntry Int)).length ∧
          o1.map HistogramBinEntry.sum_gradients = o2.map HistogramBinEntry.sum_gradients ∧
          o1.map HistogramBinEntry.cnt = o2.map HistogramBinEntry.cnt) ∧
    (∃ o1 : List (HistogramBinEntry Int),
      histBin.ConstructHistogramRangeGrad 4 [10, 20, 30, 40, 50]
        [⟨0, 0, 0⟩, ⟨7, 1, 1⟩, ⟨0, 0, 0⟩] = some o1 ∧
      o1.length = ([⟨0, 0, 0⟩, ⟨7, 1, 1⟩, ⟨0, 0, 0⟩] : List (HistogramBinEntry Int)).length ∧
      o1.map HistogramBinEntry.sum_hessians
        = ([⟨0, 0, 0⟩, ⟨7, 1, 1⟩, ⟨0, 0, 0⟩] : List (HistogramBinEntry Int)).map
            HistogramBinEntry.sum_hessians ∧
      ∀ h : List Int, (4 : Int) ≤ h.length →
        ∃ o2 : List (HistogramBinEntry Int),
          histBin.ConstructHistogramRange 4 [10, 20, 30, 40, 50] h
            [⟨0, 0, 0⟩, ⟨7, 1, 1⟩, ⟨0, 0, 0⟩] = some o2 ∧
          o2.length
            = ([⟨0, 0, 0⟩, ⟨7, 1, 1⟩, ⟨0, 0, 0⟩] : List (HistogramBinEntry Int)).length ∧
          o1.map HistogramBinEntry.sum_gradients = o2.map HistogramBinEntry.sum_gradients ∧
          o1.map HistogramBinEntry.cnt = o2.map HistogramBinEntry.cnt) :=
  ⟨⟨by decide, by decide, by decide, by decide, by decide, by decide⟩,
    (ConstructHistogramGrad_frame histBin [3, 0, 1, 2, 0] 4 [10, 20, 30, 40, 50]
      [⟨0, 0, 0⟩, ⟨7, 1, 1⟩, ⟨0, 0, 0⟩] (by decide)).1 (by decide) (by decide) (by decide),
    (ConstructHistogramGrad_frame histBin [3, 0, 1, 2, 0] 4 [10, 20, 30, 40, 50]
      [⟨0, 0, 0⟩, ⟨7, 1, 1⟩, ⟨0, 0, 0⟩] (by decide)).2 (by decide) (by decide)⟩

end LightGBM
